import Mathlib

/-! # Monkey interpreter: lexer, parser and evaluator

A shallow embedding of `internal/token`, `internal/lexer`, `internal/ast`,
`internal/parser`, `internal/object` and `internal/evaluator`, followed by the
properties established about them.

Conventions of the embedding:

* a Go `string` is a Lean `String` (valid text; its runes are `String.data`);
* a Go `int` is an `Int` kept inside the signed 64-bit range by `wrap64`;
* a Go run-time panic is `Res.panic`; recursion that Go bounds only by its
  stack is bounded here by a fuel argument, `Res.outOfFuel` when it runs out;
* pointers (`*Environment`, the backing store of a slice, a map) are indices
  into a `Heap`.
-/

namespace Monkey

/-! ## Results -/

/-- Outcome of a computation that may panic (a Go run-time panic) or exhaust its fuel. -/
inductive Res (α : Type) where
  | ok (a : α)
  | panic (msg : String)
  | outOfFuel
  deriving Repr, DecidableEq

/-- Sequencing of outcomes: a panic or an exhausted fuel ends the computation. -/
def Res.bind {α β : Type} (r : Res α) (f : α → Res β) : Res β :=
  match r with
  | .ok a => f a
  | .panic m => .panic m
  | .outOfFuel => .outOfFuel

instance : Monad Res where
  pure := Res.ok
  bind := Res.bind

/-! ## internal/token -/

/-- Token kinds: the string constants of `token.go`; `ZERO` is the zero value `""` of
`token.Type`, found in a `Token` that was never assigned. -/
inductive TokenType where
  | ZERO
  | ILLEGAL | EOF
  | IDENT | INT | STRING
  | ASSIGN | PLUS | MINUS | DIVIDE | MULTIPLY
  | COMMA | COLON | SEMICOLON | BANG | GT | LT | EQ | NEQ
  | LPAREN | RPAREN | LBRACE | RBRACE | LBRACKET | RBRACKET
  | FUNCTION | LET | IF | WHILE | ELSE | RETURN | TRUE | FALSE
  deriving Repr, DecidableEq

/-- The Go string behind each token kind (used by `fmt` in error messages). -/
def TokenType.str : TokenType → String
  | .ZERO => ""
  | .ILLEGAL => "ILLEGAL" | .EOF => "EOF"
  | .IDENT => "IDENT" | .INT => "INT" | .STRING => "STRING"
  | .ASSIGN => "=" | .PLUS => "+" | .MINUS => "-" | .DIVIDE => "/" | .MULTIPLY => "*"
  | .COMMA => "," | .COLON => ":" | .SEMICOLON => ";" | .BANG => "!"
  | .GT => ">" | .LT => "<" | .EQ => "==" | .NEQ => "!="
  | .LPAREN => "(" | .RPAREN => ")" | .LBRACE => "\x7b" | .RBRACE => "\x7d"
  | .LBRACKET => "[" | .RBRACKET => "]"
  | .FUNCTION => "FUNCTION" | .LET => "LET" | .IF => "IF" | .WHILE => "WHILE"
  | .ELSE => "ELSE" | .RETURN => "RETURN" | .TRUE => "TRUE" | .FALSE => "FALSE"

/-- Token: `token.Token`. -/
structure Token where
  type : TokenType
  literal : String
  deriving Repr, DecidableEq

/-- The keyword table `keywords` together with `LookupIndent`. -/
def LookupIndent (ident : String) : TokenType :=
  if ident = "fn" then .FUNCTION
  else if ident = "let" then .LET
  else if ident = "if" then .IF
  else if ident = "else" then .ELSE
  else if ident = "return" then .RETURN
  else if ident = "true" then .TRUE
  else if ident = "false" then .FALSE
  else if ident = "while" then .WHILE
  else .IDENT

/-! ## internal/lexer -/

/-- The tables of Go's `unicode` package for runes above Latin-1 (`unicode.MaxLatin1`): the
runes that are letters, decimal digits and white space there. They are not part of the
repository and are left as a parameter. -/
structure UnicodeTables where
  letter : List Char
  digit : List Char
  space : List Char
  deriving Repr, DecidableEq

/-- `unicode.IsLetter`: Latin-1 runes are decided by the fixed property table. -/
def UnicodeTables.IsLetter (T : UnicodeTables) (c : Char) : Bool :=
  let n := c.toNat
  if n ≤ 0xFF then
    (0x41 ≤ n && n ≤ 0x5A) || (0x61 ≤ n && n ≤ 0x7A) || n == 0xAA || n == 0xB5 || n == 0xBA
      || (0xC0 ≤ n && n ≤ 0xD6) || (0xD8 ≤ n && n ≤ 0xF6) || (0xF8 ≤ n && n ≤ 0xFF)
  else T.letter.contains c

/-- `unicode.IsDigit`: below `MaxLatin1` exactly the runes `0` to `9`. -/
def UnicodeTables.IsDigit (T : UnicodeTables) (c : Char) : Bool :=
  let n := c.toNat
  if n ≤ 0xFF then 0x30 ≤ n && n ≤ 0x39 else T.digit.contains c

/-- `unicode.IsSpace`: in Latin-1 the runes `\t \n \v \f \r`, space, U+0085 and U+00A0. -/
def UnicodeTables.IsSpace (T : UnicodeTables) (c : Char) : Bool :=
  let n := c.toNat
  if n ≤ 0xFF then
    n == 0x09 || n == 0x0A || n == 0x0B || n == 0x0C || n == 0x0D || n == 0x20
      || n == 0x85 || n == 0xA0
  else T.space.contains c

/-- Tables with nothing above Latin-1; used to run the lexer on concrete ASCII text. -/
def latin1Only : UnicodeTables := ⟨[], [], []⟩

/-- `len(s)` of a Go string given by its runes: the number of UTF-8 bytes. -/
def byteLen : List Char → Nat
  | [] => 0
  | c :: cs => c.utf8Size + byteLen cs

/-- The runes of `s` that start at a byte offset in `[lo, hi)`. -/
def runesBetween : List Char → Nat → Nat → List Char
  | [], _, _ => []
  | c :: cs, lo, hi =>
    if lo = 0 then
      if hi = 0 then [] else c :: runesBetween cs 0 (hi - c.utf8Size)
    else runesBetween cs (lo - c.utf8Size) (hi - c.utf8Size)

/-- Go slicing `s[lo:hi]`; out-of-range bounds panic (`none`). The lexer only slices at
rune boundaries, where the slice is the text of the runes in between. -/
def sliceBytes (s : List Char) (lo hi : Nat) : Option String :=
  if lo ≤ hi ∧ hi ≤ byteLen s then some (String.mk (runesBetween s lo hi)) else none

/-- `[]rune(s[i:i+1])[0]` for `i` in range: the byte at offset `i` read as a rune, which is
the rune itself for a one-byte rune and U+FFFD for a byte of a longer encoding. -/
def runeOfByteAt : List Char → Nat → Char
  | [], _ => Char.ofNat 0xFFFD
  | c :: cs, i =>
    if i = 0 then (if c.utf8Size = 1 then c else Char.ofNat 0xFFFD)
    else if i < c.utf8Size then Char.ofNat 0xFFFD
    else runeOfByteAt cs (i - c.utf8Size)

/-- Lexer state: `lexer.Lexer`. `pending` is what the pulled rune iterator has yet to yield;
`unicode` stands for the linked `unicode` package. -/
structure Lexer where
  unicode : UnicodeTables
  input : List Char
  pending : List Char
  position : Nat
  readPosition : Nat
  character : Char
  deriving Repr, DecidableEq

/-- `readChar`: the iterator yields rune 0 once exhausted, and `utf8.RuneLen(0)` is 1. -/
def Lexer.readChar (l : Lexer) : Lexer :=
  match l.pending with
  | [] =>
    { l with character := Char.ofNat 0, position := l.readPosition,
             readPosition := l.readPosition + (Char.ofNat 0).utf8Size }
  | c :: cs =>
    { l with pending := cs, character := c, position := l.readPosition,
             readPosition := l.readPosition + c.utf8Size }

/-- `lexer.New`. -/
def Lexer.New (T : UnicodeTables) (input : String) : Lexer :=
  Lexer.readChar
    { unicode := T, input := input.data, pending := input.data, position := 0,
      readPosition := 0, character := Char.ofNat 0 }

/-- `peekChar`: the guard is `readPosition > len(input)`, so `readPosition = len(input)`
reaches the slice `input[readPosition : readPosition+1]`, which is out of range. -/
def Lexer.peekChar (l : Lexer) : Option Char :=
  if l.readPosition > byteLen l.input then some (Char.ofNat 0)
  else if l.readPosition + 1 ≤ byteLen l.input then some (runeOfByteAt l.input l.readPosition)
  else none

/-- The loop `for p(l.character) { l.readChar() }`, run for at most `n` rounds. After
`pending.length + 1` reads the current rune is 0, on which every `p` used here is false. -/
def Lexer.readWhile (p : Char → Bool) : Nat → Lexer → Lexer
  | 0, l => l
  | n + 1, l => if p l.character then Lexer.readWhile p n l.readChar else l

/-- `readIdentifier`: the loop accepts letters and `_` only. -/
def Lexer.readIdentifier (l : Lexer) : Option (String × Lexer) :=
  let pos := l.position
  let l1 := Lexer.readWhile (fun c => l.unicode.IsLetter c || c == '_') (l.pending.length + 1) l
  (sliceBytes l1.input pos l1.position).map (fun s => (s, l1))

/-- `readInteger`. -/
def Lexer.readInteger (l : Lexer) : Option (String × Lexer) :=
  let pos := l.position
  let l1 := Lexer.readWhile (fun c => l.unicode.IsDigit c) (l.pending.length + 1) l
  (sliceBytes l1.input pos l1.position).map (fun s => (s, l1))

/-- The loop of `readString`: read, then stop on `"` or rune 0. -/
def Lexer.readStringLoop : Nat → Lexer → Lexer
  | 0, l => l.readChar
  | n + 1, l =>
    let l1 := l.readChar
    if l1.character == '"' || l1.character == Char.ofNat 0 then l1
    else Lexer.readStringLoop n l1

/-- `readString`. -/
def Lexer.readString (l : Lexer) : Option (String × Lexer) :=
  let pos := l.position + 1
  let l1 := Lexer.readStringLoop l.pending.length l
  (sliceBytes l1.input pos l1.position).map (fun s => (s, l1))

/-- `skipWhitespace`. -/
def Lexer.skipWhitespace (l : Lexer) : Lexer :=
  Lexer.readWhile (fun c => l.unicode.IsSpace c) (l.pending.length + 1) l

/-- `newToken`. -/
def newToken (tokenType : TokenType) (ch : Char) : Token :=
  { type := tokenType, literal := String.singleton ch }

/-- `determineTokenType`. -/
def Lexer.determineTokenType (l : Lexer) (fType sType : TokenType) (lookFor : Char) :
    Option (Token × Lexer) :=
  match l.peekChar with
  | none => none
  | some c =>
    if c = lookFor then
      let ch := l.character
      let l1 := l.readChar
      some ({ type := sType, literal := String.singleton ch ++ String.singleton l1.character }, l1)
    else some (newToken fType l.character, l)

/-- `NextToken`; `none` is a run-time panic. -/
def Lexer.NextToken (l0 : Lexer) : Option (Token × Lexer) :=
  let l := l0.skipWhitespace
  let c := l.character
  let single (t : TokenType) : Option (Token × Lexer) := some (newToken t c, l.readChar)
  if c = '=' then
    (l.determineTokenType .ASSIGN .EQ '=').map (fun r => (r.1, r.2.readChar))
  else if c = '+' then single .PLUS
  else if c = '-' then single .MINUS
  else if c = '/' then single .DIVIDE
  else if c = '*' then single .MULTIPLY
  else if c = '(' then single .LPAREN
  else if c = ')' then single .RPAREN
  else if c = '\x7b' then single .LBRACE
  else if c = '\x7d' then single .RBRACE
  else if c = '[' then single .LBRACKET
  else if c = ']' then single .RBRACKET
  else if c = ',' then single .COMMA
  else if c = ':' then single .COLON
  else if c = ';' then single .SEMICOLON
  else if c = '!' then
    (l.determineTokenType .BANG .NEQ '=').map (fun r => (r.1, r.2.readChar))
  else if c = '>' then single .GT
  else if c = '<' then single .LT
  else if c = '"' then
    l.readString.map (fun r => ({ type := .STRING, literal := r.1 }, r.2.readChar))
  else if c = Char.ofNat 0 then some ({ type := .EOF, literal := "" }, l.readChar)
  else if l.unicode.IsLetter c || c == '_' then
    l.readIdentifier.map (fun r => ({ type := LookupIndent r.1, literal := r.1 }, r.2))
  else if l.unicode.IsDigit c then
    l.readInteger.map (fun r => ({ type := .INT, literal := r.1 }, r.2))
  else single .ILLEGAL

/-! ## internal/ast -/

/-- Identifier node: `ast.Identifier`. -/
structure ast.Identifier where
  token : Token
  value : String
  deriving Repr, DecidableEq

mutual
/-- Nodes: the implementers of `ast.Node` (`Statement` and `Expression` are aliases of it);
`nil` is the nil interface value. -/
inductive ast.Node where
  | nil
  | Program (statements : List ast.Node)
  | Identifier (i : ast.Identifier)
  | Integer (token : Token) (value : Int)
  | String (token : Token) (value : String)
  | Array (token : Token) (items : List ast.Node)
  | HashTable (token : Token) (items : List (ast.Node × ast.Node))
  | Boolean (token : Token) (value : Bool)
  | If (token : Token) (conditions : List ast.Node) (consequences : List ast.BlockStatement)
      (alternative : ast.BlockStatement)
  | While (token : Token) (condition : ast.Node) (body : ast.BlockStatement)
  | Function (token : Token) (parameters : List ast.Identifier) (body : ast.BlockStatement)
  | Call (token : Token) (function : ast.Node) (arguments : List ast.Node)
  | AccessByExpression (token : Token) (left : ast.Node) (index : ast.Node)
  | Prefix (token : Token) (operator : String) (right : ast.Node)
  | Infix (token : Token) (operator : String) (left : ast.Node) (right : ast.Node)
  | LetStatement (token : Token) (name : ast.Identifier) (value : ast.Node)
  | ReturnStatement (token : Token) (value : ast.Node)
  | ExpressionStatement (token : Token) (expression : ast.Node)
  | BlockStatement (b : ast.BlockStatement)
/-- Block: `ast.BlockStatement`, also used as a struct field of `If`, `While`, `Function`. -/
inductive ast.BlockStatement where
  | mk (token : Token) (statements : List ast.Node)
end

/-- The zero `token.Token`. -/
def Token.zero : Token := { type := .ZERO, literal := "" }

/-- The zero `ast.BlockStatement` (an `If` without `else` keeps it as `Alternative`). -/
def ast.BlockStatement.zero : ast.BlockStatement := .mk Token.zero []

/-- Field `Statements` of a block. -/
def ast.BlockStatement.statements : ast.BlockStatement → List ast.Node
  | .mk _ s => s

/-- Field `Token` of a block. -/
def ast.BlockStatement.token : ast.BlockStatement → Token
  | .mk t _ => t

instance : Inhabited ast.Node := ⟨.nil⟩

/-- Flat codes of syntax trees, used to decide equality of nodes. -/
inductive ast.Code where
  | leaf (tag : Nat) (token : Token) (text : String) (value : Int) (ids : List ast.Identifier)
  | fork (a b : ast.Code)
  | stop
  deriving DecidableEq

mutual
/-- Code of a node. -/
def ast.Node.code : ast.Node → ast.Code
  | .nil => .stop
  | .Program s => .fork (.leaf 1 Token.zero "" 0 []) (ast.codeNodes s)
  | .Identifier i => .leaf 2 Token.zero "" 0 [i]
  | .Integer t v => .leaf 3 t "" v []
  | .String t v => .leaf 4 t v 0 []
  | .Array t xs => .fork (.leaf 5 t "" 0 []) (ast.codeNodes xs)
  | .HashTable t xs => .fork (.leaf 6 t "" 0 []) (ast.codePairs xs)
  | .Boolean t v => .leaf 7 t "" (if v then 1 else 0) []
  | .If t c q a =>
    .fork (.leaf 8 t "" 0 []) (.fork (ast.codeNodes c) (.fork (ast.codeBlocks q) a.code))
  | .While t c b => .fork (.leaf 9 t "" 0 []) (.fork c.code b.code)
  | .Function t ps b => .fork (.leaf 10 t "" 0 ps) b.code
  | .Call t f xs => .fork (.leaf 11 t "" 0 []) (.fork f.code (ast.codeNodes xs))
  | .AccessByExpression t l i => .fork (.leaf 12 t "" 0 []) (.fork l.code i.code)
  | .Prefix t o r => .fork (.leaf 13 t o 0 []) r.code
  | .Infix t o l r => .fork (.leaf 14 t o 0 []) (.fork l.code r.code)
  | .LetStatement t n v => .fork (.leaf 15 t "" 0 [n]) v.code
  | .ReturnStatement t v => .fork (.leaf 16 t "" 0 []) v.code
  | .ExpressionStatement t e => .fork (.leaf 17 t "" 0 []) e.code
  | .BlockStatement b => .fork (.leaf 18 Token.zero "" 0 []) b.code
/-- Code of a block. -/
def ast.BlockStatement.code : ast.BlockStatement → ast.Code
  | .mk t s => .fork (.leaf 19 t "" 0 []) (ast.codeNodes s)
/-- Code of a list of nodes. -/
def ast.codeNodes : List ast.Node → ast.Code
  | [] => .stop
  | a :: as => .fork a.code (ast.codeNodes as)
/-- Code of a list of node pairs. -/
def ast.codePairs : List (ast.Node × ast.Node) → ast.Code
  | [] => .stop
  | (a, b) :: as => .fork (.fork a.code b.code) (ast.codePairs as)
/-- Code of a list of blocks. -/
def ast.codeBlocks : List ast.BlockStatement → ast.Code
  | [] => .stop
  | a :: as => .fork a.code (ast.codeBlocks as)
end

set_option maxHeartbeats 1000000 in
/-- Nodes with the same code are equal. -/
theorem ast.Node.code_injective (a : ast.Node) : ∀ b, a.code = b.code → a = b := by
  refine ast.Node.rec
    (motive_1 := fun a => ∀ b, ast.Node.code a = ast.Node.code b → a = b)
    (motive_2 := fun a => ∀ b, ast.BlockStatement.code a = ast.BlockStatement.code b → a = b)
    (motive_3 := fun a => ∀ b, ast.codeNodes a = ast.codeNodes b → a = b)
    (motive_4 := fun a => ∀ b, ast.codePairs a = ast.codePairs b → a = b)
    (motive_5 := fun a => ∀ b, ast.codeBlocks a = ast.codeBlocks b → a = b)
    (motive_6 := fun a => ∀ b, ast.Code.fork a.1.code a.2.code = ast.Code.fork b.1.code b.2.code → a = b)
    ?_ ?_ ?_ ?_ ?_ ?_ ?_ ?_ ?_ ?_ ?_ ?_ ?_ ?_ ?_ ?_ ?_ ?_ ?_ ?_ ?_ ?_ ?_ ?_ ?_ ?_ ?_ a
  case refine_24 =>
    intro head tail ihh iht
    intro b h
    rcases head with ⟨x, y⟩
    cases b with
    | nil => simp [ast.codePairs] at h
    | cons hd tl =>
      rcases hd with ⟨x2, y2⟩
      simp only [ast.codePairs, ast.Code.fork.injEq] at h
      rw [ihh (x2, y2) (by simp [h.1.1, h.1.2]), iht tl h.2]
  all_goals intros
  all_goals intro b h
  all_goals cases b
  all_goals simp only [ast.Node.code, ast.BlockStatement.code, ast.codeNodes, ast.codePairs,
    ast.codeBlocks, ast.Code.fork.injEq, ast.Code.leaf.injEq, reduceCtorEq, and_false, false_and,
    and_true, true_and, OfNat.ofNat_ne_zero, Nat.reduceEqDiff] at h
  all_goals first
    | rfl
    | (simp_all; done)
    | aesop

/-- Equality of nodes is decided on their codes. -/
instance : DecidableEq ast.Node := fun a b =>
  decidable_of_iff (a.code = b.code) ⟨ast.Node.code_injective a b, congrArg ast.Node.code⟩

/-- Equality of blocks is decided as equality of the nodes holding them. -/
instance : DecidableEq ast.BlockStatement := fun a b =>
  decidable_of_iff (ast.Node.BlockStatement a = ast.Node.BlockStatement b)
    ⟨fun h => by injection h, fun h => by rw [h]⟩

/-- Whether a node can be a Go map key: its dynamic type, and those of the interface
fields below it, hold no slice and no map. Hashing any other key panics. -/
def ast.Node.hashable : ast.Node → Bool
  | .nil => true
  | .Identifier _ => true
  | .Integer _ _ => true
  | .String _ _ => true
  | .Boolean _ _ => true
  | .AccessByExpression _ l i => l.hashable && i.hashable
  | .Prefix _ _ r => r.hashable
  | .Infix _ _ l r => l.hashable && r.hashable
  | .ReturnStatement _ v => v.hashable
  | .ExpressionStatement _ e => e.hashable
  | _ => false

/-- Go `==` on two map keys that are hashable nodes: same dynamic type and equal fields. -/
def ast.Node.keyEq : ast.Node → ast.Node → Bool
  | .nil, .nil => true
  | .Identifier a, .Identifier b => a == b
  | .Integer t v, .Integer t2 v2 => t == t2 && v == v2
  | .String t v, .String t2 v2 => t == t2 && v == v2
  | .Boolean t v, .Boolean t2 v2 => t == t2 && v == v2
  | .AccessByExpression t l i, .AccessByExpression t2 l2 i2 =>
    t == t2 && l.keyEq l2 && i.keyEq i2
  | .Prefix t o r, .Prefix t2 o2 r2 => t == t2 && o == o2 && r.keyEq r2
  | .Infix t o l r, .Infix t2 o2 l2 r2 => t == t2 && o == o2 && l.keyEq l2 && r.keyEq r2
  | .ReturnStatement t v, .ReturnStatement t2 v2 => t == t2 && v.keyEq v2
  | .ExpressionStatement t e, .ExpressionStatement t2 e2 => t == t2 && e.keyEq e2
  | _, _ => false

/-- The map store `m[k] = v` on a map kept as its entries in insertion order. -/
def mapSet {κ ν : Type} (eq : κ → κ → Bool) : List (κ × ν) → κ → ν → List (κ × ν)
  | [], k, v => [(k, v)]
  | (k0, v0) :: rest, k, v =>
    if eq k0 k then (k0, v) :: rest else (k0, v0) :: mapSet eq rest k v

/-- The map read `v, ok := m[k]`. -/
def mapGet {κ ν : Type} (eq : κ → κ → Bool) : List (κ × ν) → κ → Option ν
  | [], _ => none
  | (k0, v0) :: rest, k => if eq k0 k then some v0 else mapGet eq rest k

/-! ## strconv (Go standard library, as used by the parser) -/

/-- The two failures of `strconv` number parsing: `ErrSyntax` and `ErrRange`. -/
inductive NumError where
  | ErrSyntax
  | ErrRange
  deriving Repr, DecidableEq

/-- The digit loop of `strconv.ParseUint(s, 10, 64)`; a byte that is not an ASCII digit
(so any rune that is not one) is a syntax error, a value above `2^64 - 1` a range error. -/
def parseUintLoop : List Char → Nat → Except NumError Nat
  | [], n => .ok n
  | c :: cs, n =>
    if 48 ≤ c.toNat ∧ c.toNat ≤ 57 then
      if n ≥ 1844674407370955162 then .error .ErrRange
      else if n * 10 + (c.toNat - 48) > 18446744073709551615 then .error .ErrRange
      else parseUintLoop cs (n * 10 + (c.toNat - 48))
    else .error .ErrSyntax

/-- Text of a `strconv.NumError`; `strconv.Quote` is taken as plain double quotes, which
is what it yields on printable text without quotes and backslashes. -/
def numErrorText (fn s : String) (e : NumError) : String :=
  "strconv." ++ fn ++ ": parsing \"" ++ s ++ "\": " ++
    (match e with
     | .ErrSyntax => "invalid syntax"
     | .ErrRange => "value out of range")

/-- `strconv.Atoi` on a 64-bit host: the value and the error text, if any. -/
def Atoi (s : String) : Int × Option String :=
  let neg : Bool := match s.data with
    | c :: _ => c == '-'
    | [] => false
  let digits : List Char := match s.data with
    | c :: r => if c == '-' || c == '+' then r else c :: r
    | [] => []
  if digits = [] then (0, some (numErrorText "Atoi" s .ErrSyntax))
  else
    match parseUintLoop digits 0 with
    | .error .ErrSyntax => (0, some (numErrorText "Atoi" s .ErrSyntax))
    | .error .ErrRange =>
      (if neg then -9223372036854775808 else 9223372036854775807,
        some (numErrorText "Atoi" s .ErrRange))
    | .ok un =>
      if !neg && un ≥ 9223372036854775808 then
        (9223372036854775807, some (numErrorText "Atoi" s .ErrRange))
      else if neg && un > 9223372036854775808 then
        (-9223372036854775808, some (numErrorText "Atoi" s .ErrRange))
      else (if neg then -(un : Int) else (un : Int), none)

/-- `strconv.ParseBool`. -/
def ParseBool (s : String) : Bool × Option String :=
  if s = "1" ∨ s = "t" ∨ s = "T" ∨ s = "TRUE" ∨ s = "true" ∨ s = "True" then (true, none)
  else if s = "0" ∨ s = "f" ∨ s = "F" ∨ s = "FALSE" ∨ s = "false" ∨ s = "False" then
    (false, none)
  else (false, some (numErrorText "ParseBool" s .ErrSyntax))

/-! ## internal/parser -/

/-- Structural error: `parser.Error`. -/
structure parser.Error where
  Message : String
  deriving Repr, DecidableEq

/-- `unexpectedTypeError`. -/
def unexpectedTypeError (expected actual : TokenType) : parser.Error :=
  ⟨"expected next token to be '" ++ expected.str ++ "', got " ++ actual.str ++ " instead"⟩

/-- `parseFnNotImplemented`. -/
def parseFnNotImplemented (expected : TokenType) : parser.Error :=
  ⟨"parse function for token type '" ++ expected.str ++ "' is not implemented"⟩

/-- `invalidValue`, given the text of the Go error. -/
def invalidValue (expected : String) (err : String) : parser.Error :=
  ⟨"error parsing " ++ expected ++ " value: " ++ err⟩

/-- Parser state: `parser.Parser` (the two handler tables are the constant functions
`prefixParseFns` and `infixParseFns` below). -/
structure Parser where
  l : Lexer
  token : Token
  readToken : Token
  errors : List parser.Error
  deriving Repr, DecidableEq

/-- Binding powers. -/
abbrev Precedence := Nat

/-- Binding power `LOWEST`. -/
def LOWEST : Precedence := 1
/-- Binding power of `=`. -/
def ASSIGN : Precedence := 2
/-- Binding power of `==` and `!=`. -/
def EQUALS : Precedence := 3
/-- Binding power of `>` and `<`. -/
def COMPARISON : Precedence := 4
/-- Binding power of `+` and `-`. -/
def SUM : Precedence := 5
/-- Binding power of `*` and `/`. -/
def PRODUCT : Precedence := 6
/-- Binding power of the unary operators. -/
def PREFIX : Precedence := 7
/-- Binding power of a call. -/
def CALL : Precedence := 8
/-- Binding power of an index access. -/
def INDEX_OR_KEY : Precedence := 8

/-- The map `precedences`; a missing key reads as the zero value 0. -/
def precedences : TokenType → Precedence
  | .EQ => EQUALS
  | .NEQ => EQUALS
  | .GT => COMPARISON
  | .LT => COMPARISON
  | .PLUS => SUM
  | .MINUS => SUM
  | .MULTIPLY => PRODUCT
  | .DIVIDE => PRODUCT
  | .LPAREN => CALL
  | .LBRACKET => INDEX_OR_KEY
  | .ASSIGN => ASSIGN
  | _ => 0

/-- Names of the handlers registered by `registerPrefixFn`. -/
inductive PrefixParseFn where
  | parseIdentifier | parseInteger | parseString | parseBoolean | parsePrefix
  | parseGroup | parseArray | parseHashTable | parseIf | parseWhile | parseFunction
  deriving Repr, DecidableEq

/-- Names of the handlers registered by `registerInfixFn`. -/
inductive InfixParseFn where
  | parseInfix | parseCall | parseAccessByIndexOrKey
  deriving Repr, DecidableEq

/-- The table `prefixParseFns` as filled by `New`. -/
def prefixParseFns : TokenType → Option PrefixParseFn
  | .IDENT => some .parseIdentifier
  | .INT => some .parseInteger
  | .STRING => some .parseString
  | .TRUE => some .parseBoolean
  | .FALSE => some .parseBoolean
  | .BANG => some .parsePrefix
  | .MINUS => some .parsePrefix
  | .LPAREN => some .parseGroup
  | .LBRACKET => some .parseArray
  | .LBRACE => some .parseHashTable
  | .IF => some .parseIf
  | .WHILE => some .parseWhile
  | .FUNCTION => some .parseFunction
  | _ => none

/-- The table `infixParseFns` as filled by `New`. -/
def infixParseFns : TokenType → Option InfixParseFn
  | .PLUS => some .parseInfix
  | .MINUS => some .parseInfix
  | .DIVIDE => some .parseInfix
  | .MULTIPLY => some .parseInfix
  | .GT => some .parseInfix
  | .LT => some .parseInfix
  | .EQ => some .parseInfix
  | .NEQ => some .parseInfix
  | .ASSIGN => some .parseInfix
  | .LPAREN => some .parseCall
  | .LBRACKET => some .parseAccessByIndexOrKey
  | _ => none

/-- `nextToken`; a panic of the lexer surfaces here. -/
def Parser.nextToken (p : Parser) : Res Parser :=
  match p.l.NextToken with
  | none => .panic "runtime error: slice bounds out of range"
  | some r => .ok { p with token := p.readToken, readToken := r.1, l := r.2 }

/-- `parser.New`: two `nextToken` calls fill `token` and `readToken`. -/
def Parser.New (l : Lexer) : Res Parser := do
  let p1 ← Parser.nextToken { l := l, token := Token.zero, readToken := Token.zero, errors := [] }
  p1.nextToken

/-- `pushError`. -/
def Parser.pushError (p : Parser) (e : parser.Error) : Parser :=
  { p with errors := p.errors ++ [e] }

/-- `expectRead`. -/
def Parser.expectRead (p : Parser) (expectedType : TokenType) : Res (Bool × Parser) :=
  if p.readToken.type = expectedType then do
    let p1 ← p.nextToken
    return (true, p1)
  else .ok (false, p.pushError (unexpectedTypeError expectedType p.readToken.type))

/-- `parseIdentifier`. -/
def Parser.parseIdentifier (p : Parser) : ast.Identifier :=
  { token := p.token, value := p.token.literal }

/-- `parseBoolean`. -/
def Parser.parseBoolean (p : Parser) : ast.Node × Parser :=
  let r := ParseBool p.token.literal
  (.Boolean p.token r.1,
    match r.2 with
    | some err => p.pushError (invalidValue "boolean" err)
    | none => p)

/-- `parseInteger`. -/
def Parser.parseInteger (p : Parser) : ast.Node × Parser :=
  let r := Atoi p.token.literal
  (.Integer p.token r.1,
    match r.2 with
    | some err => p.pushError (invalidValue "integer" err)
    | none => p)

/-- `parseString`. -/
def Parser.parseString (p : Parser) : ast.Node :=
  .String p.token p.token.literal

/-- `parseFunctionParameters`, with the parameters read so far. -/
def parseFunctionParameters : Nat → List ast.Identifier → Parser →
    Res (List ast.Identifier × Parser)
  | 0, _, _ => .outOfFuel
  | fuel + 1, parameters, p =>
    let parameters1 := parameters ++ [p.parseIdentifier]
    if p.readToken.type = .RPAREN then .ok (parameters1, p)
    else do
      let r ← p.expectRead .COMMA
      if !r.1 then return (parameters1, r.2)
      else do
        let p2 ← r.2.nextToken
        parseFunctionParameters fuel parameters1 p2

/-- Whether an interface value is nil. -/
def ast.Node.isNil : ast.Node → Bool
  | .nil => true
  | _ => false

/-- Consumes an optional `;` after a statement. -/
def Parser.skipSemicolon (p : Parser) : Res Parser :=
  if p.readToken.type = .SEMICOLON then p.nextToken else .ok p

mutual

/-- `parseExpression`: the handler lookup and call; the `for` loop is `parseExpressionLoop`. -/
def parseExpression : Nat → Precedence → Parser → Res (ast.Node × Parser)
  | 0, _, _ => .outOfFuel
  | fuel + 1, precedence, p =>
    match prefixParseFns p.token.type with
    | none => .ok (.nil, p.pushError (parseFnNotImplemented p.token.type))
    | some fn => do
      let r ← (match fn with
        | .parseIdentifier => .ok (.Identifier p.parseIdentifier, p)
        | .parseInteger => .ok p.parseInteger
        | .parseString => .ok (p.parseString, p)
        | .parseBoolean => .ok p.parseBoolean
        | .parsePrefix => parsePrefix fuel p
        | .parseGroup => parseGroup fuel p
        | .parseArray => parseArray fuel p
        | .parseHashTable => parseHashTable fuel p
        | .parseIf => parseIf fuel p
        | .parseWhile => parseWhile fuel p
        | .parseFunction => parseFunction fuel p : Res (ast.Node × Parser))
      parseExpressionLoop fuel precedence r.1 r.2

/-- The loop of `parseExpression` over the infix handlers. -/
def parseExpressionLoop : Nat → Precedence → ast.Node → Parser → Res (ast.Node × Parser)
  | 0, _, _, _ => .outOfFuel
  | fuel + 1, precedence, leftExp, p =>
    if p.readToken.type ≠ .SEMICOLON ∧ precedence < precedences p.readToken.type then
      match infixParseFns p.readToken.type with
      | none => .ok (.nil, p.pushError (parseFnNotImplemented p.token.type))
      | some fn => do
        let p1 ← p.nextToken
        let r ← (match fn with
          | .parseInfix => parseInfix fuel leftExp p1
          | .parseCall => parseCall fuel leftExp p1
          | .parseAccessByIndexOrKey => parseAccessByIndexOrKey fuel leftExp p1 :
            Res (ast.Node × Parser))
        parseExpressionLoop fuel precedence r.1 r.2
    else .ok (leftExp, p)

/-- `parseGroup`. -/
def parseGroup : Nat → Parser → Res (ast.Node × Parser)
  | 0, _ => .outOfFuel
  | fuel + 1, p => do
    let p1 ← p.nextToken
    let r ← parseExpression fuel LOWEST p1
    let e ← r.2.expectRead .RPAREN
    if !e.1 then return (.nil, e.2) else return (r.1, e.2)

/-- `parseIf`. The assertion `p.parseIf().(ast.If)` panics on a nil result. -/
def parseIf : Nat → Parser → Res (ast.Node × Parser)
  | 0, _ => .outOfFuel
  | fuel + 1, p => do
    let tok := p.token
    let e1 ← p.expectRead .LPAREN
    if !e1.1 then return (.nil, e1.2)
    else do
      let c ← parseGroup fuel e1.2
      if c.1.isNil then return (.nil, c.2)
      else do
        let e2 ← c.2.expectRead .LBRACE
        if !e2.1 then return (.nil, e2.2)
        else do
          let b ← parseBlockStatement fuel e2.2
          if b.2.readToken.type = .ELSE then do
            let p1 ← b.2.nextToken
            if p1.readToken.type = .IF then do
              let p2 ← p1.nextToken
              let r ← parseIf fuel p2
              match r.1 with
              | .If _ conditions consequences alternative =>
                return (.If tok ([c.1] ++ conditions) ([b.1] ++ consequences) alternative, r.2)
              | _ => .panic "interface conversion: ast.Node is nil, not ast.If"
            else do
              let e3 ← p1.expectRead .LBRACE
              if !e3.1 then return (.nil, e3.2)
              else do
                let a ← parseBlockStatement fuel e3.2
                return (.If tok [c.1] [b.1] a.1, a.2)
          else return (.If tok [c.1] [b.1] ast.BlockStatement.zero, b.2)

/-- `parseWhile`. -/
def parseWhile : Nat → Parser → Res (ast.Node × Parser)
  | 0, _ => .outOfFuel
  | fuel + 1, p => do
    let tok := p.token
    let e1 ← p.expectRead .LPAREN
    if !e1.1 then return (.nil, e1.2)
    else do
      let c ← parseGroup fuel e1.2
      if c.1.isNil then return (.nil, c.2)
      else do
        let e2 ← c.2.expectRead .LBRACE
        if !e2.1 then return (.nil, e2.2)
        else do
          let b ← parseBlockStatement fuel e2.2
          return (.While tok c.1 b.1, b.2)

/-- `parseFunction`. -/
def parseFunction : Nat → Parser → Res (ast.Node × Parser)
  | 0, _ => .outOfFuel
  | fuel + 1, p => do
    let tok := p.token
    let e1 ← p.expectRead .LPAREN
    if !e1.1 then return (.nil, e1.2)
    else do
      let p1 ← e1.2.nextToken
      let ps ← (if p1.token.type ≠ .RPAREN then do
          let r ← parseFunctionParameters fuel [] p1
          let p2 ← r.2.nextToken
          return (r.1, p2)
        else .ok ([], p1) : Res (List ast.Identifier × Parser))
      let e2 ← ps.2.expectRead .LBRACE
      if !e2.1 then return (.nil, e2.2)
      else do
        let b ← parseBlockStatement fuel e2.2
        return (.Function tok ps.1 b.1, b.2)

/-- `parseCall`. -/
def parseCall : Nat → ast.Node → Parser → Res (ast.Node × Parser)
  | 0, _, _ => .outOfFuel
  | fuel + 1, function, p => do
    let tok := p.token
    let p1 ← p.nextToken
    if p1.token.type ≠ .RPAREN then do
      let r ← parseCallArguments fuel [] p1
      return (.Call tok function r.1, r.2)
    else return (.Call tok function [], p1)

/-- `parseCallArguments`, with the arguments read so far. -/
def parseCallArguments : Nat → List ast.Node → Parser → Res (List ast.Node × Parser)
  | 0, _, _ => .outOfFuel
  | fuel + 1, arguments, p => do
    let r ← parseExpression fuel LOWEST p
    if r.1.isNil then return (arguments, r.2)
    else
      let arguments1 := arguments ++ [r.1]
      if r.2.readToken.type = .RPAREN then do
        let p1 ← r.2.nextToken
        return (arguments1, p1)
      else do
        let e ← r.2.expectRead .COMMA
        if !e.1 then return (arguments1, e.2)
        else do
          let p2 ← e.2.nextToken
          parseCallArguments fuel arguments1 p2

/-- `parseArray`. -/
def parseArray : Nat → Parser → Res (ast.Node × Parser)
  | 0, _ => .outOfFuel
  | fuel + 1, p => do
    let tok := p.token
    let p1 ← p.nextToken
    let r ← parseArrayLoop fuel [] p1
    return (.Array tok r.1, r.2)

/-- The loop of `parseArray`, with the items read so far. -/
def parseArrayLoop : Nat → List ast.Node → Parser → Res (List ast.Node × Parser)
  | 0, _, _ => .outOfFuel
  | fuel + 1, items, p =>
    if p.token.type ≠ .RBRACKET ∧ p.token.type ≠ .EOF then do
      let r ← parseExpression fuel LOWEST p
      let p1 ← (if r.2.readToken.type = .COMMA then r.2.nextToken
        else if r.2.readToken.type ≠ .RBRACKET then
          .ok (r.2.pushError (unexpectedTypeError .RBRACKET r.2.readToken.type))
        else .ok r.2 : Res Parser)
      let p2 ← p1.nextToken
      parseArrayLoop fuel (items ++ [r.1]) p2
    else .ok (items, p)

/-- `parseHashTable`. -/
def parseHashTable : Nat → Parser → Res (ast.Node × Parser)
  | 0, _ => .outOfFuel
  | fuel + 1, p => parseHashTableLoop fuel p.token [] p

/-- The loop of `parseHashTable` and what follows it, with the entries stored so far.
Storing under a key that cannot be hashed panics. -/
def parseHashTableLoop : Nat → Token → List (ast.Node × ast.Node) → Parser →
    Res (ast.Node × Parser)
  | 0, _, _, _ => .outOfFuel
  | fuel + 1, tok, items, p =>
    if p.readToken.type ≠ .RBRACE ∧ p.readToken.type ≠ .EOF then
      if p.readToken.type ≠ .IDENT ∧ p.readToken.type ≠ .STRING then .ok (.nil, p)
      else do
        let p1 ← p.nextToken
        let k ← parseExpression fuel LOWEST p1
        let e ← k.2.expectRead .COLON
        if !e.1 then return (.nil, e.2)
        else do
          let p2 ← e.2.nextToken
          let v ← parseExpression fuel LOWEST p2
          if !k.1.hashable then .panic "runtime error: hash of unhashable type"
          else do
            let p3 ← (if v.2.readToken.type = .COMMA then v.2.nextToken
              else if v.2.readToken.type ≠ .RBRACE then
                .ok (v.2.pushError (unexpectedTypeError .RBRACE v.2.readToken.type))
              else .ok v.2 : Res Parser)
            parseHashTableLoop fuel tok (mapSet ast.Node.keyEq items k.1 v.1) p3
    else do
      let p1 ← p.nextToken
      return (.HashTable tok items, p1)

/-- `parseAccessByIndexOrKey`. -/
def parseAccessByIndexOrKey : Nat → ast.Node → Parser → Res (ast.Node × Parser)
  | 0, _, _ => .outOfFuel
  | fuel + 1, leftExp, p => do
    let tok := p.token
    let p1 ← p.nextToken
    let r ← parseExpression fuel LOWEST p1
    let e ← r.2.expectRead .RBRACKET
    if !e.1 then return (.nil, e.2) else return (.AccessByExpression tok leftExp r.1, e.2)

/-- `parsePrefix`. -/
def parsePrefix : Nat → Parser → Res (ast.Node × Parser)
  | 0, _ => .outOfFuel
  | fuel + 1, p => do
    let tok := p.token
    let p1 ← p.nextToken
    let r ← parseExpression fuel PREFIX p1
    return (.Prefix tok tok.literal r.1, r.2)

/-- `parseInfix`. -/
def parseInfix : Nat → ast.Node → Parser → Res (ast.Node × Parser)
  | 0, _, _ => .outOfFuel
  | fuel + 1, leftExp, p => do
    let tok := p.token
    let precedence := precedences p.token.type
    let p1 ← p.nextToken
    let r ← parseExpression fuel precedence p1
    return (.Infix tok tok.literal leftExp r.1, r.2)

/-- `parseStatement`. -/
def parseStatement : Nat → Parser → Res (ast.Node × Parser)
  | 0, _ => .outOfFuel
  | fuel + 1, p =>
    if p.token.type = .LET then parseLetStatement fuel p
    else if p.token.type = .RETURN then parseReturnStatement fuel p
    else parseExpressionStatement fuel p

/-- `parseLetStatement`. -/
def parseLetStatement : Nat → Parser → Res (ast.Node × Parser)
  | 0, _ => .outOfFuel
  | fuel + 1, p => do
    let tok := p.token
    let e1 ← p.expectRead .IDENT
    if !e1.1 then return (.nil, e1.2)
    else do
      let name : ast.Identifier := { token := e1.2.token, value := e1.2.token.literal }
      let e2 ← e1.2.expectRead .ASSIGN
      if !e2.1 then return (.nil, e2.2)
      else do
        let p1 ← e2.2.nextToken
        let r ← parseExpression fuel LOWEST p1
        let p2 ← r.2.skipSemicolon
        return (.LetStatement tok name r.1, p2)

/-- `parseReturnStatement`. -/
def parseReturnStatement : Nat → Parser → Res (ast.Node × Parser)
  | 0, _ => .outOfFuel
  | fuel + 1, p => do
    let tok := p.token
    let p1 ← p.nextToken
    let r ← parseExpression fuel LOWEST p1
    let p2 ← r.2.skipSemicolon
    return (.ReturnStatement tok r.1, p2)

/-- `parseExpressionStatement`. -/
def parseExpressionStatement : Nat → Parser → Res (ast.Node × Parser)
  | 0, _ => .outOfFuel
  | fuel + 1, p => do
    let tok := p.token
    let r ← parseExpression fuel LOWEST p
    let p2 ← r.2.skipSemicolon
    return (.ExpressionStatement tok r.1, p2)

/-- `parseBlockStatement`. -/
def parseBlockStatement : Nat → Parser → Res (ast.BlockStatement × Parser)
  | 0, _ => .outOfFuel
  | fuel + 1, p => do
    let tok := p.token
    let p1 ← p.nextToken
    let r ← parseBlockLoop fuel [] p1
    return (.mk tok r.1, r.2)

/-- The loop of `parseBlockStatement`, with the statements read so far. -/
def parseBlockLoop : Nat → List ast.Node → Parser → Res (List ast.Node × Parser)
  | 0, _, _ => .outOfFuel
  | fuel + 1, statements, p =>
    if p.token.type ≠ .RBRACE ∧ p.token.type ≠ .EOF then do
      let r ← parseStatement fuel p
      let p1 ← r.2.nextToken
      parseBlockLoop fuel (if r.1.isNil then statements else statements ++ [r.1]) p1
    else .ok (statements, p)

end

/-- The loop of `ParseProgram`, with the statements read so far. -/
def parseProgramLoop : Nat → List ast.Node → Parser → Res (List ast.Node × Parser)
  | 0, _, _ => .outOfFuel
  | fuel + 1, statements, p =>
    if p.token.type ≠ .EOF then do
      let r ← parseStatement fuel p
      let p1 ← r.2.nextToken
      parseProgramLoop fuel (if r.1.isNil then statements else statements ++ [r.1]) p1
    else .ok (statements, p)

/-- `ParseProgram`: the statements of the resulting `*ast.Program` and the parser after it
(whose `errors` is what `Errors()` returns). -/
def ParseProgram (fuel : Nat) (p : Parser) : Res (List ast.Node × Parser) :=
  parseProgramLoop fuel [] p

/-- Tokenize and parse a source text: `parser.New(lexer.New(input)).ParseProgram()`
followed by `Errors()`. -/
def parseSource (T : UnicodeTables) (fuel : Nat) (input : String) :
    Res (List ast.Node × List parser.Error) := do
  let p ← Parser.New (Lexer.New T input)
  let r ← ParseProgram fuel p
  return (r.1, r.2.errors)

/-! ## Rendering of nodes (`String()` methods of internal/ast, through `fmt`) -/

/-- Go text; the name `String` is also a constructor of nodes and of objects. -/
abbrev Text := String

/-- What `fmt` prints for an operand whose `String()` method panicked on a nil interface. -/
def fmtPanic (verb : Text) : Text :=
  "%!" ++ verb ++
    "(PANIC=String method: runtime error: invalid memory address or nil pointer dereference)"

/-- What `fmt` prints under `%s` or `%v` for an interface operand: a nil interface, or the
result of its `String()` method (`none` when that method panicked). -/
def fmtOperand (verb : Text) (isNil : Bool) (str : Option Text) : Text :=
  if isNil then (if verb = "s" then "%!s(<nil>)" else "<nil>")
  else match str with
    | some t => t
    | none => fmtPanic verb

/-- What `fmt` prints for a slice: the elements between brackets, separated by spaces. -/
def fmtSlice (elems : List Text) : Text :=
  "[" ++ " ".intercalate elems ++ "]"

mutual
/-- The `String()` method of a node; `none` is the panic of calling it on a nil interface. -/
def ast.Node.render : ast.Node → Option Text
  | .nil => none
  | .Program statements => ast.renderConcat statements
  | .Identifier i => some i.value
  | .Integer _ value => some (toString value)
  | .String _ value => some ("\"" ++ value ++ "\"")
  | .Array _ items => some (fmtSlice (ast.renderEach items))
  | .HashTable _ items => some ("map[" ++ " ".intercalate (ast.renderEntries items) ++ "]")
  | .Boolean token _ => some token.literal
  | .If _ conditions consequences alternative =>
    some ("if " ++ fmtSlice (ast.renderEach conditions) ++ " \x7b"
      ++ fmtSlice (ast.renderBlocks consequences) ++ "\x7d else \x7b"
      ++ fmtOperand "v" false alternative.render ++ "\x7d")
  | .While _ condition body =>
    some ("for (" ++ fmtOperand "s" condition.isNil condition.render ++ ") \x7b"
      ++ fmtOperand "s" false body.render ++ "\x7d")
  | .Function _ parameters body =>
    some ("fn (" ++ fmtSlice (parameters.map (fun i => i.value)) ++ ") \x7b"
      ++ fmtOperand "s" false body.render ++ "\x7d")
  | .Call _ function arguments =>
    some ("call fn " ++ fmtOperand "s" function.isNil function.render ++ " with args ("
      ++ fmtSlice (ast.renderEach arguments) ++ ")")
  | .AccessByExpression _ left index =>
    some ("(" ++ fmtOperand "s" left.isNil left.render ++ ")["
      ++ fmtOperand "s" index.isNil index.render ++ "]")
  | .Prefix _ operator right =>
    some (operator ++ " " ++ fmtOperand "v" right.isNil right.render)
  | .Infix _ operator left right =>
    some (fmtOperand "s" left.isNil left.render ++ " " ++ operator ++ " "
      ++ fmtOperand "s" right.isNil right.render)
  | .LetStatement token name value =>
    some (token.literal ++ " " ++ name.value ++ " = " ++ fmtOperand "v" value.isNil value.render)
  | .ReturnStatement token value =>
    some (token.literal ++ " " ++ fmtOperand "v" value.isNil value.render)
  | .ExpressionStatement _ expression => expression.render
  | .BlockStatement b => b.render
/-- The `String()` method of a block. -/
def ast.BlockStatement.render : ast.BlockStatement → Option Text
  | .mk _ statements => ast.renderConcat statements
/-- The loop `out.WriteString(s.String())` over statements. -/
def ast.renderConcat : List ast.Node → Option Text
  | [] => some ""
  | n :: rest =>
    match n.render, ast.renderConcat rest with
    | some a, some b => some (a ++ b)
    | _, _ => none
/-- The elements of a slice of nodes as `fmt` prints them under `%+v`. -/
def ast.renderEach : List ast.Node → List Text
  | [] => []
  | n :: rest => fmtOperand "v" n.isNil n.render :: ast.renderEach rest
/-- The elements of a slice of blocks as `fmt` prints them under `%+v`. -/
def ast.renderBlocks : List ast.BlockStatement → List Text
  | [] => []
  | b :: rest => fmtOperand "v" false b.render :: ast.renderBlocks rest
/-- The entries of a map of nodes as `fmt` prints them; `fmt` sorts them by key, the
stored order is kept here. -/
def ast.renderEntries : List (ast.Node × ast.Node) → List Text
  | [] => []
  | (k, v) :: rest =>
    (fmtOperand "v" k.isNil k.render ++ ":" ++ fmtOperand "v" v.isNil v.render)
      :: ast.renderEntries rest
end

/-! ## internal/object -/

/-- Type tags: the constants of `object.Type`. -/
inductive object.ObjectType where
  | IntegerType | StringType | BooleanType | NullType | ReturnType | ErrorType
  | IdentifierType | FunctionType | BuiltinType | ArrayType | HashTableType
  | AccessByExpressionType
  deriving Repr, DecidableEq

/-- The Go string behind each type tag. -/
def object.ObjectType.str : object.ObjectType → Text
  | .IntegerType => "INTEGER"
  | .StringType => "STRING"
  | .BooleanType => "BOOLEAN"
  | .NullType => "NULL"
  | .ReturnType => "RETURN"
  | .ErrorType => "ERROR"
  | .IdentifierType => "IDENTIFIER"
  | .FunctionType => "FUNCTION"
  | .BuiltinType => "BUILTIN"
  | .ArrayType => "ARRAY"
  | .HashTableType => "HASHTABLE"
  | .AccessByExpressionType => "ACCESSBYEXPRESSION"

/-- The native functions of the registry `builtins`. -/
inductive object.BuiltinFunction where
  | len | shift | append | log
  deriving Repr, DecidableEq

/-- Address of an `*object.Environment`. -/
abbrev EnvRef := Nat

/-- A slice `[]object.Object`: the address of its backing array and its length. Every slice
the evaluator keeps starts at the first cell of its array, so that its capacity is the
capacity of that array. -/
structure Slice where
  array : Nat
  len : Nat
  deriving Repr, DecidableEq

/-- Values: the implementers of `object.Object`. `Boolean` is one of the two pointers `TRUE`
and `FALSE`, `Null` the pointer `NULL`. `Array` holds its slice `Items`, `HashTable` the
address of its map, `Function` the address of its captured environment. -/
inductive object.Object where
  | Integer (Value : Int)
  | String (Value : Text)
  | Boolean (Value : Bool)
  | Null
  | Return (Value : object.Object)
  | Identifier (Name : Text) (Value : object.Object)
  | Error (Message : Text)
  | Function (Parameters : List ast.Identifier) (Body : ast.BlockStatement) (Env : EnvRef)
  | Array (Items : Slice)
  | HashTable (Items : Nat)
  | AccessByExpression (Left : object.Object) (Expression : object.Object)
      (Value : object.Object)
  | Builtin (Function : object.BuiltinFunction)

open object (Object)

instance : Inhabited Object := ⟨.Null⟩

/-- The pointer `TRUE`. -/
def TRUE : Object := .Boolean true
/-- The pointer `FALSE`. -/
def FALSE : Object := .Boolean false
/-- The pointer `NULL`. -/
def NULL : Object := .Null

/-- The `Type()` method. -/
def object.Object.type : Object → object.ObjectType
  | .Integer _ => .IntegerType
  | .String _ => .StringType
  | .Boolean _ => .BooleanType
  | .Null => .NullType
  | .Return _ => .ReturnType
  | .Identifier _ _ => .IdentifierType
  | .Error _ => .ErrorType
  | .Function _ _ _ => .FunctionType
  | .Array _ => .ArrayType
  | .HashTable _ => .HashTableType
  | .AccessByExpression _ _ _ => .AccessByExpressionType
  | .Builtin _ => .BuiltinType

/-- Scope: `object.Environment`; `store` is the map in insertion order. -/
structure object.Environment where
  store : List (Text × Object)
  outer : Option EnvRef

/-- Backing array of slices: the cells written so far, from the first one on, and the
capacity of the array. No slice over it is longer than `cells`; the cells beyond hold nil
and are out of reach until an `append` writes them. -/
structure Backing where
  cells : List Object
  cap : Nat

/-- The memory reachable from values: environments, backing arrays of slices, maps, and
the lines handed to `log.Println`. `growth` is not memory: it is the part of Go's runtime
that decides the capacity of a slice that grows, see `Heap.growCap`. -/
structure Heap where
  envs : List object.Environment
  arrays : List Backing
  tables : List (List (Text × Object))
  logged : List (List Text)
  growth : List (Nat × Nat × Nat)

/-- Memory with nothing allocated. -/
def Heap.empty : Heap := ⟨[], [], [], [], []⟩

/-- The capacity `append` gives a slice of capacity `old` that must grow to hold `needed`
items. Go decides it in its runtime (`growslice`), which is not part of the repository: it
doubles the capacity when that is enough and otherwise takes what is needed, then rounds
up to a size its allocator hands out, and it grows large slices by less than the double.
The model takes the doubled or the needed capacity, which is what the runtime gives small
slices; the cases in which the runtime decides otherwise are a parameter, the table
`growth`, whose entry `(old, needed, capacity)` gives the capacity in that case. The
result is never below `needed`. -/
def Heap.growCap (h : Heap) (old needed : Nat) : Nat :=
  match h.growth.find? (fun t => t.1 == old && t.2.1 == needed) with
  | some t => max needed t.2.2
  | none => if needed ≤ old + old then old + old else needed

/-- The capacity of a slice after `count` calls `result = append(result, x)`, from a slice
of length `len` and capacity `cap` on. -/
def Heap.capAfterAppends (h : Heap) : Nat → Nat → Nat → Nat
  | 0, _, cap => cap
  | count + 1, len, cap =>
    h.capAfterAppends count (len + 1) (if len + 1 ≤ cap then cap else h.growCap cap (len + 1))

/-- The items of a slice: the first `len` cells of its backing array. -/
def Heap.items (h : Heap) (s : Slice) : Option (List Object) :=
  (h.arrays[s.array]?).map (fun b => b.cells.take s.len)

/-- `NewEnvironment`. -/
def NewEnvironment (h : Heap) : EnvRef × Heap :=
  (h.envs.length, { h with envs := h.envs ++ [⟨[], none⟩] })

/-- `NewEnclosedEnvironment`. -/
def NewEnclosedEnvironment (h : Heap) (outer : EnvRef) : EnvRef × Heap :=
  (h.envs.length, { h with envs := h.envs ++ [⟨[], some outer⟩] })

/-- Allocation of a backing array of capacity `cap` that holds `items`; the value is the
array over the slice of these items. -/
def Heap.allocArray (h : Heap) (items : List Object) (cap : Nat) : Object × Heap :=
  (.Array ⟨h.arrays.length, items.length⟩, { h with arrays := h.arrays ++ [⟨items, cap⟩] })

/-- Allocation of a map. -/
def Heap.allocTable (h : Heap) (items : List (Text × Object)) : Object × Heap :=
  (.HashTable h.tables.length, { h with tables := h.tables ++ [items] })

/-- Equality of map keys of type `string`. -/
def keyEqText (a b : Text) : Bool := a == b

/-- The loop of `Environment.Get` from scope `cur` outward. A chain of scopes is acyclic
and so never longer than the number of scopes, which bounds the walk. -/
def Heap.getLoop (h : Heap) : Nat → Option EnvRef → Text → Option Object
  | 0, _, _ => none
  | _ + 1, none, _ => none
  | n + 1, some cur, key =>
    match h.envs[cur]? with
    | none => none
    | some e =>
      match mapGet keyEqText e.store key with
      | some obj => some obj
      | none => h.getLoop n e.outer key

/-- `Environment.Get`: the value and `ok` together. -/
def Heap.Get (h : Heap) (e : EnvRef) (key : Text) : Option Object :=
  h.getLoop h.envs.length (some e) key

/-- The loop of `Environment.Set`: the memory after overwriting the first scope from `cur`
outward that holds `key`, or `none` when no scope does. -/
def Heap.setLoop (h : Heap) : Nat → Option EnvRef → Text → Object → Option Heap
  | 0, _, _, _ => none
  | _ + 1, none, _, _ => none
  | n + 1, some cur, key, value =>
    match h.envs[cur]? with
    | none => none
    | some e =>
      match mapGet keyEqText e.store key with
      | some _ =>
        some { h with envs := h.envs.set cur { e with store := mapSet keyEqText e.store key value } }
      | none => h.setLoop n e.outer key value

/-- `Environment.Set`: overwrite the nearest scope holding `key`, else store in `e`
(an address `e` outside the memory does not occur and leaves it as it is). -/
def Heap.Set (h : Heap) (e : EnvRef) (key : Text) (value : Object) : Heap :=
  match h.setLoop h.envs.length (some e) key value with
  | some h1 => h1
  | none =>
    match h.envs[e]? with
    | none => h
    | some env =>
      { h with envs := h.envs.set e { env with store := mapSet keyEqText env.store key value } }

/-! ## Rendering of values (`String()` methods of internal/object) -/

/-- Go `<` on strings: bytewise, which on valid text is the order of the code points. -/
def lessRunes : List Char → List Char → Bool
  | [], [] => false
  | [], _ :: _ => true
  | _ :: _, [] => false
  | a :: as, b :: bs =>
    if a.toNat < b.toNat then true
    else if b.toNat < a.toNat then false
    else lessRunes as bs

/-- Go `<` on strings. -/
def lessText (a b : Text) : Bool := lessRunes a.data b.data

/-- Insertion of an entry into entries sorted by key. -/
def insertByKey {ν : Type} (e : Text × ν) : List (Text × ν) → List (Text × ν)
  | [] => [e]
  | x :: rest => if lessText x.1 e.1 then x :: insertByKey e rest else e :: x :: rest

/-- The entries of a map in the key order `fmt` prints them in. -/
def sortByKey {ν : Type} : List (Text × ν) → List (Text × ν)
  | [] => []
  | e :: rest => insertByKey e (sortByKey rest)

/-- Runs `f` over a list, stopping at the first panic or exhausted fuel. -/
def mapRes {α β : Type} (f : α → Res β) : List α → Res (List β)
  | [] => .ok []
  | a :: rest => do
    let b ← f a
    let bs ← mapRes f rest
    return b :: bs

/-- The `String()` method of a value. A value reachable from itself (a slice stored in
one of its own cells) sends Go into unbounded recursion: no fuel is enough for it. -/
def object.render (h : Heap) : Nat → Object → Res Text
  | 0, _ => .outOfFuel
  | fuel + 1, o =>
    match o with
    | .Integer v => .ok (toString v)
    | .String v => .ok v
    | .Boolean v => .ok (if v then "true" else "false")
    | .Null => .ok "null"
    | .Return v => object.render h fuel v
    | .Identifier name v => do
      let t ← object.render h fuel v
      return name ++ " = " ++ t
    | .Error m => .ok ("ERROR: " ++ m)
    | .Function parameters body _ =>
      .ok ("fn(" ++ fmtSlice (parameters.map (fun i => i.value)) ++ ") \x7b"
        ++ fmtOperand "s" false body.render ++ "\x7d")
    | .Array s =>
      match h.items s with
      | none => .panic "invalid memory address"
      | some items => do
        let ts ← mapRes (object.render h fuel) items
        return fmtSlice ts
    | .HashTable ref =>
      match h.tables[ref]? with
      | none => .panic "invalid memory address"
      | some items => do
        let ts ← mapRes (fun e => do
          let t ← object.render h fuel e.2
          return e.1 ++ ":" ++ t) (sortByKey items)
        return "map[" ++ " ".intercalate ts ++ "]"
    | .AccessByExpression left expression _ => do
      let a ← object.render h fuel left
      let b ← object.render h fuel expression
      return a ++ "[" ++ b ++ "]"
    | .Builtin _ => .ok "builtin function"

/-! ## internal/evaluator -/

/-- Two's-complement wrap-around of a 64-bit `int`. -/
def wrap64 (x : Int) : Int :=
  (x + 9223372036854775808) % 18446744073709551616 - 9223372036854775808

/-- `newError`, given the formatted message. -/
def newError (message : Text) : Object := .Error message

/-- `nativeBoolToObject`. -/
def nativeBoolToObject (value : Bool) : Object :=
  if value then TRUE else FALSE

/-- `isTruthy`. -/
def isTruthy : Object → Bool
  | .Integer v => decide (v > 0)
  | .Boolean v => v
  | .Null => false
  | _ => false

/-- Go `==` on two interface values holding objects: different dynamic types are unequal;
equal types compare by value, field by field and stopping at the first difference;
`none` is the panic of comparing two values of one uncomparable type (a struct with a
slice, a map or a func: `Function`, `Array`, `HashTable`, `Builtin`). -/
def object.Object.goEq (x y : Object) : Option Bool :=
  match x with
  | .Integer a => (match y with
    | .Integer b => some (a == b)
    | _ => some false)
  | .String a => (match y with
    | .String b => some (a == b)
    | _ => some false)
  | .Boolean a => (match y with
    | .Boolean b => some (a == b)
    | _ => some false)
  | .Null => (match y with
    | .Null => some true
    | _ => some false)
  | .Return a => (match y with
    | .Return b => a.goEq b
    | _ => some false)
  | .Identifier n a => (match y with
    | .Identifier m b => if n == m then a.goEq b else some false
    | _ => some false)
  | .Error a => (match y with
    | .Error b => some (a == b)
    | _ => some false)
  | .Function _ _ _ => (match y with
    | .Function _ _ _ => none
    | _ => some false)
  | .Array _ => (match y with
    | .Array _ => none
    | _ => some false)
  | .HashTable _ => (match y with
    | .HashTable _ => none
    | _ => some false)
  | .AccessByExpression l e v => (match y with
    | .AccessByExpression l2 e2 v2 =>
      (match l.goEq l2 with
       | none => none
       | some false => some false
       | some true =>
         match e.goEq e2 with
         | none => none
         | some false => some false
         | some true => v.goEq v2)
    | _ => some false)
  | .Builtin _ => (match y with
    | .Builtin _ => none
    | _ => some false)

/-- `evalIntegerInfixOperators`; dividing by zero panics. -/
def evalIntegerInfixOperators (operator : Text) (left right : Int) : Res Object :=
  if operator = "+" then .ok (.Integer (wrap64 (left + right)))
  else if operator = "-" then .ok (.Integer (wrap64 (left - right)))
  else if operator = "*" then .ok (.Integer (wrap64 (left * right)))
  else if operator = "/" then
    if right = 0 then .panic "runtime error: integer divide by zero"
    else .ok (.Integer (wrap64 (Int.tdiv left right)))
  else if operator = ">" then .ok (nativeBoolToObject (decide (left > right)))
  else if operator = "<" then .ok (nativeBoolToObject (decide (left < right)))
  else if operator = "==" then .ok (nativeBoolToObject (decide (left = right)))
  else if operator = "!=" then .ok (nativeBoolToObject (decide (left ≠ right)))
  else .ok (newError ("unknown operator: INTEGER " ++ operator ++ " INTEGER"))

/-- `evalStringInfixOperators`. -/
def evalStringInfixOperators (operator : Text) (left right : Text) : Object :=
  if operator = "+" then .String (left ++ right)
  else if operator = ">" then nativeBoolToObject (lessText right left)
  else if operator = "<" then nativeBoolToObject (lessText left right)
  else if operator = "==" then nativeBoolToObject (left == right)
  else if operator = "!=" then nativeBoolToObject (left != right)
  else newError ("unknown operator: STRING " ++ operator ++ " STRING")

/-- `evalBangOperator`: the `switch` compares the operand with the three singletons. -/
def evalBangOperator : Object → Object
  | .Boolean true => FALSE
  | .Boolean false => TRUE
  | .Null => FALSE
  | _ => FALSE

/-- `evalMinusOperator`. -/
def evalMinusOperator : Object → Object
  | .Integer v => .Integer (wrap64 (-v))
  | right => newError ("unknown operator: -" ++ right.type.str)

/-- `evalPrefix`. -/
def evalPrefix (operator : Text) (right : Object) : Object :=
  if operator = "!" then evalBangOperator right
  else if operator = "-" then evalMinusOperator right
  else newError ("unknown operator: " ++ operator ++ right.type.str)

/-- Number of wrappers (`Identifier`, `AccessByExpression`) around the value of an object;
it bounds the self-calls of `evalInfix`. -/
def object.Object.wrappers : Object → Nat
  | .Identifier _ v => v.wrappers + 1
  | .AccessByExpression _ _ v => v.wrappers + 1
  | _ => 0

/-- The assignment branch of `evalInfix` for an index target: stores into the backing
array of the slice or into the map of `access.Left`. -/
def storeIndexed (h : Heap) (left expression right : Object) : Res Heap :=
  match left with
  | .Array s =>
    match expression with
    | .Integer i =>
      if 0 ≤ i ∧ i < s.len then
        match h.arrays[s.array]? with
        | none => .panic "invalid memory address"
        | some b =>
          .ok { h with arrays := h.arrays.set s.array { b with cells := b.cells.set i.toNat right } }
      else .panic "runtime error: index out of range"
    | _ => .panic "interface conversion: object.Object is not object.Integer"
  | .HashTable ref =>
    match expression with
    | .String k =>
      match h.tables[ref]? with
      | none => .panic "invalid memory address"
      | some items => .ok { h with tables := h.tables.set ref (mapSet keyEqText items k right) }
    | _ => .panic "interface conversion: object.Object is not object.String"
  | _ => .ok h

/-- `evalInfix`, the `switch` in source order; the counter bounds the self-calls that
unwrap an operand. -/
def evalInfixAux : Nat → Text → Object → Object → EnvRef → Heap → Res (Object × Heap)
  | 0, _, _, _, _, _ => .outOfFuel
  | k + 1, operator, left, right, env, h =>
    match left, right with
    | .Integer a, .Integer b => do
      let r ← evalIntegerInfixOperators operator a b
      return (r, h)
    | .String a, .String b => .ok (evalStringInfixOperators operator a b, h)
    | .Identifier _ lv, .Identifier _ rv => evalInfixAux k operator lv rv env h
    | _, .Identifier _ rv => evalInfixAux k operator left rv env h
    | _, .AccessByExpression _ _ rv => evalInfixAux k operator left rv env h
    | _, _ =>
      if operator = "==" then
        match left.goEq right with
        | none => .panic "runtime error: comparing uncomparable type"
        | some b => .ok (nativeBoolToObject b, h)
      else if operator = "!=" then
        match left.goEq right with
        | none => .panic "runtime error: comparing uncomparable type"
        | some b => .ok (nativeBoolToObject (!b), h)
      else if operator = "=" then
        match left with
        | .Identifier name _ => .ok (NULL, h.Set env name right)
        | .AccessByExpression l e _ => do
          let h1 ← storeIndexed h l e right
          return (NULL, h1)
        | _ => .ok (newError ("cannot assign value to: " ++ left.type.str), h)
      else
        match left with
        | .Identifier _ lv => evalInfixAux k operator lv right env h
        | .AccessByExpression _ _ lv => evalInfixAux k operator lv right env h
        | _ =>
          if left.type ≠ right.type then
            .ok (newError ("type mismatch: " ++ left.type.str ++ " " ++ operator ++ " "
              ++ right.type.str), h)
          else
            .ok (newError ("unknown operator: " ++ left.type.str ++ " " ++ operator ++ " "
              ++ right.type.str), h)

/-- `evalInfix`. -/
def evalInfix (operator : Text) (left right : Object) (env : EnvRef) (h : Heap) :
    Res (Object × Heap) :=
  evalInfixAux (left.wrappers + right.wrappers + 1) operator left right env h

/-- The registry `builtins`. -/
def builtins (name : Text) : Option object.BuiltinFunction :=
  if name = "len" then some .len
  else if name = "shift" then some .shift
  else if name = "append" then some .append
  else if name = "log" then some .log
  else none

/-- `evalIdentifier`. -/
def evalIdentifier (node : ast.Identifier) (env : EnvRef) (h : Heap) : Object :=
  match h.Get env node.value with
  | some val => .Identifier node.value val
  | none =>
    match builtins node.value with
    | some b => .Identifier node.value (.Builtin b)
    | none => newError ("identifier not found: " ++ node.value)

/-- `evalAccessByExpression`. The two "not integer" and "must be strings" messages print
the type of the zero value left by the failed assertion. -/
def evalAccessByExpression (h : Heap) : Object → Object → Res Object
  | .Array s, exp =>
    match exp with
    | .Integer i =>
      if (s.len : Int) ≤ i ∨ i < 0 then
        .ok (newError ("index out of bounds: got=" ++ toString i))
      else
        match h.arrays[s.array]? with
        | none => .panic "invalid memory address"
        | some b => .ok (.AccessByExpression (.Array s) (.Integer i) (b.cells.getD i.toNat NULL))
    | _ => .ok (newError "access expression is not integer: got INTEGER")
  | .HashTable ref, exp =>
    match exp with
    | .String k =>
      match h.tables[ref]? with
      | none => .panic "invalid memory address"
      | some items =>
        match mapGet keyEqText items k with
        | none => .ok (.AccessByExpression (.HashTable ref) (.String k) NULL)
        | some value => .ok (.AccessByExpression (.HashTable ref) (.String k) value)
    | _ => .ok (newError "keys in hash tables must be strings: got STRING")
  | .Identifier _ v, exp => evalAccessByExpression h v exp
  | left, _ =>
    .ok (newError ("access by expression is not supported for this type: got "
      ++ left.type.str))

/-- Built-in `len` on its single argument. -/
def builtinLenOf (h : Heap) : Object → Res Object
  | .String v => .ok (.Integer v.utf8ByteSize)
  | .Array s => .ok (.Integer s.len)
  | .Identifier _ v => builtinLenOf h v
  | item => .ok (newError ("argument type is not supported: got " ++ item.type.str))

/-- Built-in `len`. -/
def builtinLen (h : Heap) (args : List Object) : Res Object :=
  match args with
  | [a] => builtinLenOf h a
  | _ => .ok (newError ("wrong number of arguments: got=" ++ toString args.length ++ ", want=1"))

/-- Built-in `shift` on its single argument: `append([]object.Object{}, item.Items[1:]...)`
copies the items after the first into a slice of their own, which grows from capacity 0
when there is an item to copy. -/
def builtinShiftOf (h : Heap) : Object → Res (Object × Heap)
  | .Array s =>
    if s.len > 0 then
      match h.items s with
      | none => .panic "invalid memory address"
      | some items =>
        .ok (h.allocArray items.tail
          (if items.tail.length = 0 then 0 else h.growCap 0 items.tail.length))
    else .ok (.Array s, h)
  | .Identifier _ v => builtinShiftOf h v
  | item => .ok (newError ("argument type is not supported: got " ++ item.type.str), h)

/-- Built-in `shift`. -/
def builtinShift (h : Heap) (args : List Object) : Res (Object × Heap) :=
  match args with
  | [a] => builtinShiftOf h a
  | _ =>
    .ok (newError ("wrong number of arguments: got=" ++ toString args.length ++ ", want=1"), h)

/-- Built-in `append` on its first argument, `rest` being `args[1:]`. Go's
`append(item.Items, rest...)` writes the new items into the backing array of the slice,
right after its last item, when the capacity of the array is enough: the result is then a
longer slice over the same array. Otherwise it copies the items of the slice and the new
ones into a fresh array of a grown capacity. -/
def builtinAppendOf (h : Heap) (rest : List Object) : Object → Res (Object × Heap)
  | .Array s =>
    if s.len > 0 then
      match h.arrays[s.array]? with
      | none => .panic "invalid memory address"
      | some b =>
        if s.len + rest.length ≤ b.cap then
          let cells := b.cells.take s.len ++ rest ++ b.cells.drop (s.len + rest.length)
          .ok (.Array ⟨s.array, s.len + rest.length⟩,
            { h with arrays := h.arrays.set s.array { b with cells := cells } })
        else
          .ok (h.allocArray (b.cells.take s.len ++ rest) (h.growCap b.cap (s.len + rest.length)))
    else .ok (.Array s, h)
  | .Identifier _ v => builtinAppendOf h rest v
  | item => .ok (newError ("argument type is not supported: got " ++ item.type.str), h)

/-- Built-in `append`. -/
def builtinAppend (h : Heap) (args : List Object) : Res (Object × Heap) :=
  match args with
  | a :: b :: rest => builtinAppendOf h (b :: rest) a
  | _ =>
    .ok (newError ("wrong number of arguments: got=" ++ toString args.length ++ ", want=>1"), h)

/-- Built-in `log`: the rendered arguments go to the log, the result is `NULL`. -/
def builtinLog (fuel : Nat) (h : Heap) (args : List Object) : Res (Object × Heap) := do
  let ts ← mapRes (object.render h fuel) args
  return (NULL, { h with logged := h.logged ++ [ts] })

/-- Call of a registered native function: `builtin.Function(args...)`. -/
def applyBuiltin (fuel : Nat) (b : object.BuiltinFunction) (args : List Object) (h : Heap) :
    Res (Object × Heap) :=
  match b with
  | .len => do
    let r ← builtinLen h args
    return (r, h)
  | .shift => builtinShift h args
  | .append => builtinAppend h args
  | .log => builtinLog fuel h args

/-- The loop of `extendFunctionEnv`; `args[i]` panics when there are fewer arguments than
parameters. -/
def bindParameters (env : EnvRef) : List ast.Identifier → List Object → Heap → Res Heap
  | [], _, h => .ok h
  | _ :: _, [], _ => .panic "runtime error: index out of range"
  | param :: params, a :: args, h => bindParameters env params args (h.Set env param.value a)

/-- `extendFunctionEnv`. -/
def extendFunctionEnv (parameters : List ast.Identifier) (fnEnv : EnvRef) (args : List Object)
    (h : Heap) : Res (EnvRef × Heap) := do
  let e := NewEnclosedEnvironment h fnEnv
  let h1 ← bindParameters e.1 parameters args e.2
  return (e.1, h1)

/-- An evaluator for nodes: `Eval` with less fuel, as handed to the functions it calls. -/
abbrev Evaluator := ast.Node → EnvRef → Heap → Res (Object × Heap)

/-- The loop of `evalProgram`; `result` is the variable of that name (`none` is nil). -/
def evalProgramLoop (ev : Evaluator) : List ast.Node → EnvRef → Option Object → Heap →
    Res (Object × Heap)
  | [], _, result, h => .ok (result.getD NULL, h)
  | statement :: rest, env, _, h => do
    let r ← ev statement env h
    match r.1 with
    | .Return v => return (v, r.2)
    | .Error m => return (.Error m, r.2)
    | .Identifier _ v => evalProgramLoop ev rest env (some v) r.2
    | .AccessByExpression _ _ v => evalProgramLoop ev rest env (some v) r.2
    | o => evalProgramLoop ev rest env (some o) r.2

/-- `evalProgram`. -/
def evalProgram (ev : Evaluator) (statements : List ast.Node) (env : EnvRef) (h : Heap) :
    Res (Object × Heap) :=
  evalProgramLoop ev statements env none h

/-- The loop of `evalBlock` in the enclosed scope. -/
def evalBlockLoop (ev : Evaluator) : List ast.Node → EnvRef → Option Object → Heap →
    Res (Object × Heap)
  | [], _, result, h => .ok (result.getD NULL, h)
  | statement :: rest, enclosedEnv, _, h => do
    let r ← ev statement enclosedEnv h
    if r.1.type = .ReturnType ∨ r.1.type = .ErrorType then return r
    else evalBlockLoop ev rest enclosedEnv (some r.1) r.2

/-- `evalBlock`. -/
def evalBlock (ev : Evaluator) (statements : List ast.Node) (env : EnvRef) (h : Heap) :
    Res (Object × Heap) :=
  let e := NewEnclosedEnvironment h env
  evalBlockLoop ev statements e.1 none e.2

/-- `evalExpressions`, with the values collected so far. -/
def evalExpressions (ev : Evaluator) : List ast.Node → List Object → EnvRef → Heap →
    Res (List Object × Heap)
  | [], result, _, h => .ok (result, h)
  | exp :: rest, result, env, h => do
    let r ← ev exp env h
    if r.1.type = .ErrorType then return ([r.1], r.2)
    else evalExpressions ev rest (result ++ [r.1]) env r.2

/-- The loop of `evalIf` from condition number `i` on, and the final `Alternative`. -/
def evalIfLoop (ev : Evaluator) (consequences : List ast.BlockStatement)
    (alternative : ast.BlockStatement) : List ast.Node → Nat → EnvRef → Heap →
    Res (Object × Heap)
  | [], _, env, h => ev (.BlockStatement alternative) env h
  | condition :: rest, i, env, h => do
    let r ← ev condition env h
    if r.1.type = .ErrorType then return r
    else if isTruthy r.1 then
      match consequences[i]? with
      | none => .panic "runtime error: index out of range"
      | some b => ev (.BlockStatement b) env r.2
    else evalIfLoop ev consequences alternative rest (i + 1) env r.2

/-- `evalIf`. -/
def evalIf (ev : Evaluator) (conditions : List ast.Node)
    (consequences : List ast.BlockStatement) (alternative : ast.BlockStatement)
    (env : EnvRef) (h : Heap) : Res (Object × Heap) :=
  evalIfLoop ev consequences alternative conditions 0 env h

/-- The `for cond.Value` loop of `evalWhile`; the assertion on the re-evaluated condition
panics when it is not a Boolean. -/
def evalWhileLoop (ev : Evaluator) (condition : ast.Node) (body : ast.BlockStatement) :
    Nat → Bool → EnvRef → Heap → Res (Object × Heap)
  | _, false, _, h => .ok (NULL, h)
  | 0, true, _, _ => .outOfFuel
  | k + 1, true, env, h => do
    let r ← evalBlock ev body.statements env h
    if r.1.type = .ErrorType then return r
    else do
      let c ← ev condition env r.2
      match c.1 with
      | .Boolean v => evalWhileLoop ev condition body k v env c.2
      | _ => .panic "interface conversion: object.Object is not *object.Boolean"

/-- `evalWhile`. -/
def evalWhile (ev : Evaluator) (fuel : Nat) (condition : ast.Node) (body : ast.BlockStatement)
    (env : EnvRef) (h : Heap) : Res (Object × Heap) := do
  let c ← ev condition env h
  if c.1.type = .ErrorType then return c
  else
    match c.1 with
    | .Boolean v => evalWhileLoop ev condition body fuel v env c.2
    | _ => return (NULL, c.2)

/-- The loop of `evalHashTable` over the entries of the literal, storing into the map at
`ref`. Go ranges over the map in an unspecified order; the stored order is taken. -/
def evalHashTableLoop (ev : Evaluator) (ref : Nat) : List (ast.Node × ast.Node) → EnvRef →
    Heap → Res (Object × Heap)
  | [], _, h => .ok (.HashTable ref, h)
  | (key, val) :: rest, env, h =>
    let keyString : Except Object Text :=
      match key with
      | .String _ v => .ok v
      | .Identifier k =>
        match evalIdentifier k env h with
        | .Identifier _ (.String str) => .ok str
        | .Identifier _ _ =>
          .error (newError ("keys in hash tables must be strings: got " ++ k.token.type.str))
        | identifier => .error identifier
      | _ => .ok ""
    match keyString with
    | .error e => .ok (e, h)
    | .ok ks => do
      let r ← ev val env h
      if r.1.type = .ErrorType then return r
      else
        match r.2.tables[ref]? with
        | none => .panic "invalid memory address"
        | some items =>
          evalHashTableLoop ev ref rest env
            { r.2 with tables := r.2.tables.set ref (mapSet keyEqText items ks r.1) }

/-- `evalHashTable`. -/
def evalHashTable (ev : Evaluator) (items : List (ast.Node × ast.Node)) (env : EnvRef)
    (h : Heap) : Res (Object × Heap) :=
  let t := h.allocTable []
  evalHashTableLoop ev h.tables.length items env t.2

/-- The tail of `evalFunction` once the callee is known to be a `Function`. -/
def callFunction (ev : Evaluator) (parameters : List ast.Identifier)
    (body : ast.BlockStatement) (fnEnv : EnvRef) (args : List Object) (h : Heap) :
    Res (Object × Heap) := do
  let e ← extendFunctionEnv parameters fnEnv args h
  let r ← ev (.BlockStatement body) e.1 e.2
  match r.1 with
  | .Return v => return (v, r.2)
  | _ => return (NULL, r.2)

/-- `evalFunction`. -/
def evalFunction (ev : Evaluator) (fuel : Nat) (fn : Object) (args : List Object) (env : EnvRef)
    (h : Heap) : Res (Object × Heap) :=
  match fn with
  | .Function parameters body fnEnv => callFunction ev parameters body fnEnv args h
  | .Identifier name _ =>
    match h.Get env name with
    | some (.Function parameters body fnEnv) => callFunction ev parameters body fnEnv args h
    | some value => do
      let t ← object.render h fuel value
      return (newError ("not a function: " ++ t), h)
    | none =>
      match builtins name with
      | some b => applyBuiltin fuel b args h
      | none => .ok (newError ("no such function: " ++ name), h)
  | _ => do
    let t ← object.render h fuel fn
    return (newError ("not a function: " ++ t), h)

/-- `Eval`. -/
def Eval : Nat → ast.Node → EnvRef → Heap → Res (Object × Heap)
  | 0, _, _, _ => .outOfFuel
  | fuel + 1, node, env, h =>
    match node with
    | .Program statements => evalProgram (Eval fuel) statements env h
    | .BlockStatement b => evalBlock (Eval fuel) b.statements env h
    | .ExpressionStatement _ expression => Eval fuel expression env h
    | .ReturnStatement _ value => do
      let val ← Eval fuel value env h
      if val.1.type = .ErrorType then return val
      else return (.Return val.1, val.2)
    | .Integer _ value => .ok (.Integer value, h)
    | .String _ value => .ok (.String value, h)
    | .Boolean _ value => .ok (nativeBoolToObject value, h)
    | .Prefix _ operator right => do
      let r ← Eval fuel right env h
      if r.1.type = .ErrorType then return r
      else return (evalPrefix operator r.1, r.2)
    | .Infix _ operator left right => do
      let l ← Eval fuel left env h
      if l.1.type = .ErrorType then return l
      else do
        let r ← Eval fuel right env l.2
        if r.1.type = .ErrorType then return r
        else evalInfix operator l.1 r.1 env r.2
    | .If _ conditions consequences alternative =>
      evalIf (Eval fuel) conditions consequences alternative env h
    | .While _ condition body => evalWhile (Eval fuel) fuel condition body env h
    | .LetStatement _ name value => do
      let val ← Eval fuel value env h
      if val.1.type = .ErrorType then return val
      else return (NULL, val.2.Set env name.value val.1)
    | .Identifier i => .ok (evalIdentifier i env h, h)
    | .Function _ parameters body => .ok (.Function parameters body env, h)
    | .Call _ function arguments => do
      let f ← Eval fuel function env h
      if f.1.type = .ErrorType then return f
      else do
        let args ← evalExpressions (Eval fuel) arguments [] env f.2
        match args.1 with
        | [.Error m] => return (.Error m, args.2)
        | _ => evalFunction (Eval fuel) fuel f.1 args.1 env args.2
    | .Array _ items => do
      let r ← evalExpressions (Eval fuel) items [] env h
      match r.1 with
      | [.Error m] => return (.Error m, r.2)
      | _ => return r.2.allocArray r.1 (r.2.capAfterAppends r.1.length 0 0)
    | .AccessByExpression _ left index => do
      let l ← Eval fuel left env h
      if l.1.type = .ErrorType then return l
      else do
        let exp ← Eval fuel index env l.2
        if exp.1.type = .ErrorType then return (l.1, exp.2)
        else do
          let r ← evalAccessByExpression exp.2 l.1 exp.1
          return (r, exp.2)
    | .HashTable _ items => evalHashTable (Eval fuel) items env h
    | .nil => .ok (NULL, h)

/-- Tokenize, parse and evaluate a source text in a fresh environment, as the tests'
`testEval` does (it evaluates whatever was parsed, errors or not). -/
def evalSource (T : UnicodeTables) (fuel : Nat) (input : Text) : Res (Object × Heap) := do
  let p ← parseSource T fuel input
  let e := NewEnvironment Heap.empty
  Eval fuel (.Program p.1) e.1 e.2

/-- The value alone of `evalSource`. -/
def evalValue (T : UnicodeTables) (fuel : Nat) (input : Text) : Res Object := do
  let r ← evalSource T fuel input
  return r.1

/-! ## Vocabulary of the properties -/

/-- The memory after evaluating `statements` in order in scope `env`, provided each yields
a value that is neither a Return nor an Error (so that a statement list runs past them). -/
def runStatements (ev : Evaluator) : List ast.Node → EnvRef → Heap → Option Heap
  | [], _, h => some h
  | s :: rest, env, h =>
    match ev s env h with
    | .ok (o, h1) =>
      if o.type = .ReturnType ∨ o.type = .ErrorType then none else runStatements ev rest env h1
    | _ => none

/-- The memory after evaluating `conditions` in order in scope `env`, provided each yields
a value that is neither an Error nor truthy. -/
def runFalsy (ev : Evaluator) : List ast.Node → EnvRef → Heap → Option Heap
  | [], _, h => some h
  | c :: rest, env, h =>
    match ev c env h with
    | .ok (v, h1) => if v.type = .ErrorType ∨ isTruthy v = true then none else runFalsy ev rest env h1
    | _ => none

/-- The scopes from `cur` outward, innermost first (the walk of `Get` and `Set`). -/
def Heap.chain (h : Heap) : Nat → Option EnvRef → List EnvRef
  | 0, _ => []
  | _ + 1, none => []
  | n + 1, some cur =>
    match h.envs[cur]? with
    | none => []
    | some e => cur :: h.chain n e.outer

/-- Whether the store of scope `r` itself holds a binding of `key`. -/
def Heap.binds (h : Heap) (r : EnvRef) (key : Text) : Bool :=
  match h.envs[r]? with
  | some e => (mapGet keyEqText e.store key).isSome
  | none => false

/-- The value bound to `key` in the store of scope `r` itself. -/
def Heap.valueIn (h : Heap) (r : EnvRef) (key : Text) : Option Object :=
  match h.envs[r]? with
  | some e => mapGet keyEqText e.store key
  | none => none

/-- The names bound in the store of scope `r` itself. -/
def Heap.names (h : Heap) (r : EnvRef) : List Text :=
  match h.envs[r]? with
  | some e => e.store.map (fun b => b.1)
  | none => []

/-- The parent link of scope `r`. -/
def Heap.outerOf (h : Heap) (r : EnvRef) : Option EnvRef :=
  match h.envs[r]? with
  | some e => e.outer
  | none => none

/-- The memory with `key` bound to `value` in the store of scope `r`, nothing else touched. -/
def Heap.store (h : Heap) (r : EnvRef) (key : Text) (value : Object) : Heap :=
  match h.envs[r]? with
  | some e => { h with envs := h.envs.set r { e with store := mapSet keyEqText e.store key value } }
  | none => h

/-- The first scope from `cur` outward whose store holds `key`. -/
def Heap.findScope (h : Heap) : Nat → Option EnvRef → Text → Option EnvRef
  | 0, _, _ => none
  | _ + 1, none, _ => none
  | n + 1, some cur, key =>
    match h.envs[cur]? with
    | none => none
    | some e =>
      match mapGet keyEqText e.store key with
      | some _ => some cur
      | none => h.findScope n e.outer key

/-- The value an index access resolved to, for an object that is such an access. -/
def object.Object.indexed : Object → Object
  | .AccessByExpression _ _ v => v.indexed
  | o => o

/-- The token end-of-input. -/
def eofToken : Token := { type := .EOF, literal := "" }

/-- Whether the lexer yields exactly the tokens `toks` and is then at the end of the text
(where every further call yields end-of-input). -/
def Lexer.yields : Lexer → List Token → Bool
  | l, [] => l.pending.isEmpty && l.character == Char.ofNat 0
  | l, t :: ts =>
    match l.NextToken with
    | some r => r.1 == t && Lexer.yields r.2 ts
    | none => false

/-- The tokens ahead of the parser's current token are `toks` followed by end-of-input. -/
def Parser.Ahead (p : Parser) (toks : List Token) : Prop :=
  p.readToken = toks.headD eofToken ∧ p.l.yields toks.tail = true

/-- The tokens the parser has yet to read, its current token first, are `toks` followed
by end-of-input. -/
def Parser.Reads (p : Parser) (toks : List Token) : Prop :=
  p.token = toks.headD eofToken ∧ p.Ahead toks.tail

/-- The binary operators `== != < > + - * /`. -/
inductive BinaryOperator where
  | EQ | NEQ | LT | GT | PLUS | MINUS | MULTIPLY | DIVIDE
  deriving Repr, DecidableEq

/-- The token of a binary operator. -/
def BinaryOperator.token : BinaryOperator → Token
  | .EQ => { type := .EQ, literal := "==" }
  | .NEQ => { type := .NEQ, literal := "!=" }
  | .LT => { type := .LT, literal := "<" }
  | .GT => { type := .GT, literal := ">" }
  | .PLUS => { type := .PLUS, literal := "+" }
  | .MINUS => { type := .MINUS, literal := "-" }
  | .MULTIPLY => { type := .MULTIPLY, literal := "*" }
  | .DIVIDE => { type := .DIVIDE, literal := "/" }

/-- The level of a binary operator in the reference grammar: equality 3, comparison 4,
sum 5, product 6. -/
def BinaryOperator.level : BinaryOperator → Nat
  | .EQ => 3
  | .NEQ => 3
  | .LT => 4
  | .GT => 4
  | .PLUS => 5
  | .MINUS => 5
  | .MULTIPLY => 6
  | .DIVIDE => 6

/-- A chain `a0 op1 a1 ... opk ak` after its first literal: the pairs `(op, literal)`. -/
abbrev Chain := List (BinaryOperator × Nat)

/-- The token of the integer literal `n`. -/
def intToken (n : Nat) : Token := { type := .INT, literal := toString n }

/-- The node of the integer literal `n`. -/
def intLeaf (n : Nat) : ast.Node := .Integer (intToken n) n

/-- The node of `left op right`. -/
def infixNode (o : BinaryOperator) (left right : ast.Node) : ast.Node :=
  .Infix o.token o.token.literal left right

/-- The tokens of the pairs of a chain. -/
def opTokens : Chain → List Token
  | [] => []
  | (o, a) :: rest => o.token :: intToken a :: opTokens rest

/-- Cuts a chain at its operators of level at most `p`: the pairs before the first such
operator, then each such operator with the literal after it and the pairs up to the next. -/
def splitOps (p : Nat) : Chain → Chain × List (BinaryOperator × Nat × Chain)
  | [] => ([], [])
  | (o, a) :: rest =>
    if o.level ≤ p then ([], (o, a, (splitOps p rest).1) :: (splitOps p rest).2)
    else ((o, a) :: (splitOps p rest).1, (splitOps p rest).2)

/-- The reference grammar, one rule per level: `E(p) → E(p+1) (op(p) E(p+1))*` grouped to
the left, for the levels `p = 3, 4, 5, 6`, and `E(7) → integer`. `refLevel n` is `E(7 - n)`
on the chain that starts with the literal `a0`. -/
def refLevel : Nat → Nat → Chain → ast.Node
  | 0, a0, _ => intLeaf a0
  | n + 1, a0, ops =>
    (splitOps (6 - n) ops).2.foldl
      (fun left c => infixNode c.1 left (refLevel n c.2.1 c.2.2))
      (refLevel n a0 (splitOps (6 - n) ops).1)

/-- The tree the reference grammar gives the chain: rule `E(3)`. -/
def referenceTree (a0 : Nat) (ops : Chain) : ast.Node := refLevel 4 a0 ops

/-- The pairs of a chain whose operator binds tighter than `prec`. -/
def higher (prec : Nat) (oa : BinaryOperator × Nat) : Bool := decide (prec < oa.1.level)

/-- The loop of `parseExpression` on a chain, for chains of at most `k` pairs: with the
tree of the pairs consumed so far as left operand, it consumes the pairs that bind tighter
than `prec` and returns the reference tree of all pairs consumed. -/
def LoopSpec (k : Nat) : Prop :=
  ∀ (ops : Chain) (a0 : Nat) (consumed : Chain) (prec : Nat) (p : Parser) (rest : List Token)
    (fuel : Nat),
    ops.length ≤ k → p.Ahead (opTokens ops ++ rest) →
    precedences (rest.headD eofToken).type = 0 →
    (∀ oa ∈ ops, oa.2 < 9223372036854775808) →
    (∀ o a r, ops = (o, a) :: r → ∀ c ∈ consumed, o.level ≤ c.1.level) →
    3 * ops.length + 1 ≤ fuel →
    ∃ p2, parseExpressionLoop fuel prec (refLevel (6 - prec) a0 consumed) p
        = .ok (refLevel (6 - prec) a0 (consumed ++ ops.takeWhile (higher prec)), p2) ∧
      p2.Ahead (opTokens (ops.dropWhile (higher prec)) ++ rest) ∧ p2.errors = p.errors

/-- `parseExpression` on a chain, for chains of at most `k` pairs: it consumes the first
literal and the pairs that bind tighter than `prec` and returns their reference tree. -/
def ExprSpec (k : Nat) : Prop :=
  ∀ (ops : Chain) (a0 : Nat) (prec : Nat) (p : Parser) (rest : List Token) (fuel : Nat),
    ops.length ≤ k → p.token = intToken a0 → p.Ahead (opTokens ops ++ rest) →
    precedences (rest.headD eofToken).type = 0 →
    a0 < 9223372036854775808 → (∀ oa ∈ ops, oa.2 < 9223372036854775808) →
    3 * ops.length + 2 ≤ fuel →
    ∃ p2, parseExpression fuel prec p
        = .ok (refLevel (6 - prec) a0 (ops.takeWhile (higher prec)), p2) ∧
      p2.Ahead (opTokens (ops.dropWhile (higher prec)) ++ rest) ∧ p2.errors = p.errors

/-- The lexer standing on rune `c` at byte offset `b` of `input`, with `pending` after it. -/
def Lexer.standing (T : UnicodeTables) (input : List Char) (b : Nat) (c : Char)
    (pending : List Char) : Lexer :=
  { unicode := T, input := input, pending := pending, position := b,
    readPosition := b + c.utf8Size, character := c }

/-- One clause `( condition ) { block }` of a well-formed `if`: `(` is the next token, the
group gives a condition, `{` follows and the block is read. The result is the condition,
the block and the parser after the block; `none` when the clause is not of this form. -/
def ifClause (fuel : Nat) (p : Parser) : Option (ast.Node × ast.BlockStatement × Parser) :=
  match p.expectRead .LPAREN with
  | .ok (true, p1) =>
    match parseGroup fuel p1 with
    | .ok (c, p2) =>
      if c.isNil then none
      else
        match p2.expectRead .LBRACE with
        | .ok (true, p3) =>
          match parseBlockStatement fuel p3 with
          | .ok (b, q) => some (c, b, q)
          | _ => none
        | _ => none
    | _ => none
  | _ => none

/-- The final `else { block }` of a well-formed `if`, read from the parser after the last
clause: `none` inside when no `else` follows, `none` outside when what follows `else` is
not a block. -/
def ifAlternative (fuel : Nat) (q : Parser) : Option (Option ast.BlockStatement × Parser) :=
  if q.readToken.type = .ELSE then
    match q.nextToken with
    | .ok q1 =>
      if q1.readToken.type = .IF then none
      else
        match q1.expectRead .LBRACE with
        | .ok (true, q2) =>
          match parseBlockStatement fuel q2 with
          | .ok (a, q3) => some (some a, q3)
          | _ => none
        | _ => none
    | _ => none
  else some (none, q)

/-- A well-formed `if` followed by `k` clauses `else if` and an optional final `else`, read
from a parser that stands on `if`: the clauses in source order, the final block if there is
one, and the parser at the end. With `fuel + 1` the budget of `parseIf`, each clause is
read with the budget `parseIf` has left at its depth. -/
def ifChain : Nat → Nat → Parser →
    Option (List (ast.Node × ast.BlockStatement) × Option ast.BlockStatement × Parser)
  | 0, fuel, p =>
    match ifClause fuel p with
    | some (c, b, q) =>
      match ifAlternative fuel q with
      | some (alt, q3) => some ([(c, b)], alt, q3)
      | none => none
    | none => none
  | _ + 1, 0, _ => none
  | k + 1, fuel + 1, p =>
    match ifClause (fuel + 1) p with
    | some (c, b, q) =>
      if q.readToken.type = .ELSE then
        match q.nextToken with
        | .ok q1 =>
          if q1.readToken.type = .IF then
            match q1.nextToken with
            | .ok q2 =>
              match ifChain k fuel q2 with
              | some (rest, alt, q3) => some ((c, b) :: rest, alt, q3)
              | none => none
            | _ => none
          else none
        | _ => none
      else none
    | none => none

/-- The token of the identifier `name`. -/
def identToken (name : Text) : Token := { type := .IDENT, literal := name }

/-- The node of the identifier `name`. -/
def identLeaf (name : Text) : ast.Node := .Identifier { token := identToken name, value := name }

/-- The block whose only statement is the expression `e` that starts with token `t`. -/
def singleBlock (t : Token) (e : ast.Node) : ast.BlockStatement :=
  .mk { type := .LBRACE, literal := "\x7b" } [.ExpressionStatement t e]

/-- The block whose only statement is the identifier `name`. -/
def identBlock (name : Text) : ast.BlockStatement :=
  singleBlock (identToken name) (identLeaf name)

/-- The value behind the Identifier wrappers of an object (a receiver given by a variable). -/
def object.Object.bare : Object → Object
  | .Identifier _ v => v.bare
  | o => o

/-- The value behind all wrappers, Identifier and index access, of an object. -/
def object.Object.underlying : Object → Object
  | .Identifier _ v => v.underlying
  | .AccessByExpression _ _ v => v.underlying
  | o => o

/-- Whether every parent link of the memory points to a scope at a lower address, as the
links made by `NewEnclosedEnvironment` do: a scope is allocated after its parent. -/
def Heap.wellScoped (h : Heap) : Bool :=
  (List.range h.envs.length).all (fun q =>
    match h.outerOf q with
    | some o => decide (o < q)
    | none => true)

/-! ## Statements that reach a `return` -/

/-- The block that `evalIf` picks from condition number `i` on: the consequence of the
first condition that is truthy, or the alternative when every condition is falsy, and the
memory once the conditions up to there are evaluated. `none` when a condition yields an
Error or no value, or when the consequence is missing. -/
def pickBlock (ev : Evaluator) (consequences : List ast.BlockStatement)
    (alternative : ast.BlockStatement) :
    List ast.Node → Nat → EnvRef → Heap → Option (ast.BlockStatement × Heap)
  | [], _, _, h => some (alternative, h)
  | c :: rest, i, env, h =>
    match ev c env h with
    | .ok (v, h1) =>
      if v.type = .ErrorType then none
      else if isTruthy v then (consequences[i]?).map (fun b => (b, h1))
      else pickBlock ev consequences alternative rest (i + 1) env h1
    | _ => none

/-- The value and the memory with which the statements of a list, evaluated in order in
scope `env`, reach a `return`: the first statement of the list that yields a Return or an
Error is one in which `reach` finds the `return` (the statements before it are evaluated by
`ev` and yield neither). `none` when there is no such statement. -/
def firstReturnIn (reach : ast.Node → EnvRef → Heap → Option (Object × Heap)) (ev : Evaluator) :
    List ast.Node → EnvRef → Heap → Option (Object × Heap)
  | [], _, _ => none
  | s :: rest, env, h =>
    match reach s env h with
    | some r => some r
    | none =>
      match ev s env h with
      | .ok (o, h1) =>
        if o.type = .ReturnType ∨ o.type = .ErrorType then none
        else firstReturnIn reach ev rest env h1
      | _ => none

/-- The `return` that a statement reaches, with the fuel `Eval` has for the statement: the
statement is `return e` and `e` evaluates to a value `v` that is no Error, or it is an `if`
standing as a statement, whose conditions pick a block, and the statements of that block,
in its new scope, reach a `return` in the same way (at any depth). The result is `v` and
the memory right after `e` is evaluated. -/
def returnSite : Nat → ast.Node → EnvRef → Heap → Option (Object × Heap)
  | 0, _, _, _ => none
  | fuel + 1, .ReturnStatement _ e, env, h =>
    match Eval fuel e env h with
    | .ok (v, h1) => if v.type = .ErrorType then none else some (v, h1)
    | _ => none
  | fuel + 3, .ExpressionStatement _ (.If _ conditions consequences alternative), env, h =>
    match pickBlock (Eval (fuel + 1)) consequences alternative conditions 0 env h with
    | some (b, h1) =>
      firstReturnIn (returnSite fuel) (Eval fuel) b.statements
        (NewEnclosedEnvironment h1 env).1 (NewEnclosedEnvironment h1 env).2
    | none => none
  | _, _, _, _ => none

/-! # Properties -/

/-! ## Decidable equality of values and memory -/

deriving instance DecidableEq for object.Object
deriving instance DecidableEq for object.Environment
deriving instance DecidableEq for Backing
deriving instance DecidableEq for Heap

/-! ## Sequencing lemmas -/

@[simp] theorem Res.ok_bind {α β : Type} (a : α) (f : α → Res β) : (Res.ok a >>= f) = f a := rfl

@[simp] theorem Res.panic_bind {α β : Type} (m : String) (f : α → Res β) :
    ((Res.panic m : Res α) >>= f) = Res.panic m := rfl

@[simp] theorem Res.outOfFuel_bind {α β : Type} (f : α → Res β) :
    ((Res.outOfFuel : Res α) >>= f) = Res.outOfFuel := rfl

@[simp] theorem Res.pure_eq {α : Type} (a : α) : (pure a : Res α) = Res.ok a := rfl

/-! ## Truthiness -/

/-- C7: a value is truthy exactly when it is the Boolean true or an Integer above zero;
Integer zero, negative Integers, Null, String, Array, HashTable and Function are falsy. -/
theorem isTruthy_iff (v : Object) :
    (isTruthy v = true ↔ v = .Boolean true ∨ ∃ n : Int, n > 0 ∧ v = .Integer n) ∧
    isTruthy (.Integer 0) = false ∧
    (∀ n : Int, n < 0 → isTruthy (.Integer n) = false) ∧
    isTruthy .Null = false ∧
    (∀ s, isTruthy (.String s) = false) ∧
    (∀ a, isTruthy (.Array a) = false) ∧
    (∀ t, isTruthy (.HashTable t) = false) ∧
    (∀ ps b e, isTruthy (.Function ps b e) = false) := by
  refine ⟨?_, by simp [isTruthy], ?_, rfl, fun _ => rfl, fun _ => rfl, fun _ => rfl,
    fun _ _ _ => rfl⟩
  · cases v <;> simp [isTruthy]
  · intro n hn
    simp only [isTruthy, decide_eq_false_iff_not, not_lt]
    omega

/-! ## If expressions -/

/-- Conditions that all come out falsy are passed over by the loop of `evalIf`. -/
theorem evalIfLoop_skip (ev : Evaluator) (consequences : List ast.BlockStatement)
    (alternative : ast.BlockStatement) (env : EnvRef) :
    ∀ (pre rest : List ast.Node) (i : Nat) (h h1 : Heap),
      runFalsy ev pre env h = some h1 →
      evalIfLoop ev consequences alternative (pre ++ rest) i env h =
        evalIfLoop ev consequences alternative rest (i + pre.length) env h1 := by
  intro pre
  induction pre with
  | nil =>
    intro rest i h h1 hrun
    simp only [runFalsy, Option.some.injEq] at hrun
    simp [hrun]
  | cons c pre ih =>
    intro rest i h h1 hrun
    simp only [runFalsy] at hrun
    cases hc : ev c env h with
    | ok r =>
      obtain ⟨v, h2⟩ := r
      rw [hc] at hrun
      simp only at hrun
      split at hrun
      · cases hrun
      · rename_i hv
        simp only [not_or, Bool.not_eq_true] at hv
        simp only [List.cons_append, evalIfLoop, hc, Res.ok_bind, hv.1, hv.2, if_false,
          Bool.false_eq_true, List.length_cons]
        rw [show i + (pre.length + 1) = i + 1 + pre.length by omega]
        exact ih rest (i + 1) h2 h1 hrun
    | panic m => rw [hc] at hrun; cases hrun
    | outOfFuel => rw [hc] at hrun; cases hrun

/-- C8: `evalIf` evaluates the conditions in order. When the conditions `pre` all come out
falsy: a next condition `c` that is truthy makes the result the value of the consequence
block paired with it, whatever conditions `post` follow (none of them is evaluated); with
no further condition the result is the value of the alternative block, which is Null when
there is no alternative. The three examples of the claim are evaluated at the end. -/
theorem evalIf_first_truthy (ev : Evaluator) (consequences : List ast.BlockStatement)
    (alternative : ast.BlockStatement) (env : EnvRef) (pre : List ast.Node) (h h1 : Heap)
    (hpre : runFalsy ev pre env h = some h1) :
    (∀ (c : ast.Node) (post : List ast.Node) (v : Object) (h2 : Heap) (b : ast.BlockStatement),
      ev c env h1 = .ok (v, h2) → isTruthy v = true → consequences[pre.length]? = some b →
      evalIf ev (pre ++ c :: post) consequences alternative env h
        = ev (.BlockStatement b) env h2) ∧
    evalIf ev pre consequences alternative env h = ev (.BlockStatement alternative) env h1 ∧
    (∀ fuel : Nat, Eval (fuel + 1) (.BlockStatement ast.BlockStatement.zero) env h1
      = .ok (NULL, (NewEnclosedEnvironment h1 env).2)) ∧
    evalValue latin1Only 60 "if (1 > 2) { 5 }" = .ok NULL ∧
    evalValue latin1Only 60 "if (0) { 5 } else { 1 }" = .ok (.Integer 1) ∧
    evalValue latin1Only 60
      "if (1 > 2) { 5 } else if (2 == 1) { 15 } else if (2 > 1) { 25 } else { 1 }"
      = .ok (.Integer 25) := by
  refine ⟨?_, ?_, ?_, by decide!, by decide!, by decide!⟩
  · intro c post v h2 b hc hv hb
    have hne : v.type ≠ .ErrorType := by
      intro he
      cases v <;> simp_all [Object.type, isTruthy]
    rw [evalIf, evalIfLoop_skip ev consequences alternative env pre (c :: post) 0 h h1 hpre]
    simp only [evalIfLoop, hc, Res.ok_bind, hne, if_false, hv, if_true, Nat.zero_add, hb]
  · have := evalIfLoop_skip ev consequences alternative env pre [] 0 h h1 hpre
    rw [List.append_nil] at this
    rw [evalIf, this, evalIfLoop]
  · intro fuel
    rfl

/-- C8 at a concrete input: the conditions `false`, then `true`, then one never reached. -/
theorem evalIf_first_truthy_witness :
    runFalsy (Eval 5) [.Boolean ⟨.FALSE, "false"⟩ false] 0 (NewEnvironment Heap.empty).2
      = some (NewEnvironment Heap.empty).2 ∧
    evalIf (Eval 5) [.Boolean ⟨.FALSE, "false"⟩ false, .Boolean ⟨.TRUE, "true"⟩ true, .nil]
      [.mk Token.zero [], .mk Token.zero [.Integer ⟨.INT, "7"⟩ 7]] ast.BlockStatement.zero
      0 (NewEnvironment Heap.empty).2
      = Eval 5 (.BlockStatement (.mk Token.zero [.Integer ⟨.INT, "7"⟩ 7])) 0
        (NewEnvironment Heap.empty).2 :=
  ⟨by decide!,
   (evalIf_first_truthy (Eval 5) _ _ 0 [.Boolean ⟨.FALSE, "false"⟩ false]
      (NewEnvironment Heap.empty).2 (NewEnvironment Heap.empty).2
      (by decide!)).1 (.Boolean ⟨.TRUE, "true"⟩ true) [.nil] (.Boolean true)
      (NewEnvironment Heap.empty).2 _ (by decide!) (by decide!) (by decide!)⟩

/-! ## Statement sequences -/

/-- One step of `runStatements`, read backwards. -/
theorem runStatements_cons (ev : Evaluator) (s : ast.Node) (pre : List ast.Node) (env : EnvRef)
    (h h1 : Heap) (hrun : runStatements ev (s :: pre) env h = some h1) :
    ∃ o h2, ev s env h = .ok (o, h2) ∧ o.type ≠ .ReturnType ∧ o.type ≠ .ErrorType ∧
      runStatements ev pre env h2 = some h1 := by
  simp only [runStatements] at hrun
  cases hc : ev s env h with
  | ok r =>
    obtain ⟨o, h2⟩ := r
    rw [hc] at hrun
    simp only at hrun
    split at hrun
    · cases hrun
    · rename_i ho
      simp only [not_or] at ho
      exact ⟨o, h2, rfl, ho.1, ho.2, hrun⟩
  | panic m => rw [hc] at hrun; cases hrun
  | outOfFuel => rw [hc] at hrun; cases hrun

/-- The loop of `evalBlock` runs past statements that yield neither Return nor Error. -/
theorem evalBlockLoop_skip (ev : Evaluator) (env : EnvRef) (s : ast.Node)
    (post : List ast.Node) :
    ∀ (pre : List ast.Node) (res : Option Object) (h h1 : Heap),
      runStatements ev pre env h = some h1 →
      evalBlockLoop ev (pre ++ s :: post) env res h
        = evalBlockLoop ev (s :: post) env none h1 := by
  intro pre
  induction pre with
  | nil =>
    intro res h h1 hrun
    simp only [runStatements, Option.some.injEq] at hrun
    subst hrun
    rfl
  | cons c pre ih =>
    intro res h h1 hrun
    obtain ⟨o, h2, hc, h3, h4, h5⟩ := runStatements_cons ev c pre env h h1 hrun
    simp only [List.cons_append, evalBlockLoop, hc, Res.ok_bind, h3, h4, or_self, if_false]
    exact ih (some o) h2 h1 h5

/-- The loop of `evalProgram` runs past statements that yield neither Return nor Error. -/
theorem evalProgramLoop_skip (ev : Evaluator) (env : EnvRef) (s : ast.Node)
    (post : List ast.Node) :
    ∀ (pre : List ast.Node) (res : Option Object) (h h1 : Heap),
      runStatements ev pre env h = some h1 →
      evalProgramLoop ev (pre ++ s :: post) env res h
        = evalProgramLoop ev (s :: post) env none h1 := by
  intro pre
  induction pre with
  | nil =>
    intro res h h1 hrun
    simp only [runStatements, Option.some.injEq] at hrun
    subst hrun
    rfl
  | cons c pre ih =>
    intro res h h1 hrun
    obtain ⟨o, h2, hc, h3, h4, h5⟩ := runStatements_cons ev c pre env h h1 hrun
    simp only [List.cons_append, evalProgramLoop, hc, Res.ok_bind]
    cases o <;> first
      | exact absurd rfl h3
      | exact absurd rfl h4
      | exact ih _ h2 h1 h5

/-- Error short-circuit within one list of statements. When the statements `pre` run without
yielding a Return or an Error and the next statement `s` evaluates to Error `m`, then
`evalProgram` and `evalBlock` return that Error, with the memory as `s` left it, whatever
statements `post` follow: none of them is evaluated. Since the Error is then the value of
the statement that holds the block, the same applies to every enclosing block and to the
program. The two programs of the claim are evaluated at the end. -/
theorem error_short_circuit (ev : Evaluator) (pre : List ast.Node) (s : ast.Node)
    (env : EnvRef) (h h1 h2 : Heap) (m : Text)
    (hpre : runStatements ev pre env h = some h1)
    (hs : ev s env h1 = .ok (.Error m, h2)) :
    (∀ post : List ast.Node, evalProgram ev (pre ++ s :: post) env h = .ok (.Error m, h2)) ∧
    (∀ (post : List ast.Node) (outer : EnvRef) (h0 : Heap),
      NewEnclosedEnvironment h0 outer = (env, h) →
      evalBlock ev (pre ++ s :: post) outer h0 = .ok (.Error m, h2)) ∧
    evalValue latin1Only 60 "5 + true; 5"
      = .ok (.Error "type mismatch: INTEGER + BOOLEAN") ∧
    evalValue latin1Only 60 "if (2 > 1) { if (2 > 1) { true + false } return 1 }"
      = .ok (.Error "unknown operator: BOOLEAN + BOOLEAN") := by
  refine ⟨?_, ?_, by decide!, by decide!⟩
  · intro post
    rw [evalProgram, evalProgramLoop_skip ev env s post pre none h h1 hpre]
    simp only [evalProgramLoop, hs, Res.ok_bind, Res.pure_eq]
  · intro post outer h0 he
    rw [evalBlock, he]
    simp only
    rw [evalBlockLoop_skip ev env s post pre none h h1 hpre]
    simp [evalBlockLoop, hs, Object.type]

/-- Error short-circuit at a concrete input: the statements `1`, then `-true`, then one
never reached. -/
theorem error_short_circuit_witness :
    evalProgram (Eval 5)
      ([.Integer ⟨.INT, "1"⟩ 1] ++
        .Prefix ⟨.MINUS, "-"⟩ "-" (.Boolean ⟨.TRUE, "true"⟩ true) :: [.nil]) 0
      (NewEnvironment Heap.empty).2
      = .ok (.Error "unknown operator: -BOOLEAN", (NewEnvironment Heap.empty).2) :=
  (error_short_circuit (Eval 5) [.Integer ⟨.INT, "1"⟩ 1]
    (.Prefix ⟨.MINUS, "-"⟩ "-" (.Boolean ⟨.TRUE, "true"⟩ true)) 0
    (NewEnvironment Heap.empty).2 (NewEnvironment Heap.empty).2 (NewEnvironment Heap.empty).2
    "unknown operator: -BOOLEAN" (by decide!) (by decide!)).1 [.nil]

/-- A `return` standing in the list of statements itself. When the statements `pre` run
without yielding a Return or an Error and the next statement is `return e` with `e`
evaluating to a value `v` that is not an Error, then the program yields `v` and a block
yields the Return signal of `v` (which stops every enclosing block in the same way), with
the memory as the `return` left it, whatever statements `post` follow: none of them is
evaluated. The two programs of the claim are evaluated at the end. -/
theorem return_propagation (fuel : Nat) (pre : List ast.Node) (tok : Token) (e : ast.Node)
    (env : EnvRef) (h h1 h2 : Heap) (v : Object)
    (hpre : runStatements (Eval (fuel + 1)) pre env h = some h1)
    (he : Eval fuel e env h1 = .ok (v, h2)) (hv : v.type ≠ .ErrorType) :
    (∀ post : List ast.Node,
      Eval (fuel + 2) (.Program (pre ++ .ReturnStatement tok e :: post)) env h = .ok (v, h2)) ∧
    (∀ (post : List ast.Node) (t : Token) (outer : EnvRef) (h0 : Heap),
      NewEnclosedEnvironment h0 outer = (env, h) →
      Eval (fuel + 2) (.BlockStatement (.mk t (pre ++ .ReturnStatement tok e :: post))) outer h0
        = .ok (.Return v, h2)) ∧
    evalValue latin1Only 60 "5; return 2 * 5; 5" = .ok (.Integer 10) ∧
    evalValue latin1Only 60 "if (2 > 1) { if (2 > 1) { return 10 } return 1 }"
      = .ok (.Integer 10) := by
  have hs : Eval (fuel + 1) (.ReturnStatement tok e) env h1 = .ok (.Return v, h2) := by
    simp only [Eval, he, Res.ok_bind, hv, if_false, Res.pure_eq]
  refine ⟨?_, ?_, by decide!, by decide!⟩
  · intro post
    rw [Eval, evalProgram, evalProgramLoop_skip _ env _ post pre none h h1 hpre]
    simp only [evalProgramLoop, hs, Res.ok_bind, Res.pure_eq]
  · intro post t outer h0 hnew
    rw [Eval, ast.BlockStatement.statements, evalBlock, hnew]
    simp only
    rw [evalBlockLoop_skip _ env _ post pre none h h1 hpre]
    simp [evalBlockLoop, hs, Object.type]

/-- A `return` in the list at a concrete input: the statements `5`, then `return 7`, then
one never reached. -/
theorem return_propagation_witness :
    Eval 5 (.Program ([.Integer ⟨.INT, "5"⟩ 5] ++
      .ReturnStatement ⟨.RETURN, "return"⟩ (.Integer ⟨.INT, "7"⟩ 7) :: [.nil])) 0
      (NewEnvironment Heap.empty).2 = .ok (.Integer 7, (NewEnvironment Heap.empty).2) :=
  (return_propagation 3 [.Integer ⟨.INT, "5"⟩ 5] ⟨.RETURN, "return"⟩ (.Integer ⟨.INT, "7"⟩ 7) 0
    (NewEnvironment Heap.empty).2 (NewEnvironment Heap.empty).2 (NewEnvironment Heap.empty).2
    (.Integer 7) (by decide!) (by decide!) (by decide!)).1 [.nil]

/-! ## Environments -/

/-- Reading a key just stored. -/
theorem mapGet_mapSet_self {ν : Type} (m : List (Text × ν)) (k : Text) (v : ν) :
    mapGet keyEqText (mapSet keyEqText m k v) k = some v := by
  induction m with
  | nil => simp [mapSet, mapGet, keyEqText]
  | cons b m ih =>
    obtain ⟨k0, v0⟩ := b
    by_cases hk : keyEqText k0 k = true
    · simp [mapSet, mapGet, hk]
    · simp [mapSet, mapGet, hk, ih]

/-- Reading another key than the one just stored. -/
theorem mapGet_mapSet_other {ν : Type} (m : List (Text × ν)) (k k2 : Text) (v : ν)
    (hne : k2 ≠ k) : mapGet keyEqText (mapSet keyEqText m k v) k2 = mapGet keyEqText m k2 := by
  induction m with
  | nil => simp [mapSet, mapGet, keyEqText, Ne.symm hne]
  | cons b m ih =>
    obtain ⟨k0, v0⟩ := b
    by_cases hk : keyEqText k0 k = true
    · have hk0 : k0 = k := by simpa [keyEqText] using hk
      subst hk0
      simp [mapSet, mapGet, keyEqText, Ne.symm hne]
    · by_cases hk2 : keyEqText k0 k2 = true
      · simp [mapSet, mapGet, hk, hk2]
      · simp [mapSet, mapGet, hk, hk2, ih]

/-- Storing under a key already present keeps the keys as they are. -/
theorem mapSet_keys_of_present {ν : Type} (m : List (Text × ν)) (k : Text) (v : ν)
    (hk : mapGet keyEqText m k ≠ none) :
    (mapSet keyEqText m k v).map (fun b => b.1) = m.map (fun b => b.1) := by
  induction m with
  | nil => simp [mapGet] at hk
  | cons b m ih =>
    obtain ⟨k0, v0⟩ := b
    by_cases h0 : keyEqText k0 k = true
    · simp [mapSet, h0]
    · simp only [mapGet, h0, Bool.false_eq_true, if_false] at hk
      simp [mapSet, h0, ih hk]

/-- Storing under an absent key appends the binding. -/
theorem mapSet_of_absent {ν : Type} (m : List (Text × ν)) (k : Text) (v : ν)
    (hk : mapGet keyEqText m k = none) : mapSet keyEqText m k v = m ++ [(k, v)] := by
  induction m with
  | nil => simp [mapSet]
  | cons b m ih =>
    obtain ⟨k0, v0⟩ := b
    by_cases h0 : keyEqText k0 k = true
    · simp [mapGet, h0] at hk
    · simp only [mapGet, h0, Bool.false_eq_true, if_false] at hk
      simp [mapSet, h0, ih hk]

/-- The walk of `Get` finds a value exactly when some scope on the way binds the key. -/
theorem Heap.getLoop_eq_findScope (h : Heap) (key : Text) :
    ∀ (n : Nat) (cur : Option EnvRef),
      h.getLoop n cur key = (h.findScope n cur key).bind (fun r => h.valueIn r key) := by
  intro n
  induction n with
  | zero => intro cur; simp [Heap.getLoop, Heap.findScope]
  | succ n ih =>
    intro cur
    cases cur with
    | none => simp [Heap.getLoop, Heap.findScope]
    | some c =>
      simp only [Heap.getLoop, Heap.findScope]
      cases he : h.envs[c]? with
      | none => simp
      | some e =>
        simp only
        cases hm : mapGet keyEqText e.store key with
        | none => simp only; exact ih e.outer
        | some o => simp [Heap.valueIn, he, hm]

/-- The scope found binds the key, and lies on the chain after scopes that do not. -/
theorem Heap.findScope_spec (h : Heap) (key : Text) :
    ∀ (n : Nat) (cur : Option EnvRef) (r : EnvRef), h.findScope n cur key = some r →
      h.binds r key = true ∧
      ∃ pre post, h.chain n cur = pre ++ r :: post ∧ ∀ s ∈ pre, h.binds s key = false := by
  intro n
  induction n with
  | zero => intro cur r hf; simp [Heap.findScope] at hf
  | succ n ih =>
    intro cur r hf
    cases cur with
    | none => simp [Heap.findScope] at hf
    | some c =>
      simp only [Heap.findScope] at hf
      cases he : h.envs[c]? with
      | none => simp [he] at hf
      | some e =>
        simp only [he] at hf
        cases hm : mapGet keyEqText e.store key with
        | none =>
          simp only [hm] at hf
          obtain ⟨hb, pre, post, hc, hp⟩ := ih e.outer r hf
          refine ⟨hb, c :: pre, post, ?_, ?_⟩
          · simp [Heap.chain, he, hc]
          · intro s hs
            rcases List.mem_cons.mp hs with rfl | hs
            · simp [Heap.binds, he, hm]
            · exact hp s hs
        | some o =>
          simp only [hm, Option.some.injEq] at hf
          subst hf
          exact ⟨by simp [Heap.binds, he, hm], [], h.chain n e.outer, by simp [Heap.chain, he],
            by simp⟩

/-- The walk of `Set` overwrites the scope found, and fails when none is found. -/
theorem Heap.setLoop_eq_findScope (h : Heap) (key : Text) (value : Object) :
    ∀ (n : Nat) (cur : Option EnvRef),
      h.setLoop n cur key value = (h.findScope n cur key).map (fun r => h.store r key value) := by
  intro n
  induction n with
  | zero => intro cur; simp [Heap.setLoop, Heap.findScope]
  | succ n ih =>
    intro cur
    cases cur with
    | none => simp [Heap.setLoop, Heap.findScope]
    | some c =>
      simp only [Heap.setLoop, Heap.findScope]
      cases he : h.envs[c]? with
      | none => simp
      | some e =>
        simp only
        cases hm : mapGet keyEqText e.store key with
        | none => simp only; exact ih e.outer
        | some o => simp [Heap.store, he]

/-- `Set` on a name bound on the chain stores into the scope found. -/
theorem Heap.Set_of_found (h : Heap) (env r : EnvRef) (key : Text) (value : Object)
    (hf : h.findScope h.envs.length (some env) key = some r) :
    h.Set env key value = h.store r key value := by
  simp [Heap.Set, Heap.setLoop_eq_findScope, hf]

/-- `Set` on a name bound nowhere on the chain stores into the scope it was called on. -/
theorem Heap.Set_of_not_found (h : Heap) (env : EnvRef) (key : Text) (value : Object)
    (hf : h.findScope h.envs.length (some env) key = none) :
    h.Set env key value = h.store env key value := by
  simp only [Heap.Set, Heap.setLoop_eq_findScope, hf, Option.map_none', Heap.store]
  cases h.envs[env]? <;> rfl

/-- A lookup that succeeds has found a scope. -/
theorem Heap.findScope_of_Get (h : Heap) (env : EnvRef) (key : Text)
    (hx : h.Get env key ≠ none) : ∃ r, h.findScope h.envs.length (some env) key = some r := by
  rw [Heap.Get, Heap.getLoop_eq_findScope] at hx
  cases hf : h.findScope h.envs.length (some env) key with
  | none => simp [hf] at hx
  | some r => exact ⟨r, rfl⟩

/-- Facts about the memory after storing into scope `r`. -/
theorem Heap.store_spec (h : Heap) (r : EnvRef) (key : Text) (value : Object)
    (hr : r < h.envs.length) :
    (h.store r key value).valueIn r key = some value ∧
    (∀ s, s ≠ r → (h.store r key value).envs[s]? = h.envs[s]?) ∧
    (∀ s, (h.store r key value).outerOf s = h.outerOf s) ∧
    (∀ k2, k2 ≠ key → ∀ s, (h.store r key value).valueIn s k2 = h.valueIn s k2) ∧
    (h.store r key value).envs.length = h.envs.length ∧
    (h.store r key value).arrays = h.arrays ∧ (h.store r key value).tables = h.tables := by
  have he : h.envs[r]? = some h.envs[r] := List.getElem?_eq_getElem hr
  generalize h.envs[r] = e at he
  simp only [Heap.store, he]
  refine ⟨?_, ?_, ?_, ?_, ?_, trivial, trivial⟩
  · simp [Heap.valueIn, List.getElem?_set, hr, mapGet_mapSet_self]
  · intro s hs
    simp [List.getElem?_set, Ne.symm hs]
  · intro s
    by_cases hs : s = r
    · subst hs
      simp [Heap.outerOf, List.getElem?_set, hr, he]
    · simp [Heap.outerOf, List.getElem?_set, Ne.symm hs]
  · intro k2 hk2 s
    by_cases hs : s = r
    · subst hs
      simp [Heap.valueIn, List.getElem?_set, hr, he, mapGet_mapSet_other _ _ _ _ hk2]
    · simp [Heap.valueIn, List.getElem?_set, Ne.symm hs]
  · simp

/-- An address that reads a cell lies inside the list. -/
theorem index_lt_of_getElem? {α : Type} (l : List α) (r : Nat) (e : α) (he : l[r]? = some e) :
    r < l.length := by
  by_contra hlt
  rw [List.getElem?_eq_none (Nat.le_of_not_lt hlt)] at he
  cases he

/-- Storing under a name the scope already binds keeps the names of every scope. -/
theorem Heap.store_names (h : Heap) (r : EnvRef) (key : Text) (value : Object)
    (hb : h.binds r key = true) (s : EnvRef) : (h.store r key value).names s = h.names s := by
  cases he : h.envs[r]? with
  | none => simp [Heap.store, he]
  | some e =>
    have hr : r < h.envs.length := index_lt_of_getElem? _ _ _ he
    have hk : mapGet keyEqText e.store key ≠ none := by
      simp only [Heap.binds, he] at hb
      intro hn
      simp [hn] at hb
    by_cases hs : s = r
    · subst hs
      simp [Heap.store, Heap.names, he, List.getElem?_set, hr, mapSet_keys_of_present _ _ _ hk]
    · simp [Heap.store, Heap.names, he, List.getElem?_set, Ne.symm hs]

/-- Storing under a name the scope already binds does not change which scope a walk finds. -/
theorem Heap.findScope_store (h : Heap) (r : EnvRef) (key : Text) (value : Object)
    (hb : h.binds r key = true) (key2 : Text) :
    ∀ (n : Nat) (cur : Option EnvRef),
      (h.store r key value).findScope n cur key2 = h.findScope n cur key2 := by
  cases he : h.envs[r]? with
  | none => simp [Heap.store, he]
  | some e =>
    have hr : r < h.envs.length := index_lt_of_getElem? _ _ _ he
    have hk : mapGet keyEqText e.store key ≠ none := by
      simp only [Heap.binds, he] at hb
      intro hn
      simp [hn] at hb
    intro n
    induction n with
    | zero => intro cur; rfl
    | succ n ih =>
      intro cur
      cases cur with
      | none => rfl
      | some c =>
        by_cases hc : c = r
        · subst hc
          simp only [Heap.findScope, Heap.store, he, List.getElem?_set, hr, if_true]
          by_cases hkk : key2 = key
          · subst hkk
            rw [mapGet_mapSet_self]
            cases hm : mapGet keyEqText e.store key2 with
            | none => exact absurd hm hk
            | some o => rfl
          · rw [mapGet_mapSet_other _ _ _ _ hkk]
            cases hm : mapGet keyEqText e.store key2 with
            | none =>
              have := ih e.outer
              simp only [Heap.store, he] at this
              simpa using this
            | some o => rfl
        · simp only [Heap.findScope, Heap.store, he, List.getElem?_set, Ne.symm hc, if_false]
          cases h.envs[c]? with
          | none => rfl
          | some e2 =>
            simp only
            cases mapGet keyEqText e2.store key2 with
            | none =>
              have := ih e2.outer
              simp only [Heap.store, he] at this
              simpa using this
            | some o => rfl

/-- A lookup after `Set` on a name bound on the chain returns the value set. -/
theorem Heap.Get_Set_of_found (h : Heap) (env r : EnvRef) (key : Text) (value : Object)
    (hf : h.findScope h.envs.length (some env) key = some r) :
    (h.Set env key value).Get env key = some value := by
  have hspec := h.findScope_spec key h.envs.length (some env) r hf
  have hb := hspec.1
  have hr : r < h.envs.length := by
    by_contra hlt
    simp [Heap.binds, List.getElem?_eq_none (Nat.le_of_not_lt hlt)] at hb
  have hst := h.store_spec r key value hr
  rw [Heap.Set_of_found h env r key value hf, Heap.Get, Heap.getLoop_eq_findScope, hst.2.2.2.2.1,
    Heap.findScope_store h r key value hb, hf]
  simpa using hst.1

/-- The self-calls of `evalInfix` that unwrap an index access on the right of `=`, and the
assignment itself, when the target is an Identifier and the access does not resolve to an
Identifier. -/
theorem evalInfixAux_assign (x : Text) (old : Object) (env : EnvRef) (h : Heap) :
    ∀ (r : Object) (k : Nat), r.wrappers + 1 ≤ k → r.indexed.type ≠ .IdentifierType →
      evalInfixAux k "=" (.Identifier x old) r env h = .ok (NULL, h.Set env x r.indexed) := by
  intro r
  induction r with
  | AccessByExpression l e v _ _ ihv =>
    intro k hk hi
    obtain ⟨k, rfl⟩ : ∃ j, k = j + 1 := ⟨k - 1, by omega⟩
    simp only [Object.wrappers] at hk
    simp only [Object.indexed] at hi ⊢
    rw [evalInfixAux]
    exact ihv k (by omega) hi
  | Identifier n v _ =>
    intro k hk hi
    exact absurd rfl hi
  | _ =>
    intro k hk hi
    obtain ⟨k, rfl⟩ : ∃ j, k = j + 1 := ⟨k - 1, by omega⟩
    simp [evalInfixAux, Object.indexed]

/-- What `Set` does on a name bound on the chain: the innermost scope binding the name
gets the value, no other scope changes, and no scope gains or loses a name. -/
theorem Heap.Set_bound (h : Heap) (env : EnvRef) (key : Text) (value : Object)
    (hx : h.Get env key ≠ none) :
    ∃ s pre post,
      h.chain h.envs.length (some env) = pre ++ s :: post ∧
      (∀ q ∈ pre, h.binds q key = false) ∧ h.binds s key = true ∧
      (h.Set env key value).valueIn s key = some value ∧
      (∀ q, q ≠ s → (h.Set env key value).envs[q]? = h.envs[q]?) ∧
      (∀ q, (h.Set env key value).names q = h.names q) ∧
      (∀ q, (h.Set env key value).outerOf q = h.outerOf q) ∧
      (h.Set env key value).Get env key = some value := by
  obtain ⟨s, hf⟩ := h.findScope_of_Get env key hx
  obtain ⟨hb, pre, post, hc, hp⟩ := h.findScope_spec key h.envs.length (some env) s hf
  have hs : s < h.envs.length := by
    by_contra hlt
    simp [Heap.binds, List.getElem?_eq_none (Nat.le_of_not_lt hlt)] at hb
  have hst := h.store_spec s key value hs
  refine ⟨s, pre, post, hc, hp, hb, ?_, ?_, ?_, ?_, h.Get_Set_of_found env s key value hf⟩
  · rw [Heap.Set_of_found h env s key value hf]; exact hst.1
  · rw [Heap.Set_of_found h env s key value hf]; exact hst.2.1
  · rw [Heap.Set_of_found h env s key value hf]; exact h.store_names s key value hb
  · rw [Heap.Set_of_found h env s key value hf]; exact hst.2.2.1

/-- What `Set` does on a name bound nowhere on the chain: the scope it is called on gains
the binding, and no other scope changes. -/
theorem Heap.Set_unbound (h : Heap) (env : EnvRef) (key : Text) (value : Object)
    (henv : env < h.envs.length) (hx : h.Get env key = none) :
    (h.Set env key value).valueIn env key = some value ∧
    (h.Set env key value).names env = h.names env ++ [key] ∧
    (∀ q, q ≠ env → (h.Set env key value).envs[q]? = h.envs[q]?) ∧
    (∀ q, (h.Set env key value).outerOf q = h.outerOf q) := by
  have hf : h.findScope h.envs.length (some env) key = none := by
    cases hf : h.findScope h.envs.length (some env) key with
    | none => rfl
    | some r =>
      have hb := (h.findScope_spec key h.envs.length (some env) r hf).1
      rw [Heap.Get, Heap.getLoop_eq_findScope, hf] at hx
      simp only [Option.some_bind] at hx
      simp only [Heap.binds] at hb
      simp only [Heap.valueIn] at hx
      cases he : h.envs[r]? with
      | none => simp [he] at hb
      | some e => simp [he] at hb hx; simp [hx] at hb
  obtain ⟨n, hn⟩ : ∃ n, h.envs.length = n + 1 :=
    ⟨h.envs.length - 1, (Nat.sub_add_cancel (Nat.lt_of_le_of_lt (Nat.zero_le _) henv)).symm⟩
  have he : h.envs[env]? = some h.envs[env] := List.getElem?_eq_getElem henv
  generalize h.envs[env] = e at he
  have habs : mapGet keyEqText e.store key = none := by
    rw [hn] at hf
    simp only [Heap.findScope, he] at hf
    cases hm : mapGet keyEqText e.store key with
    | none => rfl
    | some o => simp [hm] at hf
  have hst := h.store_spec env key value henv
  rw [Heap.Set_of_not_found h env key value hf]
  refine ⟨hst.1, ?_, hst.2.1, hst.2.2.1⟩
  simp [Heap.store, Heap.names, he, List.getElem?_set, henv, mapSet_of_absent _ _ _ habs]

/-- Assignment `x = e` of a value that carries no name. With `x` bound on the chain of `env`
(a lookup of `x` succeeds, both when the left side is evaluated and when the assignment is
performed) and `e` evaluating to a value that is not an Error and, resolved through index
accesses, not an Identifier wrapper: the assignment returns Null having called `Set`, which
puts the value into the innermost scope of the chain that binds `x`, changes no other scope
and adds no name to any scope; evaluating `x` afterwards yields the value. The program of
the claim is evaluated at the end. -/
theorem assignment_overwrites_nearest (fuel : Nat) (tok t : Token) (x : Text) (e : ast.Node)
    (env : EnvRef) (h h1 : Heap) (r : Object)
    (hx : h.Get env x ≠ none)
    (he : Eval (fuel + 1) e env h = .ok (r, h1))
    (hr : r.type ≠ .ErrorType) (hi : r.indexed.type ≠ .IdentifierType)
    (hx1 : h1.Get env x ≠ none) :
    Eval (fuel + 2) (.Infix tok "=" (.Identifier ⟨t, x⟩) e) env h
      = .ok (NULL, h1.Set env x r.indexed) ∧
    (∃ s pre post,
      h1.chain h1.envs.length (some env) = pre ++ s :: post ∧
      (∀ q ∈ pre, h1.binds q x = false) ∧ h1.binds s x = true ∧
      (h1.Set env x r.indexed).valueIn s x = some r.indexed ∧
      (∀ q, q ≠ s → (h1.Set env x r.indexed).envs[q]? = h1.envs[q]?) ∧
      (∀ q, (h1.Set env x r.indexed).names q = h1.names q) ∧
      (∀ q, (h1.Set env x r.indexed).outerOf q = h1.outerOf q)) ∧
    (∀ fuel2 : Nat, Eval (fuel2 + 1) (.Identifier ⟨t, x⟩) env (h1.Set env x r.indexed)
      = .ok (.Identifier x r.indexed, h1.Set env x r.indexed)) ∧
    evalValue latin1Only 60 "let z = -11 * (10 * -1); let zz = z + z; zz = 10; zz"
      = .ok (.Integer 10) := by
  obtain ⟨s, pre, post, h2, h3, h4, h5, h6, h7, h8, h9⟩ := h1.Set_bound env x r.indexed hx1
  refine ⟨?_, ⟨s, pre, post, h2, h3, h4, h5, h6, h7, h8⟩, ?_, by decide!⟩
  · obtain ⟨old, hold⟩ : ∃ old, h.Get env x = some old := by
      cases hg : h.Get env x with
      | none => exact absurd hg hx
      | some old => exact ⟨old, rfl⟩
    have hleft : Eval (fuel + 1) (.Identifier ⟨t, x⟩) env h = .ok (.Identifier x old, h) := by
      simp [Eval, evalIdentifier, hold]
    rw [Eval]
    simp only [hleft, Res.ok_bind, he]
    rw [if_neg (by simp [Object.type]), if_neg hr, evalInfix]
    refine evalInfixAux_assign x old env h1 r _ ?_ hi
    simp only [Object.wrappers]
    omega
  · intro fuel2
    simp [Eval, evalIdentifier, h9]

/-- Assignment at a concrete input: `x = 7` in an inner scope whose outer scope binds `x`.
-/
theorem assignment_overwrites_nearest_witness :
    Eval 3 (.Infix ⟨.ASSIGN, "="⟩ "=" (.Identifier ⟨⟨.IDENT, "x"⟩, "x"⟩) (.Integer ⟨.INT, "7"⟩ 7)) 1
      ⟨[⟨[("x", .Integer 1)], none⟩, ⟨[], some 0⟩], [], [], [], []⟩
      = .ok (NULL, Heap.Set ⟨[⟨[("x", .Integer 1)], none⟩, ⟨[], some 0⟩], [], [], [], []⟩ 1 "x"
          (Object.indexed (.Integer 7))) :=
  (assignment_overwrites_nearest 1 ⟨.ASSIGN, "="⟩ ⟨.IDENT, "x"⟩ "x" (.Integer ⟨.INT, "7"⟩ 7) 1
    ⟨[⟨[("x", .Integer 1)], none⟩, ⟨[], some 0⟩], [], [], [], []⟩
    ⟨[⟨[("x", .Integer 1)], none⟩, ⟨[], some 0⟩], [], [], [], []⟩ (.Integer 7)
    (by decide!) (by decide!) (by decide!) (by decide!) (by decide!)).1

/-- C6 fails as stated: with `x` bound to 1 in the outer scope 0 and nothing bound in the
inner scope 1, `let x = 2` evaluated in the inner scope leaves the inner scope without a
binding of `x` and changes the outer binding to 2; so does the source program. -/
theorem let_overwrites_outer_binding :
    Eval 2 (.LetStatement ⟨.LET, "let"⟩ ⟨⟨.IDENT, "x"⟩, "x"⟩ (.Integer ⟨.INT, "2"⟩ 2)) 1
      ⟨[⟨[("x", .Integer 1)], none⟩, ⟨[], some 0⟩], [], [], [], []⟩
      = .ok (NULL, ⟨[⟨[("x", .Integer 2)], none⟩, ⟨[], some 0⟩], [], [], [], []⟩) ∧
    Heap.binds ⟨[⟨[("x", .Integer 2)], none⟩, ⟨[], some 0⟩], [], [], [], []⟩ 1 "x" = false ∧
    Heap.valueIn ⟨[⟨[("x", .Integer 2)], none⟩, ⟨[], some 0⟩], [], [], [], []⟩ 0 "x"
      = some (.Integer 2) ∧
    evalValue latin1Only 60 "let x = 1; if (true) { let x = 2 }; x" = .ok (.Integer 2) := by
  refine ⟨by decide!, by decide!, by decide!, by decide!⟩

/-- C6 as amended: `let x = e`, with `e` evaluating to a value that is not an Error,
returns Null having called `Set` on the current scope. When `x` is bound on the chain, the
innermost scope that binds it (the current scope or an outer one) gets the value, no other
scope changes and no scope gains a name; when `x` is bound nowhere on the chain, the
current scope gains the binding and no other scope changes. -/
theorem let_binds_through_Set (fuel : Nat) (tok : Token) (name : ast.Identifier) (e : ast.Node)
    (env : EnvRef) (h h1 : Heap) (v : Object)
    (he : Eval fuel e env h = .ok (v, h1)) (hv : v.type ≠ .ErrorType)
    (henv : env < h1.envs.length) :
    Eval (fuel + 1) (.LetStatement tok name e) env h = .ok (NULL, h1.Set env name.value v) ∧
    (h1.Get env name.value ≠ none →
      ∃ s pre post,
        h1.chain h1.envs.length (some env) = pre ++ s :: post ∧
        (∀ q ∈ pre, h1.binds q name.value = false) ∧ h1.binds s name.value = true ∧
        (h1.Set env name.value v).valueIn s name.value = some v ∧
        (∀ q, q ≠ s → (h1.Set env name.value v).envs[q]? = h1.envs[q]?) ∧
        (∀ q, (h1.Set env name.value v).names q = h1.names q)) ∧
    (h1.Get env name.value = none →
      (h1.Set env name.value v).valueIn env name.value = some v ∧
      (h1.Set env name.value v).names env = h1.names env ++ [name.value] ∧
      (∀ q, q ≠ env → (h1.Set env name.value v).envs[q]? = h1.envs[q]?)) := by
  refine ⟨?_, ?_, ?_⟩
  · simp [Eval, he, hv]
  · intro hx
    obtain ⟨s, pre, post, h2, h3, h4, h5, h6, h7, _, _⟩ := h1.Set_bound env name.value v hx
    exact ⟨s, pre, post, h2, h3, h4, h5, h6, h7⟩
  · intro hx
    obtain ⟨h2, h3, h4, _⟩ := h1.Set_unbound env name.value v henv hx
    exact ⟨h2, h3, h4⟩

/-- C6 as amended, at a concrete input: `let x = 2` in an inner scope whose outer scope
binds `x`. -/
theorem let_binds_through_Set_witness :
    Eval 2 (.LetStatement ⟨.LET, "let"⟩ ⟨⟨.IDENT, "x"⟩, "x"⟩ (.Integer ⟨.INT, "2"⟩ 2)) 1
      ⟨[⟨[("x", .Integer 1)], none⟩, ⟨[], some 0⟩], [], [], [], []⟩
      = .ok (NULL, Heap.Set ⟨[⟨[("x", .Integer 1)], none⟩, ⟨[], some 0⟩], [], [], [], []⟩ 1 "x"
          (.Integer 2)) :=
  (let_binds_through_Set 1 ⟨.LET, "let"⟩ ⟨⟨.IDENT, "x"⟩, "x"⟩ (.Integer ⟨.INT, "2"⟩ 2) 1
    ⟨[⟨[("x", .Integer 1)], none⟩, ⟨[], some 0⟩], [], [], [], []⟩
    ⟨[⟨[("x", .Integer 1)], none⟩, ⟨[], some 0⟩], [], [], [], []⟩ (.Integer 2)
    (by decide!) (by decide!) (by decide!)).1

/-! ## Token streams -/

/-- Rune 0 is no white space. -/
theorem UnicodeTables.IsSpace_zero (T : UnicodeTables) : T.IsSpace (Char.ofNat 0) = false := by
  simp [UnicodeTables.IsSpace]

/-- At the end of the text the lexer yields end-of-input and stays at the end. -/
theorem Lexer.NextToken_at_end (l : Lexer) (h1 : l.pending = []) (h2 : l.character = Char.ofNat 0) :
    ∃ l2, l.NextToken = some (eofToken, l2) ∧ l2.pending = [] ∧ l2.character = Char.ofNat 0 := by
  have hskip : l.skipWhitespace = l := by
    simp [Lexer.skipWhitespace, h1, Lexer.readWhile, h2, UnicodeTables.IsSpace_zero]
  refine ⟨l.readChar, ?_, ?_, ?_⟩
  · simp only [Lexer.NextToken, hskip, h2]
    simp +decide [eofToken]
  · simp [Lexer.readChar, h1]
  · simp [Lexer.readChar, h1]

/-- `nextToken` moves the parser one token on. -/
theorem Parser.nextToken_Ahead (p : Parser) (t : Token) (ts : List Token)
    (h : p.Ahead (t :: ts)) :
    ∃ p2, p.nextToken = .ok p2 ∧ p2.token = t ∧ p2.Ahead ts ∧ p2.errors = p.errors := by
  obtain ⟨h2, h3⟩ := h
  simp only [List.headD_cons, List.tail_cons] at h2 h3
  cases ts with
  | nil =>
    simp only [Lexer.yields, Bool.and_eq_true, List.isEmpty_iff, beq_iff_eq] at h3
    obtain ⟨l2, hl, hp, hc⟩ := p.l.NextToken_at_end h3.1 h3.2
    refine ⟨{ p with token := p.readToken, readToken := eofToken, l := l2 },
      by simp only [Parser.nextToken, hl], h2, ?_, rfl⟩
    exact ⟨rfl, by simp [Lexer.yields, hp, hc]⟩
  | cons t3 rest =>
    simp only [Lexer.yields] at h3
    cases hn : p.l.NextToken with
    | none => simp [hn] at h3
    | some r =>
      simp only [hn, Bool.and_eq_true, beq_iff_eq] at h3
      refine ⟨{ p with token := p.readToken, readToken := r.1, l := r.2 },
        by simp only [Parser.nextToken, hn], h2, ?_, rfl⟩
      exact ⟨by simp [h3.1], by simp [h3.2]⟩

/-- At the end of the tokens `nextToken` keeps reading end-of-input. -/
theorem Parser.nextToken_Ahead_nil (p : Parser) (h : p.Ahead []) :
    ∃ p2, p.nextToken = .ok p2 ∧ p2.token = eofToken ∧ p2.Ahead [] ∧ p2.errors = p.errors := by
  obtain ⟨h2, h3⟩ := h
  simp only [List.tail_nil, Lexer.yields, Bool.and_eq_true, List.isEmpty_iff, beq_iff_eq] at h3
  obtain ⟨l2, hl, hp, hc⟩ := p.l.NextToken_at_end h3.1 h3.2
  refine ⟨{ p with token := p.readToken, readToken := eofToken, l := l2 },
    by simp only [Parser.nextToken, hl], h2, ?_, rfl⟩
  exact ⟨rfl, by simp [Lexer.yields, hp, hc]⟩

/-! ## Decimal numerals -/

/-- The rune of a decimal digit. -/
theorem digitChar_toNat (k : Nat) (hk : k < 10) : (Nat.digitChar k).toNat = 48 + k := by
  interval_cases k <;> rfl

/-- Every rune of a numeral is an ASCII digit, beyond those already there. -/
theorem toDigitsCore_digits (f : Nat) :
    ∀ (n : Nat) (acc : List Char) (c : Char), c ∈ Nat.toDigitsCore 10 f n acc →
      c ∈ acc ∨ (48 ≤ c.toNat ∧ c.toNat ≤ 57) := by
  induction f with
  | zero => intro n acc c hc; exact Or.inl hc
  | succ f ih =>
    intro n acc c hc
    have hd := digitChar_toNat (n % 10) (Nat.mod_lt n (by decide))
    simp only [Nat.toDigitsCore] at hc
    split at hc
    · rcases List.mem_cons.mp hc with rfl | hc
      · right; omega
      · exact Or.inl hc
    · rcases ih (n / 10) _ c hc with hc | hc
      · rcases List.mem_cons.mp hc with rfl | hc
        · right; omega
        · exact Or.inl hc
      · exact Or.inr hc

/-- A numeral is never empty, beyond what is already there. -/
theorem toDigitsCore_ne_nil (f : Nat) :
    ∀ (n : Nat) (acc : List Char), 0 < f → Nat.toDigitsCore 10 f n acc ≠ [] := by
  induction f with
  | zero => intro n acc hf; omega
  | succ f ih =>
    intro n acc _
    simp only [Nat.toDigitsCore]
    split
    · simp
    · by_cases hf : 0 < f
      · exact ih _ _ hf
      · have : f = 0 := by omega
        subst this
        simp [Nat.toDigitsCore]

/-- The digit loop of `strconv` reads a numeral back. -/
theorem parseUintLoop_toDigitsCore (f : Nat) :
    ∀ (n : Nat) (acc : List Char), n < f → n ≤ 18446744073709551615 →
      parseUintLoop (Nat.toDigitsCore 10 f n acc) 0 = parseUintLoop acc n := by
  induction f with
  | zero => intro n acc hn; omega
  | succ f ih =>
    intro n acc hn hmax
    have hd := digitChar_toNat (n % 10) (Nat.mod_lt n (by decide))
    simp only [Nat.toDigitsCore]
    split
    · rename_i h0
      have hn10 : n % 10 = n := by omega
      rw [parseUintLoop, if_pos (by omega), if_neg (by omega), if_neg (by omega)]
      congr 1
      omega
    · rename_i h0
      rw [ih (n / 10) _ (by omega) (by omega)]
      rw [parseUintLoop, if_pos (by omega), if_neg (by omega), if_neg (by omega)]
      congr 1
      omega

/-- `strconv.Atoi` reads the decimal text of a number that fits a 64-bit `int` back, with no
error. -/
theorem Atoi_toString (n : Nat) (hn : n < 9223372036854775808) :
    Atoi (toString n) = ((n : Int), none) := by
  have hdata : (toString n).data = Nat.toDigitsCore 10 (n + 1) n [] := rfl
  have hne := toDigitsCore_ne_nil (n + 1) n [] (by omega)
  have hdig := toDigitsCore_digits (n + 1) n []
  have hloop := parseUintLoop_toDigitsCore (n + 1) n [] (by omega) (by omega)
  simp only [Atoi, hdata]
  cases hl : Nat.toDigitsCore 10 (n + 1) n [] with
  | nil => exact absurd hl hne
  | cons c r =>
    have hc := hdig c (by rw [hl]; exact List.mem_cons_self _ _)
    simp only [List.not_mem_nil, false_or] at hc
    have h1 : (c == '-') = false := by
      rw [beq_eq_false_iff_ne]
      intro h
      rw [h] at hc
      revert hc
      decide
    have h2 : (c == '+') = false := by
      rw [beq_eq_false_iff_ne]
      intro h
      rw [h] at hc
      revert hc
      decide
    rw [hl] at hloop
    simp only [h1, h2, Bool.or_self, Bool.false_eq_true, if_false, hloop, parseUintLoop,
      reduceCtorEq]
    simp
    omega

/-! ## The reference grammar -/

/-- A chain without operators at or below level `p` is not cut. -/
theorem splitOps_none (p : Nat) (c : Chain) (hc : ∀ oa ∈ c, p < oa.1.level) :
    splitOps p c = (c, []) := by
  induction c with
  | nil => rfl
  | cons oa c ih =>
    obtain ⟨o, a⟩ := oa
    have ho := hc (o, a) (List.mem_cons_self _ _)
    have := ih (fun x hx => hc x (List.mem_cons_of_mem _ hx))
    simp only [splitOps, this]
    rw [if_neg (by simpa using ho)]

/-- Cutting a chain whose last cut is at `o`. -/
theorem splitOps_append (p : Nat) (o : BinaryOperator) (a : Nat) (c2 : Chain)
    (ho : o.level ≤ p) (hc2 : ∀ oa ∈ c2, p < oa.1.level) (c1 : Chain) :
    splitOps p (c1 ++ (o, a) :: c2) = ((splitOps p c1).1, (splitOps p c1).2 ++ [(o, a, c2)]) := by
  induction c1 with
  | nil => simp [splitOps, ho, splitOps_none p c2 hc2]
  | cons oa c1 ih =>
    obtain ⟨o1, a1⟩ := oa
    by_cases h1 : o1.level ≤ p
    · simp [splitOps, h1, ih]
    · simp [splitOps, h1, ih]

/-- A level without operators of its own passes the chain to the next level. -/
theorem refLevel_succ_of_none (n a0 : Nat) (c : Chain) (hc : ∀ oa ∈ c, 6 - n < oa.1.level) :
    refLevel (n + 1) a0 c = refLevel n a0 c := by
  simp [refLevel, splitOps_none _ c hc]

/-- A single literal is its own tree at every level. -/
theorem refLevel_nil (n a0 : Nat) : refLevel n a0 [] = intLeaf a0 := by
  induction n with
  | zero => rfl
  | succ n ih => simp [refLevel, splitOps, ih]

/-- The reference tree of a chain that ends in `o a c2`, where `o` binds no tighter than
any operator before it and every operator of `c2` binds tighter than `o`: the operator `o`
applied to the tree of what is before it and the tree of `a c2`. -/
theorem refLevel_snoc (o : BinaryOperator) (a a0 : Nat) (c1 c2 : Chain)
    (h1 : ∀ oa ∈ c1, o.level ≤ oa.1.level) (h2 : ∀ oa ∈ c2, o.level < oa.1.level) :
    ∀ m, 7 - o.level ≤ m →
      refLevel m a0 (c1 ++ (o, a) :: c2)
        = infixNode o (refLevel m a0 c1) (refLevel (6 - o.level) a c2) := by
  have hlev : 3 ≤ o.level ∧ o.level ≤ 6 := by cases o <;> simp [BinaryOperator.level]
  intro m hm
  induction m, hm using Nat.le_induction with
  | base =>
    obtain ⟨n, hn⟩ : ∃ n, 7 - o.level = n + 1 := ⟨6 - o.level, by omega⟩
    have hp : 6 - n = o.level := by omega
    have hn6 : 6 - o.level = n := by omega
    rw [hn]
    simp only [refLevel, hp]
    rw [splitOps_append o.level o a c2 (le_refl _) h2 c1, List.foldl_append]
    simp [hn6]
  | succ m hm ih =>
    have hall : ∀ oa ∈ c1 ++ (o, a) :: c2, 6 - m < oa.1.level := by
      intro oa hoa
      rcases List.mem_append.mp hoa with h | h
      · have := h1 oa h; omega
      · rcases List.mem_cons.mp h with rfl | h
        · show 6 - m < o.level
          omega
        · have := h2 oa h; omega
    rw [refLevel_succ_of_none m a0 _ hall,
      refLevel_succ_of_none m a0 c1 (fun oa h => hall oa (List.mem_append_left _ h)), ih]

/-! ## Precedence climbing on chains -/

/-- The binding power of an operator token is the level of the operator. -/
theorem BinaryOperator.precedences_token (o : BinaryOperator) :
    precedences o.token.type = o.level := by
  cases o <;> rfl

/-- Operator tokens are handled by `parseInfix`. -/
theorem BinaryOperator.infixParseFns_token (o : BinaryOperator) :
    infixParseFns o.token.type = some .parseInfix := by
  cases o <;> rfl

/-- No operator token is a semicolon. -/
theorem BinaryOperator.token_ne_semicolon (o : BinaryOperator) :
    o.token.type ≠ .SEMICOLON := by
  cases o <;> simp [BinaryOperator.token]

/-- Levels lie between 3 and 6. -/
theorem BinaryOperator.level_bounds (o : BinaryOperator) : 3 ≤ o.level ∧ o.level ≤ 6 := by
  cases o <;> simp [BinaryOperator.level]

/-- Taking while a weaker test holds: first while the stronger holds, then on. -/
theorem takeWhile_split {α : Type} (P Q : α → Bool) (hPQ : ∀ x, Q x = true → P x = true)
    (l : List α) : l.takeWhile P = l.takeWhile Q ++ (l.dropWhile Q).takeWhile P := by
  induction l with
  | nil => rfl
  | cons x l ih =>
    by_cases hq : Q x = true
    · simp [List.takeWhile, List.dropWhile, hq, hPQ x hq, ih]
    · simp [List.takeWhile, List.dropWhile, hq]

/-- Dropping while a weaker test holds, after dropping while a stronger one holds. -/
theorem dropWhile_split {α : Type} (P Q : α → Bool) (hPQ : ∀ x, Q x = true → P x = true)
    (l : List α) : l.dropWhile P = (l.dropWhile Q).dropWhile P := by
  induction l with
  | nil => rfl
  | cons x l ih =>
    by_cases hq : Q x = true
    · simp [List.dropWhile, hq, hPQ x hq, ih]
    · simp [List.dropWhile, hq]

/-- What is left after dropping starts with an element that fails the test. -/
theorem dropWhile_head {α : Type} (Q : α → Bool) (l : List α) (x : α) (r : List α)
    (h : l.dropWhile Q = x :: r) : Q x = false := by
  induction l with
  | nil => simp at h
  | cons y l ih =>
    by_cases hq : Q y = true
    · simp only [List.dropWhile, hq] at h
      exact ih h
    · simp only [List.dropWhile, hq] at h
      simp only [List.cons.injEq] at h
      rw [← h.1]
      simpa using hq

/-- The loop stops where the next token has no binding power above `prec`. -/
theorem parseExpressionLoop_stop (fuel prec : Nat) (left : ast.Node) (p : Parser)
    (h : precedences p.readToken.type ≤ prec) :
    parseExpressionLoop (fuel + 1) prec left p = .ok (left, p) := by
  rw [parseExpressionLoop, if_neg]
  intro hc
  exact absurd hc.2 (Nat.not_lt.mpr h)

/-- `parseExpression` on a chain follows from its loop. -/
theorem ExprSpec_of_LoopSpec (k : Nat) (hl : LoopSpec k) : ExprSpec k := by
  intro ops a0 prec p rest fuel hk ht hA hstop ha0 hops hfuel
  obtain ⟨f, rfl⟩ : ∃ f, fuel = f + 1 := ⟨fuel - 1, by omega⟩
  obtain ⟨p2, h1, h2, h3⟩ := hl ops a0 [] prec p rest f hk hA hstop hops
    (fun _ _ _ _ c hc => absurd hc (List.not_mem_nil c)) (by omega)
  refine ⟨p2, ?_, h2, h3⟩
  rw [parseExpression]
  simp only [ht, intToken, prefixParseFns]
  have hint : p.parseInteger = (intLeaf a0, p) := by
    simp [Parser.parseInteger, ht, intToken, Atoi_toString a0 ha0, intLeaf]
  simp only [hint, Res.ok_bind]
  rw [refLevel_nil] at h1
  simpa using h1

/-- One more pair: the loop on chains of at most `k + 1` pairs. -/
theorem LoopSpec_succ (k : Nat) (hl : LoopSpec k) (he : ExprSpec k) : LoopSpec (k + 1) := by
  intro ops a0 consumed prec p rest fuel hk hA hstop hops hinv hfuel
  obtain ⟨f, rfl⟩ : ∃ f, fuel = f + 1 := ⟨fuel - 1, by omega⟩
  cases ops with
  | nil =>
    refine ⟨p, ?_, by simpa using hA, rfl⟩
    simp only [List.takeWhile_nil, List.append_nil]
    apply parseExpressionLoop_stop
    have := hA.1
    simp only [opTokens, List.nil_append] at this
    rw [this, hstop]
    exact Nat.zero_le _
  | cons oa r =>
    obtain ⟨o, a⟩ := oa
    have hread : p.readToken = o.token := by simpa [opTokens] using hA.1
    by_cases hhigh : prec < o.level
    · -- the operator binds tighter: one round of the loop
      have hA' : p.Ahead (o.token :: intToken a :: (opTokens r ++ rest)) := by
        simpa [opTokens] using hA
      obtain ⟨p1, hp1, ht1, ha1, he1⟩ := p.nextToken_Ahead _ _ hA'
      obtain ⟨p2, hp2, ht2, ha2, he2⟩ := p1.nextToken_Ahead _ _ ha1
      simp only [List.length_cons] at hk hfuel
      obtain ⟨g, rfl⟩ : ∃ g, f = g + 1 := ⟨f - 1, by omega⟩
      obtain ⟨p3, hp3, ha3, he3⟩ := he r a o.level p2 rest g (by omega) ht2 ha2 hstop
        (hops (o, a) (List.mem_cons_self _ _))
        (fun x hx => hops x (List.mem_cons_of_mem _ hx)) (by omega)
      have hlen : (r.dropWhile (higher o.level)).length ≤ r.length := by
        have := List.dropWhile_sublist (higher o.level) (l := r)
        exact this.length_le
      have hstep := hl (r.dropWhile (higher o.level)) a0
        (consumed ++ (o, a) :: r.takeWhile (higher o.level)) prec p3 rest (g + 1) (by omega) ha3
        hstop
        (fun x hx => hops x (List.mem_cons_of_mem _
          ((List.dropWhile_sublist (higher o.level)).subset hx)))
        (by
          intro o2 a2 r2 hr2 c hc
          have ho2 : higher o.level (o2, a2) = false := dropWhile_head _ _ _ _ hr2
          simp only [higher, decide_eq_false_iff_not, not_lt] at ho2
          rcases List.mem_append.mp hc with hc | hc
          · have := hinv o a r rfl c hc
            omega
          · rcases List.mem_cons.mp hc with rfl | hc
            · exact ho2
            · have := List.mem_takeWhile_imp hc
              simp only [higher, decide_eq_true_eq] at this
              omega)
        (by omega)
      obtain ⟨p4, hp4, ha4, he4⟩ := hstep
      have hK := refLevel_snoc o a a0 consumed (r.takeWhile (higher o.level))
        (hinv o a r rfl)
        (by
          intro x hx
          have := List.mem_takeWhile_imp hx
          simpa [higher] using this)
        (6 - prec) (by have := o.level_bounds; omega)
      have hPQ : ∀ x : BinaryOperator × Nat, higher o.level x = true → higher prec x = true := by
        intro x hx
        simp only [higher, decide_eq_true_eq] at hx ⊢
        omega
      refine ⟨p4, ?_, ?_, ?_⟩
      · rw [parseExpressionLoop, if_pos]
        · simp only [hread, o.infixParseFns_token, hp1, Res.ok_bind]
          rw [parseInfix]
          simp only [ht1, o.precedences_token, hp2, Res.ok_bind, hp3, Res.pure_eq]
          have hnode : ast.Node.Infix o.token o.token.literal (refLevel (6 - prec) a0 consumed)
              (refLevel (6 - o.level) a (r.takeWhile (higher o.level)))
              = refLevel (6 - prec) a0 (consumed ++ (o, a) :: r.takeWhile (higher o.level)) := by
            rw [hK]; rfl
          rw [hnode, hp4]
          congr 3
          rw [List.takeWhile_cons, if_pos (by simpa [higher] using hhigh),
            takeWhile_split (higher prec) (higher o.level) hPQ r]
          simp
        · rw [hread, o.precedences_token]
          exact ⟨o.token_ne_semicolon, hhigh⟩
      · rw [List.dropWhile_cons, if_pos (by simpa [higher] using hhigh),
          dropWhile_split (higher prec) (higher o.level) hPQ r]
        exact ha4
      · rw [he4, he3, he2, he1]
    · -- the operator does not bind tighter: the loop ends
      refine ⟨p, ?_, ?_, rfl⟩
      · rw [List.takeWhile_cons, if_neg (by simpa [higher] using hhigh), List.append_nil]
        apply parseExpressionLoop_stop
        rw [hread, o.precedences_token]
        exact Nat.le_of_not_lt hhigh
      · rw [List.dropWhile_cons, if_neg (by simpa [higher] using hhigh)]
        exact hA

/-- Precedence climbing on chains of any length. -/
theorem chain_specs (k : Nat) : LoopSpec k ∧ ExprSpec k := by
  induction k with
  | zero =>
    have hl : LoopSpec 0 := by
      intro ops a0 consumed prec p rest fuel hk hA hstop hops hinv hfuel
      obtain ⟨f, rfl⟩ : ∃ f, fuel = f + 1 := ⟨fuel - 1, by omega⟩
      have : ops = [] := List.length_eq_zero.mp (by omega)
      subst this
      refine ⟨p, ?_, by simpa using hA, rfl⟩
      simp only [List.takeWhile_nil, List.append_nil]
      apply parseExpressionLoop_stop
      have := hA.1
      simp only [opTokens, List.nil_append] at this
      rw [this, hstop]
      exact Nat.zero_le _
    exact ⟨hl, ExprSpec_of_LoopSpec 0 hl⟩
  | succ k ih =>
    have hl := LoopSpec_succ k ih.1 ih.2
    exact ⟨hl, ExprSpec_of_LoopSpec (k + 1) hl⟩

/-- `parser.New` on a lexer that yields `toks` gives a parser that reads `toks`, with no
error recorded. -/
theorem Parser.New_Reads (l : Lexer) (toks : List Token) (h : l.yields toks = true) :
    ∃ p, Parser.New l = .ok p ∧ p.Reads toks ∧ p.errors = [] := by
  have h0 : Parser.Ahead { l := l, token := Token.zero, readToken := Token.zero, errors := [] }
      (Token.zero :: toks) := ⟨rfl, h⟩
  obtain ⟨p1, hp1, _, ha1, he1⟩ := Parser.nextToken_Ahead _ _ _ h0
  cases toks with
  | nil =>
    obtain ⟨p2, hp2, ht2, ha2, he2⟩ := p1.nextToken_Ahead_nil ha1
    refine ⟨p2, ?_, ⟨ht2, ha2⟩, by rw [he2, he1]⟩
    simp only [Parser.New, hp1, Res.ok_bind, hp2]
  | cons t ts =>
    obtain ⟨p2, hp2, ht2, ha2, he2⟩ := p1.nextToken_Ahead _ _ ha1
    refine ⟨p2, ?_, ⟨ht2, ha2⟩, by rw [he2, he1]⟩
    simp only [Parser.New, hp1, Res.ok_bind, hp2]

/-- `ParseProgram` on the tokens of a chain: one expression statement holding the
reference tree, and no new error. -/
theorem ParseProgram_chain (p : Parser) (a0 : Nat) (ops : Chain)
    (hp : p.Reads (intToken a0 :: opTokens ops))
    (ha0 : a0 < 9223372036854775808) (hops : ∀ oa ∈ ops, oa.2 < 9223372036854775808)
    (fuel : Nat) (hfuel : 3 * ops.length + 5 ≤ fuel) :
    ∃ p2, ParseProgram fuel p
        = .ok ([.ExpressionStatement (intToken a0) (referenceTree a0 ops)], p2) ∧
      p2.errors = p.errors := by
  obtain ⟨ht, hA⟩ := hp
  simp only [List.headD_cons, List.tail_cons] at ht hA
  obtain ⟨f, rfl⟩ : ∃ f, fuel = f + 3 := ⟨fuel - 3, by omega⟩
  have hA' : p.Ahead (opTokens ops ++ []) := by simpa using hA
  obtain ⟨p2, hp2, ha2, he2⟩ := (chain_specs ops.length).2 ops a0 LOWEST p [] f (le_refl _) ht hA'
    rfl ha0 hops (by omega)
  have hall : ∀ oa ∈ ops, higher LOWEST oa = true := by
    intro oa _
    have := oa.1.level_bounds
    simp only [higher, LOWEST, decide_eq_true_eq]
    omega
  have htake : ops.takeWhile (higher LOWEST) = ops := List.takeWhile_eq_self_iff.mpr hall
  have hdrop : ops.dropWhile (higher LOWEST) = [] := List.dropWhile_eq_nil_iff.mpr hall
  rw [htake] at hp2
  rw [hdrop] at ha2
  have htree : refLevel (6 - LOWEST) a0 ops = referenceTree a0 ops := by
    have : 6 - LOWEST = 4 + 1 := rfl
    rw [this, referenceTree]
    apply refLevel_succ_of_none
    intro oa _
    have := oa.1.level_bounds
    omega
  rw [htree] at hp2
  have ha2' : p2.Ahead [] := by simpa [opTokens] using ha2
  obtain ⟨p3, hp3, ht3, _, he3⟩ := p2.nextToken_Ahead_nil ha2'
  have hsemi : p2.skipSemicolon = .ok p2 := by
    rw [Parser.skipSemicolon, if_neg]
    rw [ha2'.1]
    simp [eofToken]
  refine ⟨p3, ?_, by rw [he3, he2]⟩
  have h1 : p.token.type ≠ .EOF := by rw [ht]; simp [intToken]
  have h2 : p.token.type ≠ .LET := by rw [ht]; simp [intToken]
  have h3 : p.token.type ≠ .RETURN := by rw [ht]; simp [intToken]
  have hstmt : parseStatement (f + 2) p
      = .ok (.ExpressionStatement (intToken a0) (referenceTree a0 ops), p2) := by
    rw [parseStatement, if_neg h2, if_neg h3, parseExpressionStatement]
    simp only [hp2, Res.ok_bind, hsemi, Res.pure_eq, ht]
  rw [ParseProgram, parseProgramLoop, if_pos h1]
  simp only [hstmt, Res.ok_bind, hp3, ast.Node.isNil, Bool.false_eq_true, if_false,
    List.nil_append]
  obtain ⟨g, hg⟩ : ∃ g, f + 2 = g + 1 := ⟨f + 1, rfl⟩
  rw [hg, parseProgramLoop, if_neg]
  rw [ht3]
  simp [eofToken]

/-- C1: for every chain `a0 op1 a1 ... opk ak` of integer literals (each within the range
of a host int) joined by operators from `== != < > + - * /`, and every source text that the
lexer turns into the tokens of the chain, `ParseProgram` returns the single expression
statement holding the tree of the reference grammar `refLevel` (equality below comparison
below sum below product, each level grouping to the left) and records no error. The two
chains of the claim are parsed at the end: `10 + 10 / 2` has right operand `10 / 2`, and
`10 / 10 * 100 / 100` is `/` with left operand `10 / 10 * 100` and right operand `100`. -/
theorem ParseProgram_builds_reference_tree (T : UnicodeTables) (src : Text) (a0 : Nat)
    (ops : Chain) (fuel : Nat)
    (hlex : (Lexer.New T src).yields (intToken a0 :: opTokens ops) = true)
    (ha0 : a0 < 9223372036854775808) (hops : ∀ oa ∈ ops, oa.2 < 9223372036854775808)
    (hfuel : 3 * ops.length + 5 ≤ fuel) :
    parseSource T fuel src
      = .ok ([.ExpressionStatement (intToken a0) (referenceTree a0 ops)], []) ∧
    parseSource latin1Only 40 "10 + 10 / 2"
      = .ok ([.ExpressionStatement (intToken 10)
          (infixNode .PLUS (intLeaf 10) (infixNode .DIVIDE (intLeaf 10) (intLeaf 2)))], []) ∧
    parseSource latin1Only 40 "10 / 10 * 100 / 100"
      = .ok ([.ExpressionStatement (intToken 10)
          (infixNode .DIVIDE
            (infixNode .MULTIPLY (infixNode .DIVIDE (intLeaf 10) (intLeaf 10)) (intLeaf 100))
            (intLeaf 100))], []) := by
  refine ⟨?_, by decide!, by decide!⟩
  obtain ⟨p, hnew, hreads, herr⟩ := Parser.New_Reads _ _ hlex
  obtain ⟨p2, hparse, herr2⟩ := ParseProgram_chain p a0 ops hreads ha0 hops fuel hfuel
  simp only [parseSource, hnew, Res.ok_bind, hparse, Res.pure_eq, herr2, herr]

/-- C1 at a concrete input: the chain `1 + 2 * 3 == 7`. -/
theorem ParseProgram_builds_reference_tree_witness :
    parseSource latin1Only 14 "1 + 2 * 3 == 7"
      = .ok ([.ExpressionStatement (intToken 1)
          (referenceTree 1 [(.PLUS, 2), (.MULTIPLY, 3), (.EQ, 7)])], []) :=
  (ParseProgram_builds_reference_tree latin1Only "1 + 2 * 3 == 7" 1
    [(.PLUS, 2), (.MULTIPLY, 3), (.EQ, 7)] 14 (by decide!) (by decide!) (by decide!)
    (by decide!)).1

/-! ## The lexer on runs of runes -/

/-- `readChar` moves on to the next pending rune. -/
theorem Lexer.readChar_standing_cons (T : UnicodeTables) (i : List Char) (b : Nat) (c d : Char)
    (ps : List Char) :
    (Lexer.standing T i b c (d :: ps)).readChar = Lexer.standing T i (b + c.utf8Size) d ps := rfl

/-- `readChar` with nothing pending moves on to rune 0. -/
theorem Lexer.readChar_standing_nil (T : UnicodeTables) (i : List Char) (b : Nat) (c : Char) :
    (Lexer.standing T i b c []).readChar
      = Lexer.standing T i (b + c.utf8Size) (Char.ofNat 0) [] := rfl

/-- `readChar` in one form for both cases. -/
theorem Lexer.readChar_standing (T : UnicodeTables) (i : List Char) (b : Nat) (c : Char)
    (ps : List Char) :
    (Lexer.standing T i b c ps).readChar
      = Lexer.standing T i (b + c.utf8Size) (ps.headD (Char.ofNat 0)) ps.tail := by
  cases ps <;> rfl

/-- `lexer.New` stands on the first rune of the text. -/
theorem Lexer.New_standing (T : UnicodeTables) (src : Text) :
    Lexer.New T src = Lexer.standing T src.data 0 (src.data.headD (Char.ofNat 0)) src.data.tail := by
  rw [Lexer.New]
  cases src.data <;> rfl

/-- A loop `for p(l.character) { l.readChar() }` reads a run of runes that satisfy `p`, up
to a rune that does not. -/
theorem Lexer.readWhile_run (T : UnicodeTables) (i : List Char) (p : Char → Bool)
    (rest : List Char) (hrest : p (rest.headD (Char.ofNat 0)) = false) :
    ∀ (run : List Char) (b : Nat) (c : Char) (n : Nat), p c = true →
      (∀ x ∈ run, p x = true) → run.length + 1 ≤ n →
      Lexer.readWhile p n (Lexer.standing T i b c (run ++ rest))
        = Lexer.standing T i (b + byteLen (c :: run)) (rest.headD (Char.ofNat 0)) rest.tail := by
  intro run
  induction run with
  | nil =>
    intro b c n hc _ hn
    obtain ⟨m, rfl⟩ : ∃ m, n = m + 1 := ⟨n - 1, by omega⟩
    have hstand : (Lexer.standing T i b c ([] ++ rest)).character = c := rfl
    rw [Lexer.readWhile, hstand, if_pos hc, List.nil_append, Lexer.readChar_standing]
    simp only [byteLen, Nat.add_zero]
    cases m with
    | zero => rfl
    | succ m =>
      rw [Lexer.readWhile]
      have : (Lexer.standing T i (b + c.utf8Size) (rest.headD (Char.ofNat 0)) rest.tail).character
          = rest.headD (Char.ofNat 0) := rfl
      rw [this, hrest]
      simp
  | cons x run ih =>
    intro b c n hc hrun hn
    simp only [List.length_cons] at hn
    obtain ⟨m, rfl⟩ : ∃ m, n = m + 1 := ⟨n - 1, by omega⟩
    have hstand : (Lexer.standing T i b c (x :: run ++ rest)).character = c := rfl
    rw [Lexer.readWhile, hstand, if_pos hc, List.cons_append, Lexer.readChar_standing_cons,
      ih (b + c.utf8Size) x m (hrun x (List.mem_cons_self _ _))
        (fun y hy => hrun y (List.mem_cons_of_mem _ hy)) (by omega)]
    simp only [byteLen]
    congr 1
    omega

/-- A loop `for p(l.character) { l.readChar() }` on a rune that fails `p` reads nothing. -/
theorem Lexer.readWhile_stop (p : Char → Bool) (l : Lexer) (n : Nat)
    (h : p l.character = false) : Lexer.readWhile p n l = l := by
  cases n with
  | zero => rfl
  | succ n => rw [Lexer.readWhile, h]; simp

/-- The runes between two rune boundaries. -/
theorem runesBetween_mid (mid post : List Char) :
    ∀ pre : List Char,
      runesBetween (pre ++ mid ++ post) (byteLen pre) (byteLen pre + byteLen mid) = mid := by
  intro pre
  induction pre with
  | nil =>
    simp only [List.nil_append, byteLen, Nat.zero_add]
    induction mid with
    | nil => cases post <;> simp [runesBetween, byteLen]
    | cons c mid ih =>
      have hpos := Char.utf8Size_pos c
      simp only [List.cons_append, runesBetween, byteLen, if_true]
      rw [if_neg (by omega)]
      congr 1
      rw [Nat.add_sub_cancel_left]
      exact ih
  | cons c pre ih =>
    have hpos := Char.utf8Size_pos c
    simp only [List.cons_append, runesBetween, byteLen]
    rw [if_neg (by omega)]
    have h1 : c.utf8Size + byteLen pre - c.utf8Size = byteLen pre := by omega
    have h2 : c.utf8Size + byteLen pre + byteLen mid - c.utf8Size
        = byteLen pre + byteLen mid := by omega
    rw [h1, h2]
    simpa using ih

/-- The length in bytes of a concatenation. -/
theorem byteLen_append (a b : List Char) : byteLen (a ++ b) = byteLen a + byteLen b := by
  induction a with
  | nil => simp [byteLen]
  | cons c a ih => simp [byteLen, ih]; omega

/-- Slicing a text between two rune boundaries gives the text in between. -/
theorem sliceBytes_mid (pre mid post : List Char) :
    sliceBytes (pre ++ mid ++ post) (byteLen pre) (byteLen pre + byteLen mid)
      = some (String.mk mid) := by
  rw [sliceBytes, if_pos, runesBetween_mid]
  refine ⟨by omega, ?_⟩
  rw [byteLen_append, byteLen_append]
  omega

/-- An ASCII digit is a digit, and neither a letter nor white space. -/
theorem UnicodeTables.classes_of_digit (T : UnicodeTables) (c : Char)
    (hc : 48 ≤ c.toNat ∧ c.toNat ≤ 57) :
    T.IsDigit c = true ∧ T.IsLetter c = false ∧ T.IsSpace c = false := by
  refine ⟨?_, ?_, ?_⟩
  · simp only [UnicodeTables.IsDigit]
    rw [if_pos (by omega)]
    simp only [Bool.and_eq_true, decide_eq_true_eq]
    omega
  · simp only [UnicodeTables.IsLetter]
    rw [if_pos (by omega)]
    simp only [Bool.or_eq_false_iff, Bool.and_eq_false_iff, decide_eq_false_iff_not,
      beq_eq_false_iff_ne]
    omega
  · simp only [UnicodeTables.IsSpace]
    rw [if_pos (by omega)]
    simp only [Bool.or_eq_false_iff, beq_eq_false_iff_ne]
    omega

/-- Rune 0 is not a digit. -/
theorem UnicodeTables.IsDigit_zero (T : UnicodeTables) : T.IsDigit (Char.ofNat 0) = false := by
  simp [UnicodeTables.IsDigit]

/-- On a run of ASCII digits followed by a rune that is not a digit, `NextToken` yields the
`INT` token whose literal is the run, and stands on the rune after it. -/
theorem Lexer.NextToken_digits (T : UnicodeTables) (pre run rest : List Char) (c : Char)
    (hc : 48 ≤ c.toNat ∧ c.toNat ≤ 57) (hrun : ∀ x ∈ run, 48 ≤ x.toNat ∧ x.toNat ≤ 57)
    (hrest : T.IsDigit (rest.headD (Char.ofNat 0)) = false) :
    (Lexer.standing T (pre ++ (c :: run) ++ rest) (byteLen pre) c (run ++ rest)).NextToken
      = some ({ type := .INT, literal := String.mk (c :: run) },
          Lexer.standing T (pre ++ (c :: run) ++ rest) (byteLen pre + byteLen (c :: run))
            (rest.headD (Char.ofNat 0)) rest.tail) := by
  obtain ⟨hd, hl, hs⟩ := T.classes_of_digit c hc
  have hne : ∀ d : Char, (d.toNat < 48 ∨ 57 < d.toNat) → ¬ c = d := by
    intro d hd h
    subst h
    omega
  have hskip : (Lexer.standing T (pre ++ (c :: run) ++ rest) (byteLen pre) c
      (run ++ rest)).skipWhitespace = _ := Lexer.readWhile_stop _ _ _ hs
  have hread := Lexer.readWhile_run T (pre ++ (c :: run) ++ rest) (fun c => T.IsDigit c) rest
    hrest run (byteLen pre) c ((run ++ rest).length + 1) hd
    (fun x hx => (T.classes_of_digit x (hrun x hx)).1) (by simp)
  have hchar : (Lexer.standing T (pre ++ (c :: run) ++ rest) (byteLen pre) c
      (run ++ rest)).character = c := rfl
  have hus : (c == '_') = false := beq_eq_false_iff_ne.mpr (hne _ (by decide))
  simp only [Lexer.NextToken, hskip, hchar]
  rw [if_neg (hne '=' (by decide)), if_neg (hne '+' (by decide)), if_neg (hne '-' (by decide)),
    if_neg (hne '/' (by decide)), if_neg (hne '*' (by decide)), if_neg (hne '(' (by decide)),
    if_neg (hne ')' (by decide)), if_neg (hne '\x7b' (by decide)),
    if_neg (hne '\x7d' (by decide)), if_neg (hne '[' (by decide)), if_neg (hne ']' (by decide)),
    if_neg (hne ',' (by decide)), if_neg (hne ':' (by decide)), if_neg (hne ';' (by decide)),
    if_neg (hne '!' (by decide)), if_neg (hne '>' (by decide)), if_neg (hne '<' (by decide)),
    if_neg (hne '"' (by decide)), if_neg (hne (Char.ofNat 0) (by decide))]
  have hun : (Lexer.standing T (pre ++ (c :: run) ++ rest) (byteLen pre) c
      (run ++ rest)).unicode = T := rfl
  rw [hun, hl, hus, hd]
  simp only [Bool.or_false, Bool.false_eq_true, if_false, if_true, Lexer.readInteger]
  have hpend : (Lexer.standing T (pre ++ (c :: run) ++ rest) (byteLen pre) c
      (run ++ rest)).pending = run ++ rest := rfl
  have hpos : (Lexer.standing T (pre ++ (c :: run) ++ rest) (byteLen pre) c
      (run ++ rest)).position = byteLen pre := rfl
  rw [hun, hpend, hpos, hread]
  have hin : (Lexer.standing T (pre ++ (c :: run) ++ rest) (byteLen pre + byteLen (c :: run))
      (rest.headD (Char.ofNat 0)) rest.tail).input = pre ++ (c :: run) ++ rest := rfl
  have hp2 : (Lexer.standing T (pre ++ (c :: run) ++ rest) (byteLen pre + byteLen (c :: run))
      (rest.headD (Char.ofNat 0)) rest.tail).position = byteLen pre + byteLen (c :: run) := rfl
  rw [hin, hp2, sliceBytes_mid]
  rfl

/-- The lexer turns the decimal text of a number into its `INT` token and nothing else. -/
theorem Lexer.yields_numeral (T : UnicodeTables) (n : Nat) :
    (Lexer.New T (toString n)).yields [intToken n] = true := by
  have hdata : (toString n).data = Nat.toDigitsCore 10 (n + 1) n [] := rfl
  have hne := toDigitsCore_ne_nil (n + 1) n [] (by omega)
  have hdig := toDigitsCore_digits (n + 1) n []
  have htext : toString n = String.mk (toString n).data := rfl
  rw [Lexer.New_standing]
  cases hl : (toString n).data with
  | nil => rw [hdata] at hl; exact absurd hl hne
  | cons c run =>
    have hall : ∀ x ∈ c :: run, 48 ≤ x.toNat ∧ x.toNat ≤ 57 := by
      intro x hx
      rw [← hl, hdata] at hx
      simpa using hdig x hx
    have hnext := Lexer.NextToken_digits T [] run [] c (hall c (List.mem_cons_self _ _))
      (fun x hx => hall x (List.mem_cons_of_mem _ hx)) T.IsDigit_zero
    simp only [List.nil_append, List.append_nil, byteLen, Nat.zero_add, List.headD_nil,
      List.tail_nil] at hnext
    simp only [List.headD_cons, List.tail_cons, Lexer.yields, hnext, intToken]
    rw [htext, hl]
    simp [Lexer.standing]

/-- Parsing the decimal text of a number within the range of a 64-bit `int` gives the one
expression statement of its integer literal, and no error. -/
theorem parseSource_numeral (T : UnicodeTables) (n fuel : Nat) (hn : n < 9223372036854775808)
    (hfuel : 5 ≤ fuel) :
    parseSource T fuel (toString n)
      = .ok ([.ExpressionStatement (intToken n) (intLeaf n)], []) := by
  obtain ⟨p, hnew, hreads, herr⟩ := Parser.New_Reads _ _ (Lexer.yields_numeral T n)
  obtain ⟨p2, hparse, herr2⟩ := ParseProgram_chain p n [] hreads hn
    (fun _ h => absurd h (List.not_mem_nil _)) fuel (by simpa using hfuel)
  simp only [parseSource, hnew, Res.ok_bind, hparse, Res.pure_eq, herr2, herr, referenceTree,
    refLevel_nil]

/-- C2: for every `n` below `2^63` (a non-negative host `int`, 64 bits wide) and every fuel
from 5 on, tokenizing and parsing the decimal text of `n` returns the single expression
statement of the integer literal with an empty list of parser errors, and evaluating that
program in a fresh environment returns `Integer(n)` and leaves the memory as it was. -/
theorem integer_literal_evaluates (T : UnicodeTables) (n fuel : Nat)
    (hn : n < 9223372036854775808) (hfuel : 5 ≤ fuel) :
    parseSource T fuel (toString n)
      = .ok ([.ExpressionStatement (intToken n) (intLeaf n)], []) ∧
    evalSource T fuel (toString n)
      = .ok (.Integer (n : Int), (NewEnvironment Heap.empty).2) ∧
    evalValue T fuel (toString n) = .ok (.Integer (n : Int)) := by
  have hparse := parseSource_numeral T n fuel hn hfuel
  obtain ⟨f, rfl⟩ : ∃ f, fuel = f + 3 := ⟨fuel - 3, by omega⟩
  have heval : evalSource T (f + 3) (toString n)
      = .ok (.Integer (n : Int), (NewEnvironment Heap.empty).2) := by
    simp only [evalSource, hparse, Res.ok_bind, Eval, evalProgram, evalProgramLoop, intLeaf,
      Res.pure_eq, Option.getD_some]
  refine ⟨hparse, heval, ?_⟩
  simp only [evalValue, heval, Res.ok_bind, Res.pure_eq]

/-- C2 at a concrete input: the literal `5` of the evaluator tests. -/
theorem integer_literal_evaluates_witness :
    parseSource latin1Only 5 "5" = .ok ([.ExpressionStatement (intToken 5) (intLeaf 5)], []) ∧
    evalSource latin1Only 5 "5" = .ok (.Integer 5, (NewEnvironment Heap.empty).2) ∧
    evalValue latin1Only 5 "5" = .ok (.Integer 5) :=
  integer_literal_evaluates latin1Only 5 5 (by decide) (by decide)

/-! ## Grouping -/

/-- C10: let the parser stand on `(`, let `nextToken` move it to `p1`, and let
`parseExpression(LOWEST)` return `node` there and leave the parser in `p2`. If the token
after the expression is `)`, `parseGroup` consumes it and returns exactly `node` (no node
of its own) with no error added, and `parseExpression` at any precedence goes on with
`node` as the left operand of its loop over the infix operators. If that token is not `)`,
`parseGroup` returns no node (nil) and appends the one error "expected next token to be
)". At the end the examples: `(1 + 2) * 6 + 4` parses to `+` with right operand `4` and
left operand `*` of `1 + 2` and `6`, without error; that left operand renders as
`1 + 2 * 6`; and `(1 + 2` gives a statement without expression and a single error. -/
theorem parseGroup_returns_inner_node (fuel : Nat) (prec : Precedence) (p p1 p2 : Parser)
    (node : ast.Node) (hopen : p.token.type = .LPAREN) (hnext : p.nextToken = .ok p1)
    (hinner : parseExpression fuel LOWEST p1 = .ok (node, p2)) :
    (∀ p3, p2.readToken.type = .RPAREN → p2.nextToken = .ok p3 →
      parseGroup (fuel + 1) p = .ok (node, p3) ∧ p3.errors = p2.errors ∧
      parseExpression (fuel + 2) prec p = parseExpressionLoop (fuel + 1) prec node p3) ∧
    (p2.readToken.type ≠ .RPAREN →
      parseGroup (fuel + 1) p
        = .ok (.nil, p2.pushError (unexpectedTypeError .RPAREN p2.readToken.type)) ∧
      (p2.pushError (unexpectedTypeError .RPAREN p2.readToken.type)).errors
        = p2.errors ++ [unexpectedTypeError .RPAREN p2.readToken.type]) ∧
    parseSource latin1Only 40 "(1 + 2) * 6 + 4"
      = .ok ([.ExpressionStatement { type := .LPAREN, literal := "(" }
          (infixNode .PLUS
            (infixNode .MULTIPLY (infixNode .PLUS (intLeaf 1) (intLeaf 2)) (intLeaf 6))
            (intLeaf 4))], []) ∧
    (infixNode .MULTIPLY (infixNode .PLUS (intLeaf 1) (intLeaf 2)) (intLeaf 6)).render
      = some "1 + 2 * 6" ∧
    parseSource latin1Only 40 "(1 + 2"
      = .ok ([.ExpressionStatement { type := .LPAREN, literal := "(" } .nil],
          [unexpectedTypeError .RPAREN .EOF]) := by
  refine ⟨?_, ?_, by decide!, by decide!, by decide!⟩
  · intro p3 hclose hp3
    have hgroup : parseGroup (fuel + 1) p = .ok (node, p3) := by
      rw [parseGroup]
      simp only [hnext, Res.ok_bind, hinner, Parser.expectRead, if_pos hclose, hp3,
        Res.pure_eq, Bool.not_true, Bool.false_eq_true, if_false]
    refine ⟨hgroup, ?_, ?_⟩
    · simp only [Parser.nextToken] at hp3
      split at hp3
      · cases hp3
      · cases hp3
        rfl
    · rw [parseExpression]
      simp only [hopen, prefixParseFns, hgroup, Res.ok_bind]
  · intro hclose
    refine ⟨?_, rfl⟩
    rw [parseGroup]
    simp only [hnext, Res.ok_bind, hinner, Parser.expectRead, if_neg hclose,
      Res.pure_eq, Bool.not_false, if_true]

/-- C10 at a concrete state: the parser that `parser.New` gives on the text `(7)`, where the
group returns the node of `7` and leaves the parser on `)`. -/
theorem parseGroup_returns_inner_node_witness :
    Parser.New (Lexer.New latin1Only "(7)")
      = .ok { l := Lexer.standing latin1Only ['(', '7', ')'] 2 ')' [],
              token := { type := .LPAREN, literal := "(" }, readToken := intToken 7,
              errors := [] } ∧
    parseGroup 3
        { l := Lexer.standing latin1Only ['(', '7', ')'] 2 ')' [],
          token := { type := .LPAREN, literal := "(" }, readToken := intToken 7, errors := [] }
      = .ok (intLeaf 7,
          { l := Lexer.standing latin1Only ['(', '7', ')'] 4 (Char.ofNat 0) [],
            token := { type := .RPAREN, literal := ")" }, readToken := eofToken,
            errors := [] }) :=
  ⟨by decide!,
   ((parseGroup_returns_inner_node 2 LOWEST
      { l := Lexer.standing latin1Only ['(', '7', ')'] 2 ')' [],
        token := { type := .LPAREN, literal := "(" }, readToken := intToken 7, errors := [] }
      { l := Lexer.standing latin1Only ['(', '7', ')'] 3 (Char.ofNat 0) [],
        token := intToken 7, readToken := { type := .RPAREN, literal := ")" }, errors := [] }
      { l := Lexer.standing latin1Only ['(', '7', ')'] 3 (Char.ofNat 0) [],
        token := intToken 7, readToken := { type := .RPAREN, literal := ")" }, errors := [] }
      (intLeaf 7) (by decide!) (by decide!) (by decide!)).1
      { l := Lexer.standing latin1Only ['(', '7', ')'] 4 (Char.ofNat 0) [],
        token := { type := .RPAREN, literal := ")" }, readToken := eofToken, errors := [] }
      (by decide!) (by decide!)).1⟩

/-! ## Chains of `if` and `else if` -/

/-- What a clause of a well-formed `if` says about the steps of `parseIf`. -/
theorem ifClause_spec (fuel : Nat) (p q : Parser) (c : ast.Node) (b : ast.BlockStatement)
    (h : ifClause fuel p = some (c, b, q)) :
    ∃ p1 p2 p3, p.expectRead .LPAREN = .ok (true, p1) ∧ parseGroup fuel p1 = .ok (c, p2) ∧
      c.isNil = false ∧ p2.expectRead .LBRACE = .ok (true, p3) ∧
      parseBlockStatement fuel p3 = .ok (b, q) := by
  unfold ifClause at h
  split at h
  · rename_i p1 h1
    split at h
    · rename_i c2 p2 h2
      split at h
      · cases h
      · rename_i hnil
        split at h
        · rename_i p3 h3
          split at h
          · rename_i b2 q2 h4
            cases h
            exact ⟨p1, p2, p3, h1, h2, by simpa using hnil, h3, h4⟩
          · cases h
        · cases h
    · cases h
  · cases h

/-- What the final `else` of a well-formed `if` says about the steps of `parseIf`. -/
theorem ifAlternative_spec (fuel : Nat) (q q3 : Parser) (alt : Option ast.BlockStatement)
    (h : ifAlternative fuel q = some (alt, q3)) :
    (q.readToken.type ≠ .ELSE ∧ alt = none ∧ q3 = q) ∨
    ∃ q1 q2 a, q.readToken.type = .ELSE ∧ q.nextToken = .ok q1 ∧ q1.readToken.type ≠ .IF ∧
      q1.expectRead .LBRACE = .ok (true, q2) ∧ parseBlockStatement fuel q2 = .ok (a, q3) ∧
      alt = some a := by
  unfold ifAlternative at h
  split at h
  · rename_i helse
    right
    split at h
    · rename_i q1 h1
      split at h
      · cases h
      · rename_i hif
        split at h
        · rename_i q2 h2
          split at h
          · rename_i a q4 h4
            cases h
            exact ⟨q1, q2, a, helse, h1, hif, h2, h4, rfl⟩
          · cases h
        · cases h
    · cases h
  · rename_i helse
    left
    cases h
    exact ⟨helse, rfl, rfl⟩

/-- `parseIf` on a well-formed `if` with `k` clauses `else if`: one `If` node that holds the
conditions and the blocks of all `k + 1` clauses in source order. -/
theorem parseIf_ifChain :
    ∀ (k fuel : Nat) (p q : Parser) (clauses : List (ast.Node × ast.BlockStatement))
      (alt : Option ast.BlockStatement), ifChain k fuel p = some (clauses, alt, q) →
      parseIf (fuel + 1) p
        = .ok (.If p.token (clauses.map Prod.fst) (clauses.map Prod.snd)
            (alt.getD ast.BlockStatement.zero), q) ∧
      clauses.length = k + 1 := by
  intro k
  induction k with
  | zero =>
    intro fuel p q clauses alt h
    unfold ifChain at h
    split at h
    · rename_i c b q0 hc
      split at h
      · rename_i alt2 q3 ha
        cases h
        obtain ⟨p1, p2, p3, h1, h2, hnil, h3, h4⟩ := ifClause_spec fuel p q0 c b hc
        refine ⟨?_, rfl⟩
        rcases ifAlternative_spec fuel q0 q alt ha with ⟨helse, rfl, rfl⟩ | ⟨q1, q2, a, helse, hq1, hif, hq2, hblock, rfl⟩
        · rw [parseIf]
          simp only [h1, Res.ok_bind, h2, hnil, h3, h4, if_neg helse, Res.pure_eq,
            Bool.not_true, Bool.false_eq_true, if_false, List.map_cons, List.map_nil,
            Option.getD_none]
        · rw [parseIf]
          simp only [h1, Res.ok_bind, h2, hnil, h3, h4, if_pos helse, hq1, if_neg hif, hq2,
            hblock, Res.pure_eq, Bool.not_true, Bool.false_eq_true, if_false, List.map_cons,
            List.map_nil, Option.getD_some]
      · cases h
    · cases h
  | succ k ih =>
    intro fuel p q clauses alt h
    cases fuel with
    | zero => simp [ifChain] at h
    | succ fuel =>
      unfold ifChain at h
      split at h
      · rename_i c b q0 hc
        split at h
        · rename_i helse
          split at h
          · rename_i q1 hq1
            split at h
            · rename_i hif
              split at h
              · rename_i q2 hq2
                split at h
                · rename_i rest alt2 q3 hrest
                  cases h
                  obtain ⟨p1, p2, p3, h1, h2, hnil, h3, h4⟩ :=
                    ifClause_spec (fuel + 1) p q0 c b hc
                  obtain ⟨hparse, hlen⟩ := ih fuel q2 q rest alt hrest
                  refine ⟨?_, by simp [hlen]⟩
                  rw [parseIf]
                  simp only [h1, Res.ok_bind, h2, hnil, h3, h4, if_pos helse, hq1, if_pos hif,
                    hq2, hparse, Res.pure_eq, Bool.not_true, Bool.false_eq_true, if_false,
                    List.map_cons, List.singleton_append]
                · cases h
              · cases h
            · cases h
          · cases h
        · cases h
      · cases h

/-- C9: for every `k`, when the tokens from the parser on are a well-formed `if` followed by
`k` clauses `else if` and an optional final `else` (`ifChain` reads them: `clauses` in
source order, `alt` the final block if any, `q` the parser at the end), `parseIf` with one
more unit of fuel returns one `If` node whose `Conditions` are the conditions of the
clauses and whose `Consequences` are their blocks, both of length `k + 1` and in source
order, whose `Alternative` is the final block, or the zero block when there is none, and
leaves the parser in `q`. At the end the two inputs of `TestIfs`: a lone `if`, and an `if`
with three `else if` and a final `else`, which gives four conditions and four blocks. -/
theorem parseIf_flattens_chain (k fuel : Nat) (p q : Parser)
    (clauses : List (ast.Node × ast.BlockStatement)) (alt : Option ast.BlockStatement)
    (h : ifChain k fuel p = some (clauses, alt, q)) :
    parseIf (fuel + 1) p
      = .ok (.If p.token (clauses.map Prod.fst) (clauses.map Prod.snd)
          (alt.getD ast.BlockStatement.zero), q) ∧
    (clauses.map Prod.fst).length = k + 1 ∧ (clauses.map Prod.snd).length = k + 1 ∧
    parseSource latin1Only 40 "if (x < y) \x7b x \x7d"
      = .ok ([.ExpressionStatement { type := .IF, literal := "if" }
          (.If { type := .IF, literal := "if" } [infixNode .LT (identLeaf "x") (identLeaf "y")]
            [identBlock "x"] ast.BlockStatement.zero)], []) ∧
    parseSource latin1Only 40
        "if (y > x) \x7b x \x7d else if (yy > xx) \x7b yy \x7d else if (yy > xx) \x7b yyy \x7d else if (yy > xx) \x7b yyyy \x7d else \x7b y \x7d"
      = .ok ([.ExpressionStatement { type := .IF, literal := "if" }
          (.If { type := .IF, literal := "if" }
            [infixNode .GT (identLeaf "y") (identLeaf "x"),
             infixNode .GT (identLeaf "yy") (identLeaf "xx"),
             infixNode .GT (identLeaf "yy") (identLeaf "xx"),
             infixNode .GT (identLeaf "yy") (identLeaf "xx")]
            [identBlock "x", identBlock "yy", identBlock "yyy", identBlock "yyyy"]
            (identBlock "y"))], []) := by
  obtain ⟨hparse, hlen⟩ := parseIf_ifChain k fuel p q clauses alt h
  exact ⟨hparse, by simp [hlen], by simp [hlen], by decide!, by decide!⟩

/-- C9 at a concrete state: the parser that `parser.New` gives on the text
`if (1) { 2 } else if (3) { 4 }`, where `parseIf` returns one `If` node with two
conditions, two blocks and no alternative. -/
theorem parseIf_flattens_chain_witness :
    Parser.New (Lexer.New latin1Only "if (1) \x7b 2 \x7d else if (3) \x7b 4 \x7d")
      = .ok { l := Lexer.standing latin1Only
                "if (1) \x7b 2 \x7d else if (3) \x7b 4 \x7d".data 4 '1'
                ("if (1) \x7b 2 \x7d else if (3) \x7b 4 \x7d".data.drop 5),
              token := { type := .IF, literal := "if" },
              readToken := { type := .LPAREN, literal := "(" }, errors := [] } ∧
    parseIf 8
        { l := Lexer.standing latin1Only
            "if (1) \x7b 2 \x7d else if (3) \x7b 4 \x7d".data 4 '1'
            ("if (1) \x7b 2 \x7d else if (3) \x7b 4 \x7d".data.drop 5),
          token := { type := .IF, literal := "if" },
          readToken := { type := .LPAREN, literal := "(" }, errors := [] }
      = .ok (.If { type := .IF, literal := "if" } [intLeaf 1, intLeaf 3]
          [singleBlock (intToken 2) (intLeaf 2), singleBlock (intToken 4) (intLeaf 4)]
          ast.BlockStatement.zero,
          { l := Lexer.standing latin1Only
              "if (1) \x7b 2 \x7d else if (3) \x7b 4 \x7d".data 31 (Char.ofNat 0) [],
            token := { type := .RBRACE, literal := "\x7d" }, readToken := eofToken,
            errors := [] }) :=
  ⟨by decide!,
   (parseIf_flattens_chain 1 7
      { l := Lexer.standing latin1Only
          "if (1) \x7b 2 \x7d else if (3) \x7b 4 \x7d".data 4 '1'
          ("if (1) \x7b 2 \x7d else if (3) \x7b 4 \x7d".data.drop 5),
        token := { type := .IF, literal := "if" },
        readToken := { type := .LPAREN, literal := "(" }, errors := [] }
      { l := Lexer.standing latin1Only
          "if (1) \x7b 2 \x7d else if (3) \x7b 4 \x7d".data 31 (Char.ofNat 0) [],
        token := { type := .RBRACE, literal := "\x7d" }, readToken := eofToken, errors := [] }
      [(intLeaf 1, singleBlock (intToken 2) (intLeaf 2)),
       (intLeaf 3, singleBlock (intToken 4) (intLeaf 4))]
      none (by decide!)).1⟩

/-! ## Identifier wrappers as operands and results -/

/-- C11 on the code: an Identifier wrapper is not unwrapped by the prefix operators, nor
on the left of `==` and `!=` when the right operand is no wrapper. With `x` bound to 5,
`x == 5` yields false although `5 == x` and `5 == 5` yield true, `x != 5` yields true, and
`-x` yields the Error "unknown operator: -IDENTIFIER"; with `b` bound to false, `!b` yields
false. The other infix operators do unwrap: `x + 1` yields 6 and `x < 6` yields true. -/
theorem identifier_operand_not_unwrapped :
    evalValue latin1Only 60 "let x = 5; x == 5" = .ok FALSE ∧
    evalValue latin1Only 60 "let x = 5; 5 == x" = .ok TRUE ∧
    evalValue latin1Only 60 "5 == 5" = .ok TRUE ∧
    evalValue latin1Only 60 "let x = 5; x != 5" = .ok TRUE ∧
    evalValue latin1Only 60 "let x = 5; -x" = .ok (.Error "unknown operator: -IDENTIFIER") ∧
    evalValue latin1Only 60 "let b = false; !b" = .ok FALSE ∧
    evalValue latin1Only 60 "let x = 5; x + 1" = .ok (.Integer 6) ∧
    evalValue latin1Only 60 "let x = 5; x < 6" = .ok TRUE := by
  refine ⟨by decide!, by decide!, by decide!, by decide!, by decide!, by decide!, by decide!,
    by decide!⟩

/-- C12 on the code: with `x` bound to 1 and `y` bound to 2, `x = y` reaches the case of
`evalInfix` that unwraps both operands before the case of `=`, so the assignment is
attempted on the value 1 and yields the Error "unknown operator: INTEGER = INTEGER", which
ends the program; `x` is not rebound. With a right side that is no plain identifier,
`x = y + 0`, the assignment is performed and `x` then yields 2. -/
theorem assignment_of_identifier_fails :
    evalValue latin1Only 60 "let x = 1; let y = 2; x = y; x"
      = .ok (.Error "unknown operator: INTEGER = INTEGER") ∧
    evalValue latin1Only 60 "let x = 1; let y = 2; x = y"
      = .ok (.Error "unknown operator: INTEGER = INTEGER") ∧
    evalValue latin1Only 60 "let x = 1; let y = \"s\"; x = y; x"
      = .ok (.Error "cannot assign value to: INTEGER") ∧
    evalValue latin1Only 60 "let x = 1; let y = 2; x = y + 0; x" = .ok (.Integer 2) := by
  refine ⟨by decide!, by decide!, by decide!, by decide!⟩

/-- C13 on the code: `evalProgram` unwraps one layer only. `let x = 5; let y = x; y` and
`let x = 5; return x` both return the Identifier wrapper of `x` around 5, and
`return if (true) { return 1 }` returns a Return signal; `let x = 5; x` returns the
Integer 5 as the tests expect. -/
theorem program_result_keeps_wrapper :
    evalValue latin1Only 60 "let x = 5; let y = x; y" = .ok (.Identifier "x" (.Integer 5)) ∧
    evalValue latin1Only 60 "let x = 5; return x" = .ok (.Identifier "x" (.Integer 5)) ∧
    evalValue latin1Only 60 "return if (true) { return 1 }" = .ok (.Return (.Integer 1)) ∧
    evalValue latin1Only 60 "let x = 5; x" = .ok (.Integer 5) := by
  refine ⟨by decide!, by decide!, by decide!, by decide!⟩

/-- C15 on the code: an Error that ends the body of a called function is dropped by
`evalFunction`, which returns Null for every body result that is no Return. The call
`f()` of `fn() { 5 + true }` yields Null, and the program `let f = ...; f(); 1` yields
1; the same Error inside an `if` block does end the program. -/
theorem function_body_error_dropped :
    evalValue latin1Only 60 "let f = fn() { 5 + true }; f(); 1" = .ok (.Integer 1) ∧
    evalValue latin1Only 60 "let f = fn() { 5 + true }; f()" = .ok NULL ∧
    evalValue latin1Only 60 "if (true) { 5 + true }; 1"
      = .ok (.Error "type mismatch: INTEGER + BOOLEAN") := by
  refine ⟨by decide!, by decide!, by decide!⟩

/-- C17 on the code: `extendFunctionEnv` reads `args[i]` for every parameter, so a call
with fewer arguments than parameters panics with an index out of range: `fn(x, y)` called
with one argument and `fn(x)` called with none. Extra arguments are ignored. -/
theorem missing_argument_panics :
    evalValue latin1Only 60 "fn(x, y) { return x }(1)"
      = .panic "runtime error: index out of range" ∧
    evalValue latin1Only 60 "fn(x) { return x }()"
      = .panic "runtime error: index out of range" ∧
    evalValue latin1Only 60 "fn(x) { return x }(1, 2)" = .ok (.Integer 1) := by
  refine ⟨by decide!, by decide!, by decide!⟩

/-- C20 on the code: when the index of `left[index]` evaluates to an Error, `Eval` returns
the value of `left` in place of the Error. With `a` bound to the array `[1]` and `zz`
unbound, `a[zz]` yields that array, while `zz` alone yields the Error and an Error in
`left` is returned as such. -/
theorem index_error_returns_left :
    evalSource latin1Only 60 "let a = [1]; a[zz]"
      = .ok (.Array ⟨0, 1⟩,
          ⟨[⟨[("a", .Array ⟨0, 1⟩)], none⟩], [⟨[.Integer 1], 1⟩], [], [], []⟩) ∧
    evalValue latin1Only 60 "zz" = .ok (.Error "identifier not found: zz") ∧
    evalValue latin1Only 60 "zz[0]" = .ok (.Error "identifier not found: zz") := by
  refine ⟨by decide!, by decide!, by decide!⟩

/-! ## Index access -/

/-- An index access on a receiver given by a variable is the access on its value. -/
theorem evalAccessByExpression_bare (h : Heap) (exp : Object) :
    ∀ left : Object, evalAccessByExpression h left exp = evalAccessByExpression h left.bare exp := by
  intro left
  induction left with
  | Identifier n v ih => rw [evalAccessByExpression, Object.bare, ih]
  | _ => rfl

/-- Behind its Identifier wrappers an object is no Identifier. -/
theorem object.Object.bare_type (o : Object) : o.bare.type ≠ .IdentifierType := by
  induction o with
  | Identifier n v ih => simpa [Object.bare] using ih
  | _ => simp [Object.bare, Object.type]

/-- C18 on the code: `evalAccessByExpression` unwraps a receiver given by a variable, but
it asserts the index as it comes, and it knows no receiver that is itself the result of
an index access. With `x` bound to the array `[1, 2, 3]` and `i` to the Integer 1, `x[i]`
is the Error "access expression is not integer" (the message prints the type of the zero
value left by the failed assertion), where the claim has element 1; a String key given by
a variable is the Error "keys in hash tables must be strings"; and `[[1, 2], [3]][0][1]`,
whose receiver is the array `[1, 2]`, is an Error where the claim has element 1 of it. With
a literal index on a variable or a literal receiver the access is what the claim says:
element `i`, an Error out of bounds, the stored value, Null for a missing key, and an
Error for a receiver that is no collection. -/
theorem index_by_variable_is_error :
    evalValue latin1Only 60 "let x = [1, 2, 3]; let i = 1; x[i]"
      = .ok (.Error "access expression is not integer: got INTEGER") ∧
    evalValue latin1Only 60 "let h = \x7b\"world\": 2\x7d; let k = \"world\"; h[k]"
      = .ok (.Error "keys in hash tables must be strings: got STRING") ∧
    evalValue latin1Only 60 "[[1, 2], [3]][0][1]"
      = .ok (.Error
          "access by expression is not supported for this type: got ACCESSBYEXPRESSION") ∧
    evalValue latin1Only 60 "let x = [1, 2, 3]; x[1]" = .ok (.Integer 2) ∧
    evalValue latin1Only 60 "\x7b\"world\": 2\x7d[\"world\"]" = .ok (.Integer 2) ∧
    evalValue latin1Only 60 "let x = [1, 2, 3]; x[3]"
      = .ok (.Error "index out of bounds: got=3") ∧
    evalValue latin1Only 60 "\x7b\"world\": 2\x7d[\"w\"]" = .ok NULL ∧
    evalValue latin1Only 60 "5[0]"
      = .ok (.Error "access by expression is not supported for this type: got INTEGER") := by
  refine ⟨by decide!, by decide!, by decide!, by decide!, by decide!, by decide!, by decide!,
    by decide!⟩

/-! ## Assignment to an index -/

/-- A lookup depends on the scopes of the memory only. -/
theorem Heap.getLoop_of_envs_eq (h g : Heap) (hg : g.envs = h.envs) (key : Text) :
    ∀ (n : Nat) (cur : Option EnvRef), g.getLoop n cur key = h.getLoop n cur key := by
  intro n
  induction n with
  | zero => intro cur; rfl
  | succ n ih =>
    intro cur
    cases cur with
    | none => rfl
    | some c =>
      simp only [Heap.getLoop, hg]
      cases h.envs[c]? with
      | none => rfl
      | some e =>
        simp only
        cases mapGet keyEqText e.store key with
        | none => exact ih e.outer
        | some o => rfl

/-- A lookup depends on the scopes of the memory only. -/
theorem Heap.Get_of_envs_eq (h g : Heap) (hg : g.envs = h.envs) (env : EnvRef) (key : Text) :
    g.Get env key = h.Get env key := by
  rw [Heap.Get, Heap.Get, hg]
  exact Heap.getLoop_of_envs_eq h g hg key _ _

/-- The self-calls of `evalInfix` that unwrap the right side of `=`, and the store itself,
when the target is an index access. -/
theorem evalInfixAux_store (l ex old : Object) (env : EnvRef) (h : Heap) :
    ∀ (r : Object) (k : Nat), r.wrappers + 1 ≤ k →
      evalInfixAux k "=" (.AccessByExpression l ex old) r env h
        = (storeIndexed h l ex r.underlying >>= fun h1 => .ok (NULL, h1)) := by
  intro r
  induction r with
  | AccessByExpression l2 e2 v _ _ ihv =>
    intro k hk
    obtain ⟨k, rfl⟩ : ∃ j, k = j + 1 := ⟨k - 1, by omega⟩
    simp only [Object.wrappers] at hk
    simp only [Object.underlying]
    rw [evalInfixAux]
    exact ihv k (by omega)
  | Identifier n v ihv =>
    intro k hk
    obtain ⟨k, rfl⟩ : ∃ j, k = j + 1 := ⟨k - 1, by omega⟩
    simp only [Object.wrappers] at hk
    simp only [Object.underlying]
    rw [evalInfixAux]
    · exact ihv k (by omega)
    · intro _ _ hh
      cases hh
  | _ =>
    intro k hk
    obtain ⟨k, rfl⟩ : ∃ j, k = j + 1 := ⟨k - 1, by omega⟩
    simp [evalInfixAux, Object.underlying]

/-- Evaluation of `a[j]` for a variable `a` that holds the slice `s`, with `j` within its
length: the access holds what cell `j` of the backing array holds. -/
theorem Eval_array_access (fuel : Nat) (t1 t2 t3 : Token) (a : Text) (j : Nat) (env : EnvRef)
    (g : Heap) (oa : Object) (s : Slice) (b : Backing)
    (ha : g.Get env a = some oa) (hoa : oa.bare = .Array s) (hb : g.arrays[s.array]? = some b)
    (hj : j < s.len) :
    Eval (fuel + 2) (.AccessByExpression t1 (.Identifier ⟨t2, a⟩) (.Integer t3 j)) env g
      = .ok (.AccessByExpression (.Array s) (.Integer j) (b.cells.getD j NULL), g) := by
  have hnot : ¬ ((s.len : Int) ≤ (j : Int) ∨ (j : Int) < 0) := by omega
  have hacc : evalAccessByExpression g (.Identifier a oa) (.Integer j)
      = .ok (.AccessByExpression (.Array s) (.Integer j) (b.cells.getD j NULL)) := by
    rw [evalAccessByExpression_bare, Object.bare, hoa]
    simp only [evalAccessByExpression, hb, if_neg hnot, Int.toNat_ofNat]
  simp [Eval, evalIdentifier, ha, Object.type, hacc]

/-- Evaluation of `t[k]` for a variable `t` that holds the hash table at `r`. -/
theorem Eval_table_access (fuel : Nat) (t1 t2 t3 : Token) (a k : Text) (env : EnvRef)
    (g : Heap) (oa : Object) (r : Nat) (its : List (Text × Object))
    (ha : g.Get env a = some oa) (hoa : oa.bare = .HashTable r)
    (hits : g.tables[r]? = some its) :
    Eval (fuel + 2) (.AccessByExpression t1 (.Identifier ⟨t2, a⟩) (.String t3 k)) env g
      = .ok (.AccessByExpression (.HashTable r) (.String k)
          ((mapGet keyEqText its k).getD NULL), g) := by
  have hacc : evalAccessByExpression g (.Identifier a oa) (.String k)
      = .ok (.AccessByExpression (.HashTable r) (.String k)
          ((mapGet keyEqText its k).getD NULL)) := by
    rw [evalAccessByExpression_bare, Object.bare, hoa]
    simp only [evalAccessByExpression, hits]
    cases mapGet keyEqText its k <;> rfl
  simp [Eval, evalIdentifier, ha, Object.type, hacc]

/-- The assignment `target = e` for a target that evaluated to an index access: the right
side is evaluated and its underlying value stored. -/
theorem Eval_assign_indexed (fuel : Nat) (tok : Token) (target e : ast.Node) (env : EnvRef)
    (h h1 : Heap) (l ex old v : Object)
    (ht : Eval (fuel + 2) target env h = .ok (.AccessByExpression l ex old, h))
    (he : Eval (fuel + 2) e env h = .ok (v, h1)) (hv : v.type ≠ .ErrorType) :
    Eval (fuel + 3) (.Infix tok "=" target e) env h
      = (storeIndexed h1 l ex v.underlying >>= fun h2 => .ok (NULL, h2)) := by
  rw [Eval]
  simp only [ht, Res.ok_bind, he]
  rw [if_neg (by simp [Object.type]), if_neg hv, evalInfix]
  exact evalInfixAux_store l ex old env h1 v _ (by omega)

/-- The memory after a store into cell `i` of the backing array at `r`. -/
theorem Heap.arrays_set_get (h : Heap) (r : Nat) (b c : Backing) (hb : h.arrays[r]? = some b) :
    (h.arrays.set r c)[r]? = some c := by
  have hr : r < h.arrays.length := index_lt_of_getElem? _ _ _ hb
  simp [List.getElem?_set, hr]

/-- Evaluation of `a[j]` for a variable `a` that holds the slice `s`, with `j` beyond its
length. -/
theorem Eval_array_access_beyond (fuel : Nat) (t1 t2 t3 : Token) (a : Text) (j : Nat)
    (env : EnvRef) (g : Heap) (oa : Object) (s : Slice)
    (ha : g.Get env a = some oa) (hoa : oa.bare = .Array s) (hj : s.len ≤ j) :
    Eval (fuel + 2) (.AccessByExpression t1 (.Identifier ⟨t2, a⟩) (.Integer t3 j)) env g
      = .ok (.Error ("index out of bounds: got=" ++ toString (j : Int)), g) := by
  have hyes : (s.len : Int) ≤ (j : Int) ∨ (j : Int) < 0 := by omega
  have hacc : evalAccessByExpression g (.Identifier a oa) (.Integer j)
      = .ok (.Error ("index out of bounds: got=" ++ toString (j : Int))) := by
    rw [evalAccessByExpression_bare, Object.bare, hoa]
    simp only [evalAccessByExpression, if_pos hyes, newError]
  simp [Eval, evalIdentifier, ha, Object.type, hacc]

/-- A cell of a list after a store into cell `i`. -/
theorem getD_set_cell (cells : List Object) (i j : Nat) (x : Object) (hi : i < cells.length) :
    (cells.set i x).getD j NULL = if j = i then x else cells.getD j NULL := by
  by_cases hji : j = i
  · subst hji
    simp [List.getD, List.getElem?_set, hi]
  · simp [List.getD, List.getElem?_set, hji, Ne.symm hji]

/-- C19: index assignment stores in place. Let the variable `a` hold the same collection
before and after `e` is evaluated, and let `e` evaluate to a value `v` that is no Error.
When `a` holds an Array, the slice `s` of length `n = s.len` over the backing array at
`s.array`, and `i < n`, then `a[i] = e` returns Null and changes the memory in cell `i` of
that backing array only: after it `a[i]` evaluates to the underlying value of `v`, every
`a[j]` with `j != i` and `j < n` evaluates to what it evaluated to before, `a` holds the
same slice, of length `n`, and an index from `n` on is out of bounds as before. When `a`
holds a HashTable, the map at `t`, then `a[k] = e` returns Null and changes the entry of
key `k` of that map only: after it `a[k]` evaluates to the underlying value of `v` and
every other key to what it evaluated to before. The two halves do not depend on each
other. The test-like programs are evaluated at the end. -/
theorem index_assignment_in_place (fuel : Nat) (tok t1 t2 t3 : Token) (a : Text)
    (e : ast.Node) (env : EnvRef) (h h1 : Heap) (oa v : Object)
    (he : Eval (fuel + 2) e env h = .ok (v, h1)) (hv : v.type ≠ .ErrorType)
    (ha : h.Get env a = some oa) (ha1 : h1.Get env a = some oa) :
    (∀ (s : Slice) (b b1 : Backing) (i : Nat), oa.bare = .Array s →
      h.arrays[s.array]? = some b → h1.arrays[s.array]? = some b1 →
      s.len ≤ b1.cells.length → i < s.len →
      Eval (fuel + 3)
          (.Infix tok "=" (.AccessByExpression t1 (.Identifier ⟨t2, a⟩) (.Integer t3 i)) e)
          env h
        = .ok (NULL, { h1 with arrays :=
            (h1.arrays.set s.array ⟨b1.cells.set i v.underlying, b1.cap⟩) }) ∧
      (∀ j : Nat, j < s.len →
        Eval (fuel + 2) (.AccessByExpression t1 (.Identifier ⟨t2, a⟩) (.Integer t3 j)) env h1
          = .ok (.AccessByExpression (.Array s) (.Integer j) (b1.cells.getD j NULL), h1) ∧
        Eval (fuel + 2) (.AccessByExpression t1 (.Identifier ⟨t2, a⟩) (.Integer t3 j)) env
            { h1 with arrays :=
                (h1.arrays.set s.array ⟨b1.cells.set i v.underlying, b1.cap⟩) }
          = .ok (.AccessByExpression (.Array s) (.Integer j)
              (if j = i then v.underlying else b1.cells.getD j NULL),
              { h1 with arrays :=
                  (h1.arrays.set s.array ⟨b1.cells.set i v.underlying, b1.cap⟩) })) ∧
      Heap.Get { h1 with arrays :=
          (h1.arrays.set s.array ⟨b1.cells.set i v.underlying, b1.cap⟩) } env a = some oa ∧
      (∀ j : Nat, s.len ≤ j →
        Eval (fuel + 2) (.AccessByExpression t1 (.Identifier ⟨t2, a⟩) (.Integer t3 j)) env
            { h1 with arrays :=
                (h1.arrays.set s.array ⟨b1.cells.set i v.underlying, b1.cap⟩) }
          = .ok (.Error ("index out of bounds: got=" ++ toString (j : Int)),
              { h1 with arrays :=
                  (h1.arrays.set s.array ⟨b1.cells.set i v.underlying, b1.cap⟩) }))) ∧
    (∀ (t : Nat) (entries entries1 : List (Text × Object)) (k : Text),
      oa.bare = .HashTable t →
      h.tables[t]? = some entries → h1.tables[t]? = some entries1 →
      Eval (fuel + 3)
          (.Infix tok "=" (.AccessByExpression t1 (.Identifier ⟨t2, a⟩) (.String t3 k)) e)
          env h
        = .ok (NULL,
            { h1 with tables := h1.tables.set t (mapSet keyEqText entries1 k v.underlying) }) ∧
      ∀ k2 : Text,
        Eval (fuel + 2) (.AccessByExpression t1 (.Identifier ⟨t2, a⟩) (.String t3 k2)) env h1
          = .ok (.AccessByExpression (.HashTable t) (.String k2)
              ((mapGet keyEqText entries1 k2).getD NULL), h1) ∧
        Eval (fuel + 2) (.AccessByExpression t1 (.Identifier ⟨t2, a⟩) (.String t3 k2)) env
            { h1 with tables := h1.tables.set t (mapSet keyEqText entries1 k v.underlying) }
          = .ok (.AccessByExpression (.HashTable t) (.String k2)
              (if k2 = k then v.underlying else (mapGet keyEqText entries1 k2).getD NULL),
              { h1 with tables :=
                (h1.tables.set t (mapSet keyEqText entries1 k v.underlying)) })) ∧
    evalValue latin1Only 60 "let a = [1, 2, 3]; a[1] = 7; a[1]" = .ok (.Integer 7) ∧
    evalValue latin1Only 60 "let a = [1, 2, 3]; a[1] = 7; a[0] + a[2] + len(a)"
      = .ok (.Integer 7) ∧
    evalValue latin1Only 60
        "let b = \x7b\"x\": 1, \"y\": 2\x7d; b[\"x\"] = 5; b[\"x\"] + b[\"y\"]"
      = .ok (.Integer 7) := by
  refine ⟨?_, ?_, by decide!, by decide!, by decide!⟩
  · intro s b b1 i hoa hb hb1 hlen hi
    have hget : Heap.Get { h1 with arrays :=
        (h1.arrays.set s.array ⟨b1.cells.set i v.underlying, b1.cap⟩) } env a = some oa := by
      rw [Heap.Get_of_envs_eq h1 _ (by rfl)]
      exact ha1
    have hb2 : (h1.arrays.set s.array ⟨b1.cells.set i v.underlying, b1.cap⟩)[s.array]?
        = some ⟨b1.cells.set i v.underlying, b1.cap⟩ :=
      Heap.arrays_set_get h1 s.array b1 _ hb1
    refine ⟨?_, ?_, hget, ?_⟩
    · rw [Eval_assign_indexed fuel tok _ e env h h1 (.Array s) (.Integer i)
        (b.cells.getD i NULL) v
        (Eval_array_access fuel t1 t2 t3 a i env h oa s b ha hoa hb hi) he hv]
      have hin : (0 : Int) ≤ (i : Int) ∧ (i : Int) < (s.len : Int) := by omega
      simp only [storeIndexed, hb1, if_pos hin, Int.toNat_ofNat]
      rfl
    · intro j hj
      refine ⟨Eval_array_access fuel t1 t2 t3 a j env h1 oa s b1 ha1 hoa hb1 hj, ?_⟩
      rw [Eval_array_access fuel t1 t2 t3 a j env _ oa s
        ⟨b1.cells.set i v.underlying, b1.cap⟩ hget hoa hb2 hj]
      simp only [getD_set_cell b1.cells i j v.underlying (by omega)]
    · intro j hj
      exact Eval_array_access_beyond fuel t1 t2 t3 a j env _ oa s hget hoa hj
  · intro t entries entries1 k hoa hentries hentries1
    have ht : t < h1.tables.length := index_lt_of_getElem? _ _ _ hentries1
    have hget : Heap.Get
        { h1 with tables := h1.tables.set t (mapSet keyEqText entries1 k v.underlying) } env a
        = some oa := by
      rw [Heap.Get_of_envs_eq h1 _ (by rfl)]
      exact ha1
    refine ⟨?_, ?_⟩
    · rw [Eval_assign_indexed fuel tok _ e env h h1 (.HashTable t) (.String k)
        ((mapGet keyEqText entries k).getD NULL) v
        (Eval_table_access fuel t1 t2 t3 a k env h oa t entries ha hoa hentries) he hv]
      simp only [storeIndexed, hentries1]
      rfl
    · intro k2
      refine ⟨Eval_table_access fuel t1 t2 t3 a k2 env h1 oa t entries1 ha1 hoa hentries1, ?_⟩
      rw [Eval_table_access fuel t1 t2 t3 a k2 env _ oa t
        (mapSet keyEqText entries1 k v.underlying) hget hoa (by simp [List.getElem?_set, ht])]
      by_cases hk : k2 = k
      · subst hk
        simp [mapGet_mapSet_self]
      · simp [mapGet_mapSet_other _ _ _ _ hk, hk]

/-- C19 at two concrete memories. In the first, scope 0 binds `a` to the array `[1, 2, 3]`
(a slice of length 3 over a backing array of capacity 4) and there is no hash table:
`a[1] = 7` returns Null and leaves the cells `1, 7, 3`. In the second, scope 0 binds `a`
to the table with the entry `x: 1` and there is no array: `a["x"] = 7` returns Null and
leaves the entry `x: 7`. -/
theorem index_assignment_in_place_witness :
    Eval 3
        (.Infix ⟨.ASSIGN, "="⟩ "="
          (.AccessByExpression ⟨.LBRACKET, "["⟩ (.Identifier ⟨⟨.IDENT, "a"⟩, "a"⟩)
            (.Integer ⟨.INT, "1"⟩ 1))
          (.Integer ⟨.INT, "7"⟩ 7)) 0
        ⟨[⟨[("a", .Array ⟨0, 3⟩)], none⟩],
          [⟨[.Integer 1, .Integer 2, .Integer 3], 4⟩], [], [], []⟩
      = .ok (NULL,
          ⟨[⟨[("a", .Array ⟨0, 3⟩)], none⟩],
            [⟨[.Integer 1, .Integer 7, .Integer 3], 4⟩], [], [], []⟩) ∧
    Eval 3
        (.Infix ⟨.ASSIGN, "="⟩ "="
          (.AccessByExpression ⟨.LBRACKET, "["⟩ (.Identifier ⟨⟨.IDENT, "a"⟩, "a"⟩)
            (.String ⟨.STRING, "x"⟩ "x"))
          (.Integer ⟨.INT, "7"⟩ 7)) 0
        ⟨[⟨[("a", .HashTable 0)], none⟩], [], [[("x", .Integer 1)]], [], []⟩
      = .ok (NULL,
          ⟨[⟨[("a", .HashTable 0)], none⟩], [], [[("x", .Integer 7)]], [], []⟩) :=
  ⟨((index_assignment_in_place 0 ⟨.ASSIGN, "="⟩ ⟨.LBRACKET, "["⟩ ⟨.IDENT, "a"⟩ ⟨.INT, "1"⟩
      "a" (.Integer ⟨.INT, "7"⟩ 7) 0
      ⟨[⟨[("a", .Array ⟨0, 3⟩)], none⟩],
        [⟨[.Integer 1, .Integer 2, .Integer 3], 4⟩], [], [], []⟩
      ⟨[⟨[("a", .Array ⟨0, 3⟩)], none⟩],
        [⟨[.Integer 1, .Integer 2, .Integer 3], 4⟩], [], [], []⟩
      (.Array ⟨0, 3⟩) (.Integer 7) (by decide!) (by decide!) (by decide!) (by decide!)).1
      ⟨0, 3⟩ ⟨[.Integer 1, .Integer 2, .Integer 3], 4⟩
      ⟨[.Integer 1, .Integer 2, .Integer 3], 4⟩ 1 (by decide!) (by decide!) (by decide!)
      (by decide) (by decide)).1,
   ((index_assignment_in_place 0 ⟨.ASSIGN, "="⟩ ⟨.LBRACKET, "["⟩ ⟨.IDENT, "a"⟩
      ⟨.STRING, "x"⟩ "a" (.Integer ⟨.INT, "7"⟩ 7) 0
      ⟨[⟨[("a", .HashTable 0)], none⟩], [], [[("x", .Integer 1)]], [], []⟩
      ⟨[⟨[("a", .HashTable 0)], none⟩], [], [[("x", .Integer 1)]], [], []⟩
      (.HashTable 0) (.Integer 7) (by decide!) (by decide!) (by decide!) (by decide!)).2.1
      0 [("x", .Integer 1)] [("x", .Integer 1)] "x" (by decide!) (by decide!)
      (by decide!)).1⟩

/-! ## Binding of parameters -/

/-- A scope binds a name exactly when it holds a value for it. -/
theorem Heap.binds_eq_valueIn (h : Heap) (r : EnvRef) (key : Text) :
    h.binds r key = (h.valueIn r key).isSome := by
  simp only [Heap.binds, Heap.valueIn]
  cases h.envs[r]? <;> rfl

/-- A walk for `key` depends only on the number of scopes, their parent links and what
each holds for `key`. -/
theorem Heap.getLoop_congr (h g : Heap) (key : Text) (hlen : g.envs.length = h.envs.length)
    (hv : ∀ s, g.valueIn s key = h.valueIn s key) (ho : ∀ s, g.outerOf s = h.outerOf s) :
    ∀ (n : Nat) (cur : Option EnvRef), g.getLoop n cur key = h.getLoop n cur key := by
  intro n
  induction n with
  | zero => intro cur; rfl
  | succ n ih =>
    intro cur
    cases cur with
    | none => rfl
    | some c =>
      have hvc := hv c
      have hoc := ho c
      simp only [Heap.valueIn, Heap.outerOf] at hvc hoc
      simp only [Heap.getLoop]
      cases hg : g.envs[c]? with
      | none =>
        have hc : h.envs[c]? = none := by
          have hle : g.envs.length ≤ c := List.getElem?_eq_none_iff.mp hg
          rw [hlen] at hle
          exact List.getElem?_eq_none hle
        simp [hc]
      | some eg =>
        have hc : c < h.envs.length := by
          have hlt := index_lt_of_getElem? _ _ _ hg
          rw [hlen] at hlt
          exact hlt
        have hh : h.envs[c]? = some h.envs[c] := List.getElem?_eq_getElem hc
        generalize h.envs[c] = eh at hh
        simp only [hg, hh] at hvc hoc ⊢
        rw [hvc, hoc]
        cases mapGet keyEqText eh.store key with
        | none => exact ih eh.outer
        | some o => rfl

/-- A lookup of `key` depends only on the number of scopes, their parent links and what
each holds for `key`. -/
theorem Heap.Get_congr (h g : Heap) (key : Text) (hlen : g.envs.length = h.envs.length)
    (hv : ∀ s, g.valueIn s key = h.valueIn s key) (ho : ∀ s, g.outerOf s = h.outerOf s)
    (env : EnvRef) : g.Get env key = h.Get env key := by
  rw [Heap.Get, Heap.Get, hlen]
  exact Heap.getLoop_congr h g key hlen hv ho _ _

/-- What storing into a scope leaves as it was, whatever the address. -/
theorem Heap.store_frame (h : Heap) (r : EnvRef) (key : Text) (value : Object) :
    (h.store r key value).envs.length = h.envs.length ∧
    (∀ s, (h.store r key value).outerOf s = h.outerOf s) ∧
    (∀ k2, k2 ≠ key → ∀ s, (h.store r key value).valueIn s k2 = h.valueIn s k2) ∧
    (h.store r key value).arrays = h.arrays ∧ (h.store r key value).tables = h.tables := by
  by_cases hr : r < h.envs.length
  · have hs := h.store_spec r key value hr
    exact ⟨hs.2.2.2.2.1, hs.2.2.1, hs.2.2.2.1, hs.2.2.2.2.2.1, hs.2.2.2.2.2.2⟩
  · have hnone : h.envs[r]? = none := List.getElem?_eq_none (Nat.le_of_not_lt hr)
    have : h.store r key value = h := by simp [Heap.store, hnone]
    rw [this]
    exact ⟨rfl, fun _ => rfl, fun _ _ _ => rfl, rfl, rfl⟩

/-- `Set` stores into one scope. -/
theorem Heap.Set_eq_store (h : Heap) (env : EnvRef) (key : Text) (value : Object) :
    ∃ r, h.Set env key value = h.store r key value := by
  cases hf : h.findScope h.envs.length (some env) key with
  | none => exact ⟨env, h.Set_of_not_found env key value hf⟩
  | some r => exact ⟨r, h.Set_of_found env r key value hf⟩

/-- What `Set` leaves as it was. -/
theorem Heap.Set_frame (h : Heap) (env : EnvRef) (key : Text) (value : Object) :
    (h.Set env key value).envs.length = h.envs.length ∧
    (∀ s, (h.Set env key value).outerOf s = h.outerOf s) ∧
    (∀ k2, k2 ≠ key → ∀ s, (h.Set env key value).valueIn s k2 = h.valueIn s k2) ∧
    (h.Set env key value).arrays = h.arrays ∧ (h.Set env key value).tables = h.tables := by
  obtain ⟨r, hr⟩ := h.Set_eq_store env key value
  rw [hr]
  exact h.store_frame r key value

/-- A lookup of another name is not changed by `Set`. -/
theorem Heap.Get_Set_other (h : Heap) (env : EnvRef) (key key2 : Text) (value : Object)
    (hne : key2 ≠ key) (e2 : EnvRef) : (h.Set env key value).Get e2 key2 = h.Get e2 key2 := by
  obtain ⟨h1, h2, h3, _, _⟩ := h.Set_frame env key value
  exact Heap.Get_congr h _ key2 h1 (h3 key2 hne) h2 e2

/-- A scope that holds a value for a name is where a lookup from it ends. -/
theorem Heap.Get_of_valueIn (h : Heap) (env : EnvRef) (key : Text) (v : Object)
    (hv : h.valueIn env key = some v) : h.Get env key = some v := by
  simp only [Heap.valueIn] at hv
  cases he : h.envs[env]? with
  | none => simp [he] at hv
  | some e =>
    have hlt := index_lt_of_getElem? _ _ _ he
    obtain ⟨n, hn⟩ : ∃ n, h.envs.length = n + 1 := ⟨h.envs.length - 1, by omega⟩
    simp only [he] at hv
    simp [Heap.Get, hn, Heap.getLoop, he, hv]

/-- A lookup of the name just set, from the scope `Set` was called on. -/
theorem Heap.Get_Set_self (h : Heap) (env : EnvRef) (key : Text) (value : Object)
    (henv : env < h.envs.length) : (h.Set env key value).Get env key = some value := by
  by_cases hx : h.Get env key = none
  · exact Heap.Get_of_valueIn _ env key value (h.Set_unbound env key value henv hx).1
  · obtain ⟨_, _, _, _, _, _, _, _, _, _, hget⟩ := h.Set_bound env key value hx
    exact hget

/-- The loop of `extendFunctionEnv` with at least as many arguments as parameters: it
completes, keeps the scopes and their parent links, leaves every name that is no parameter
as it was in every scope, and makes each parameter resolve to its argument (the last one
wins among parameters of one name). -/
theorem bindParameters_spec (e : EnvRef) :
    ∀ (params : List ast.Identifier) (args : List Object) (g : Heap),
      params.length ≤ args.length → e < g.envs.length →
      ∃ g1, bindParameters e params args g = .ok g1 ∧
        g1.envs.length = g.envs.length ∧ (∀ q, g1.outerOf q = g.outerOf q) ∧
        g1.arrays = g.arrays ∧ g1.tables = g.tables ∧
        (∀ x, (∀ p ∈ params, p.value ≠ x) → ∀ q, g1.valueIn q x = g.valueIn q x) ∧
        (∀ (i : Nat) (p : ast.Identifier) (a : Object), params[i]? = some p →
          args[i]? = some a →
          (∀ (j : Nat) (q : ast.Identifier), i < j → params[j]? = some q → q.value ≠ p.value) →
          g1.Get e p.value = some a) := by
  intro params
  induction params with
  | nil =>
    intro args g _ _
    exact ⟨g, rfl, rfl, fun _ => rfl, rfl, rfl, fun _ _ _ => rfl,
      fun i p a hp => by simp at hp⟩
  | cons p ps ih =>
    intro args g hlen he
    cases args with
    | nil => simp at hlen
    | cons a as =>
      obtain ⟨f1, f2, f3, f4, f5⟩ := g.Set_frame e p.value a
      obtain ⟨g1, hb, h1, h2, h3, h4, h5, h6⟩ := ih as (g.Set e p.value a)
        (by simpa using hlen) (by rw [f1]; exact he)
      refine ⟨g1, by rw [bindParameters, hb], by rw [h1, f1], fun q => by rw [h2, f2],
        by rw [h3, f4], by rw [h4, f5], ?_, ?_⟩
      · intro x hx q
        rw [h5 x (fun p2 hp2 => hx p2 (List.mem_cons_of_mem _ hp2)),
          f3 x (Ne.symm (hx p (List.mem_cons_self _ _)))]
      · intro i p2 a2 hp2 ha2 hlast
        cases i with
        | zero =>
          simp only [List.getElem?_cons_zero, Option.some.injEq] at hp2 ha2
          subst hp2
          subst ha2
          have hfree : ∀ q ∈ ps, q.value ≠ p.value := by
            intro q hq
            obtain ⟨j, hj, hjq⟩ := List.getElem_of_mem hq
            exact hlast (j + 1) q (Nat.succ_pos j)
              (by simp [List.getElem?_eq_getElem hj, hjq])
          rw [Heap.Get_congr (g.Set e p.value a) g1 p.value h1 (h5 p.value hfree) h2]
          exact g.Get_Set_self e p.value a he
        | succ i =>
          simp only [List.getElem?_cons_succ] at hp2 ha2
          exact h6 i p2 a2 hp2 ha2
            (fun j q hij hq => hlast (j + 1) q (by omega) (by simpa using hq))

/-- `extendFunctionEnv` with at least as many arguments as parameters: the new scope is
the next address, its parent is the captured scope, and the loop has bound the
parameters. -/
theorem extendFunctionEnv_spec (params : List ast.Identifier) (fnEnv : EnvRef)
    (args : List Object) (h : Heap) (hlen : params.length ≤ args.length) :
    ∃ h1, extendFunctionEnv params fnEnv args h = .ok (h.envs.length, h1) ∧
      bindParameters h.envs.length params args (NewEnclosedEnvironment h fnEnv).2 = .ok h1 ∧
      h1.envs.length = h.envs.length + 1 ∧ h1.outerOf h.envs.length = some fnEnv ∧
      (∀ (i : Nat) (p : ast.Identifier) (a : Object), params[i]? = some p →
        args[i]? = some a →
        (∀ (j : Nat) (q : ast.Identifier), i < j → params[j]? = some q → q.value ≠ p.value) →
        h1.Get h.envs.length p.value = some a) := by
  obtain ⟨h1, hb, h2, h3, _, _, _, h6⟩ := bindParameters_spec h.envs.length params args
    (NewEnclosedEnvironment h fnEnv).2 hlen (by simp [NewEnclosedEnvironment])
  refine ⟨h1, ?_, hb, ?_, ?_, h6⟩
  · simp only [extendFunctionEnv]
    simp only [NewEnclosedEnvironment] at hb ⊢
    simp [hb]
  · rw [h2]
    simp [NewEnclosedEnvironment]
  · rw [h3]
    simp [NewEnclosedEnvironment, Heap.outerOf]

/-- C14: a call of a Function value with as many arguments as parameters. The new scope
is a fresh address whose parent is the captured scope of the function; in the memory `h1`
in which the body runs, a lookup of each parameter from the new scope gives the argument
at its position (for a name that occurs again later in the list, the later one); the body
is evaluated as a block statement in the new scope, which `Eval` does with `evalBlock`;
when that yields `Return(v)` the call yields `v`, and when it yields anything else the
call yields Null. A callee given by a variable that holds the Function is called the same
way. The calls of the claim and of `TestEvaluatedFunctionCalls` are evaluated at the
end. -/
theorem call_runs_body_in_new_scope (ev : Evaluator) (fuel : Nat)
    (params : List ast.Identifier) (body : ast.BlockStatement) (fnEnv callerEnv : EnvRef)
    (args : List Object) (h : Heap) (hlen : args.length = params.length) :
    ∃ h1, extendFunctionEnv params fnEnv args h = .ok (h.envs.length, h1) ∧
      h1.outerOf h.envs.length = some fnEnv ∧
      (∀ (i : Nat) (p : ast.Identifier) (a : Object), params[i]? = some p →
        args[i]? = some a →
        (∀ (j : Nat) (q : ast.Identifier), i < j → params[j]? = some q → q.value ≠ p.value) →
        h1.Get h.envs.length p.value = some a) ∧
      (∀ (v : Object) (h2 : Heap),
        ev (.BlockStatement body) h.envs.length h1 = .ok (.Return v, h2) →
        evalFunction ev fuel (.Function params body fnEnv) args callerEnv h = .ok (v, h2)) ∧
      (∀ (o : Object) (h2 : Heap),
        ev (.BlockStatement body) h.envs.length h1 = .ok (o, h2) → o.type ≠ .ReturnType →
        evalFunction ev fuel (.Function params body fnEnv) args callerEnv h
          = .ok (NULL, h2)) ∧
      (∀ (name : Text) (old : Object),
        h.Get callerEnv name = some (.Function params body fnEnv) →
        evalFunction ev fuel (.Identifier name old) args callerEnv h
          = evalFunction ev fuel (.Function params body fnEnv) args callerEnv h) ∧
      (∀ (f : Nat) (env : EnvRef) (g : Heap),
        Eval (f + 1) (.BlockStatement body) env g = evalBlock (Eval f) body.statements env g) ∧
      evalValue latin1Only 60 "let add = fn(x) {return x + 2}; add(2)" = .ok (.Integer 4) ∧
      evalValue latin1Only 60 "let mul = fn(x, y) {return x * y}; mul(3, 3)"
        = .ok (.Integer 9) ∧
      evalValue latin1Only 60 "fn(x) { x + 2 }(1)" = .ok NULL := by
  obtain ⟨h1, hext, _, _, hout, hget⟩ :=
    extendFunctionEnv_spec params fnEnv args h (Nat.le_of_eq hlen.symm)
  refine ⟨h1, hext, hout, hget, ?_, ?_, ?_, fun f env g => rfl, by decide!, by decide!,
    by decide!⟩
  · intro v h2 hbody
    simp only [evalFunction, callFunction, hext, Res.ok_bind, hbody, Res.pure_eq]
  · intro o h2 hbody ho
    simp only [evalFunction, callFunction, hext, Res.ok_bind, hbody, Res.pure_eq]
    cases o <;> first
      | rfl
      | exact absurd rfl ho
  · intro name old hname
    simp only [evalFunction, hname]

/-- C14 at a concrete call: the function `fn(x) { return x }` captured in scope 0, called
with the argument 5 in the memory that holds scope 0 alone. The new scope is address 1, it
binds `x` to 5, the block of the body runs in scope 2 below it, and the call yields what
the body returned. -/
theorem call_runs_body_in_new_scope_witness :
    evalFunction (Eval 5) 5
        (.Function [⟨⟨.IDENT, "x"⟩, "x"⟩]
          (.mk ⟨.LBRACE, "\x7b"⟩
            [.ReturnStatement ⟨.RETURN, "return"⟩ (.Identifier ⟨⟨.IDENT, "x"⟩, "x"⟩)]) 0)
        [.Integer 5] 0 ⟨[⟨[], none⟩], [], [], [], []⟩
      = .ok (.Identifier "x" (.Integer 5),
          ⟨[⟨[], none⟩, ⟨[("x", .Integer 5)], some 0⟩, ⟨[], some 1⟩], [], [], [], []⟩) := by
  obtain ⟨h1, hext, _, _, hret, _⟩ := call_runs_body_in_new_scope (Eval 5) 5
    [⟨⟨.IDENT, "x"⟩, "x"⟩]
    (.mk ⟨.LBRACE, "\x7b"⟩
      [.ReturnStatement ⟨.RETURN, "return"⟩ (.Identifier ⟨⟨.IDENT, "x"⟩, "x"⟩)])
    0 0 [.Integer 5] ⟨[⟨[], none⟩], [], [], [], []⟩ rfl
  have hc : extendFunctionEnv [⟨⟨.IDENT, "x"⟩, "x"⟩] 0 [.Integer 5] ⟨[⟨[], none⟩], [], [], [], []⟩
      = .ok (1, ⟨[⟨[], none⟩, ⟨[("x", .Integer 5)], some 0⟩], [], [], [], []⟩) := by decide!
  rw [hc] at hext
  cases hext
  exact hret _ _ (by decide!)

/-! ## Parameters and the captured scope -/

/-- In a well-scoped memory every parent link points to a lower address. -/
theorem Heap.wellScoped_spec (h : Heap) (hw : h.wellScoped = true) (q o : EnvRef)
    (ho : h.outerOf q = some o) : o < q := by
  by_cases hq : q < h.envs.length
  · simp only [Heap.wellScoped, List.all_eq_true, List.mem_range] at hw
    have := hw q hq
    simpa [ho] using this
  · have hnone : h.envs[q]? = none := List.getElem?_eq_none (Nat.le_of_not_lt hq)
    simp [Heap.outerOf, hnone] at ho

/-- Two memories that agree below address `m` on what scopes hold for `key` and on parent
links, the links pointing downward, give a walk from below `m` the same result. -/
theorem Heap.findScope_below (h g : Heap) (key : Text) (m : Nat)
    (hm : m ≤ h.envs.length) (hmg : m ≤ g.envs.length)
    (hb : ∀ q, q < m → g.binds q key = h.binds q key)
    (ho : ∀ q, q < m → g.outerOf q = h.outerOf q)
    (hw : ∀ q o, h.outerOf q = some o → o < q) :
    ∀ (n : Nat) (cur : EnvRef), cur < m →
      g.findScope n (some cur) key = h.findScope n (some cur) key := by
  intro n
  induction n with
  | zero => intro cur _; rfl
  | succ n ih =>
    intro cur hcur
    have hbc := hb cur hcur
    have hoc := ho cur hcur
    obtain ⟨eh, hh⟩ : ∃ eh, h.envs[cur]? = some eh :=
      ⟨_, List.getElem?_eq_getElem (Nat.lt_of_lt_of_le hcur hm)⟩
    obtain ⟨eg, hg⟩ : ∃ eg, g.envs[cur]? = some eg :=
      ⟨_, List.getElem?_eq_getElem (Nat.lt_of_lt_of_le hcur hmg)⟩
    have hwc := hw cur
    simp only [Heap.binds, Heap.outerOf, hh, hg] at hbc hoc hwc
    simp only [Heap.findScope, hh, hg]
    cases hmg2 : mapGet keyEqText eg.store key with
    | some v =>
      cases hmh : mapGet keyEqText eh.store key with
      | some v2 => rfl
      | none => simp [hmg2, hmh] at hbc
    | none =>
      cases hmh : mapGet keyEqText eh.store key with
      | some v2 => simp [hmg2, hmh] at hbc
      | none =>
        simp only
        rw [hoc]
        cases hout : eh.outer with
        | none => cases n <;> rfl
        | some o => exact ih o (Nat.lt_trans (hwc o hout) hcur)

/-- With parent links pointing downward, a walk from scope `cur` needs no more than
`cur + 1` steps. -/
theorem Heap.findScope_fuel (h : Heap) (key : Text)
    (hw : ∀ q o, h.outerOf q = some o → o < q) :
    ∀ (n m : Nat) (cur : EnvRef), cur < n → cur < m →
      h.findScope n (some cur) key = h.findScope m (some cur) key := by
  intro n
  induction n with
  | zero => intro m cur hn _; exact absurd hn (Nat.not_lt_zero _)
  | succ n ih =>
    intro m cur hn hm
    obtain ⟨m, rfl⟩ : ∃ k, m = k + 1 :=
      ⟨m - 1, (Nat.sub_add_cancel (Nat.lt_of_le_of_lt (Nat.zero_le _) hm)).symm⟩
    simp only [Heap.findScope]
    cases hh : h.envs[cur]? with
    | none => rfl
    | some e =>
      simp only
      cases mapGet keyEqText e.store key with
      | some v => rfl
      | none =>
        simp only
        cases hout : e.outer with
        | none => cases n <;> cases m <;> rfl
        | some o =>
          have ho : o < cur := hw cur o (by simp [Heap.outerOf, hh, hout])
          exact ih m o (Nat.lt_of_lt_of_le ho (Nat.le_of_lt_succ hn))
            (Nat.lt_of_lt_of_le ho (Nat.le_of_lt_succ hm))

/-- A lookup that fails has found no scope. -/
theorem Heap.findScope_none_of_Get (h : Heap) (env : EnvRef) (key : Text)
    (hx : h.Get env key = none) : h.findScope h.envs.length (some env) key = none := by
  cases hf : h.findScope h.envs.length (some env) key with
  | none => rfl
  | some r =>
    have hb := (h.findScope_spec key h.envs.length (some env) r hf).1
    rw [Heap.Get, Heap.getLoop_eq_findScope, hf] at hx
    simp only [Option.some_bind] at hx
    rw [Heap.binds_eq_valueIn, hx] at hb
    cases hb

/-- What a scope holds for the key stored. -/
theorem Heap.valueIn_store (h : Heap) (r : EnvRef) (key : Text) (value : Object)
    (hr : r < h.envs.length) (q : EnvRef) :
    (h.store r key value).valueIn q key = if q = r then some value else h.valueIn q key := by
  have hs := h.store_spec r key value hr
  by_cases hq : q = r
  · subst hq
    simpa using hs.1
  · simp only [if_neg hq, Heap.valueIn, hs.2.1 q hq]

/-- The loop of `extendFunctionEnv` as seen from a name `x` that exactly one parameter
has: all that happens to the bindings of `x` is the one `Set` for that parameter, done in
a memory `g` that holds for `x` what the memory at the start held. -/
theorem bindParameters_once (e : EnvRef) (x : Text) (a : Object) :
    ∀ (params : List ast.Identifier) (args : List Object) (h0 : Heap) (i : Nat)
      (p : ast.Identifier), params.length ≤ args.length → e < h0.envs.length →
      params[i]? = some p → p.value = x → args[i]? = some a →
      (∀ (j : Nat) (q : ast.Identifier), j ≠ i → params[j]? = some q → q.value ≠ x) →
      ∃ g g1 : Heap, bindParameters e params args h0 = .ok g1 ∧
        g.envs.length = h0.envs.length ∧ (∀ q, g.outerOf q = h0.outerOf q) ∧
        (∀ q, g.valueIn q x = h0.valueIn q x) ∧
        g1.envs.length = h0.envs.length ∧ (∀ q, g1.outerOf q = h0.outerOf q) ∧
        (∀ q, g1.valueIn q x = (g.Set e x a).valueIn q x) := by
  intro params
  induction params with
  | nil => intro args h0 i p _ _ hp; simp at hp
  | cons p0 ps ih =>
    intro args h0 i p hlen he hp hpx ha honce
    cases args with
    | nil => simp at hlen
    | cons a0 as =>
      obtain ⟨f1, f2, f3, _, _⟩ := h0.Set_frame e p0.value a0
      cases i with
      | zero =>
        simp only [List.getElem?_cons_zero, Option.some.injEq] at hp ha
        subst hp
        subst ha
        subst hpx
        obtain ⟨g1, hb, h1, h2, _, _, h5, _⟩ := bindParameters_spec e ps as
          (h0.Set e p0.value a0) (by simpa using hlen) (by rw [f1]; exact he)
        have hfree : ∀ q ∈ ps, q.value ≠ p0.value := by
          intro q hq
          obtain ⟨j, hj, hjq⟩ := List.getElem_of_mem hq
          exact honce (j + 1) q (Nat.succ_ne_zero j)
            (by simp [List.getElem?_eq_getElem hj, hjq])
        exact ⟨h0, g1, by rw [bindParameters, hb], rfl, fun _ => rfl, fun _ => rfl,
          by rw [h1, f1], fun q => by rw [h2, f2], h5 p0.value hfree⟩
      | succ i =>
        simp only [List.getElem?_cons_succ] at hp ha
        have hne : x ≠ p0.value := Ne.symm (honce 0 p0 (Nat.succ_ne_zero i).symm (by simp))
        obtain ⟨g, g1, hb, r1, r2, r3, r4, r5, r6⟩ := ih as (h0.Set e p0.value a0) i p
          (by simpa using hlen) (by rw [f1]; exact he) hp hpx ha
          (fun j q hj hq => honce (j + 1) q (by omega) (by simpa using hq))
        exact ⟨g, g1, by rw [bindParameters, hb], by rw [r1, f1], fun q => by rw [r2, f2],
          fun q => by rw [r3, f3 x hne], by rw [r4, f1], fun q => by rw [r5, f2], r6⟩

/-- A walk passes a scope that holds nothing for the key. -/
theorem Heap.findScope_skip (h : Heap) (c : EnvRef) (key : Text) (n : Nat)
    (hc : c < h.envs.length) (hv : h.valueIn c key = none) :
    h.findScope (n + 1) (some c) key = h.findScope n (h.outerOf c) key := by
  obtain ⟨e, he⟩ : ∃ e, h.envs[c]? = some e := ⟨_, List.getElem?_eq_getElem hc⟩
  simp only [Heap.valueIn, he] at hv
  simp only [Heap.findScope, Heap.outerOf, he, hv]

/-- The memory in which the body of a called function starts, as seen from a name `x` that
exactly one parameter has, `a` being its argument: when the captured chain binds `x`, its
innermost scope `s` that does now holds `a`, the new scope holds nothing for `x`, and a
lookup from the captured scope gives `a`; when the captured chain does not bind `x`, the
new scope holds `a` and a lookup from the captured scope still fails. -/
theorem extendFunctionEnv_binds (params : List ast.Identifier) (args : List Object)
    (fnEnv : EnvRef) (h : Heap) (i : Nat) (p : ast.Identifier) (a : Object)
    (hw : h.wellScoped = true) (hfn : fnEnv < h.envs.length)
    (hlen : params.length ≤ args.length) (hp : params[i]? = some p) (ha : args[i]? = some a)
    (honce : ∀ (j : Nat) (q : ast.Identifier), j ≠ i → params[j]? = some q →
      q.value ≠ p.value) :
    ∃ h1, extendFunctionEnv params fnEnv args h = .ok (h.envs.length, h1) ∧
      (∀ s, h.findScope h.envs.length (some fnEnv) p.value = some s →
        h1.valueIn s p.value = some a ∧ h1.valueIn h.envs.length p.value = none ∧
        h1.Get fnEnv p.value = some a) ∧
      (h.findScope h.envs.length (some fnEnv) p.value = none →
        h1.valueIn h.envs.length p.value = some a ∧ h1.Get fnEnv p.value = none) := by
  have hws := h.wellScoped_spec hw
  have hbelow : ∀ q, q < h.envs.length →
      (NewEnclosedEnvironment h fnEnv).2.envs[q]? = h.envs[q]? := by
    intro q hq
    simp [NewEnclosedEnvironment, List.getElem?_append_left hq]
  have hnew : (NewEnclosedEnvironment h fnEnv).2.envs[h.envs.length]?
      = some ⟨[], some fnEnv⟩ := by
    simp [NewEnclosedEnvironment]
  have hlen0 : (NewEnclosedEnvironment h fnEnv).2.envs.length = h.envs.length + 1 := by
    simp [NewEnclosedEnvironment]
  obtain ⟨g, g1, hb, r1, r2, r3, r4, r5, r6⟩ := bindParameters_once h.envs.length p.value a
    params args (NewEnclosedEnvironment h fnEnv).2 i p hlen (by rw [hlen0]; exact Nat.lt_succ_self _)
    hp rfl ha honce
  rw [hlen0] at r1 r4
  have hgv : ∀ q, q < h.envs.length → g.valueIn q p.value = h.valueIn q p.value := by
    intro q hq
    rw [r3, Heap.valueIn, Heap.valueIn, hbelow q hq]
  have hgo : ∀ q, q < h.envs.length → g.outerOf q = h.outerOf q := by
    intro q hq
    rw [r2, Heap.outerOf, Heap.outerOf, hbelow q hq]
  have hge : g.valueIn h.envs.length p.value = none := by
    rw [r3, Heap.valueIn, hnew]
    rfl
  have hgouter : g.outerOf h.envs.length = some fnEnv := by
    rw [r2, Heap.outerOf, hnew]
  have hfind : g.findScope g.envs.length (some h.envs.length) p.value
      = h.findScope h.envs.length (some fnEnv) p.value := by
    rw [r1, Heap.findScope_skip g _ _ _ (by rw [r1]; exact Nat.lt_succ_self _) hge, hgouter]
    exact Heap.findScope_below h g p.value h.envs.length (Nat.le_refl _)
      (by rw [r1]; exact Nat.le_succ _)
      (fun q hq => by rw [Heap.binds_eq_valueIn, Heap.binds_eq_valueIn, hgv q hq]) hgo hws _ _ hfn
  have hext : extendFunctionEnv params fnEnv args h = .ok (h.envs.length, g1) := by
    simp only [extendFunctionEnv]
    simp only [NewEnclosedEnvironment] at hb ⊢
    simp [hb]
  have hget : ∀ s' : Option EnvRef,
      (∀ q, q < h.envs.length → g1.binds q p.value = h.binds q p.value) →
      h.findScope h.envs.length (some fnEnv) p.value = s' →
      g1.Get fnEnv p.value = s'.bind (fun r => g1.valueIn r p.value) := by
    intro s' hbinds hs'
    rw [Heap.Get, Heap.getLoop_eq_findScope, r4,
      Heap.findScope_below h g1 p.value h.envs.length (Nat.le_refl _)
        (by rw [r4]; exact Nat.le_succ _) hbinds
        (fun q hq => by rw [r5, Heap.outerOf, Heap.outerOf, hbelow q hq]) hws _ _ hfn,
      Heap.findScope_fuel h p.value hws (h.envs.length + 1) h.envs.length fnEnv
        (Nat.lt_succ_of_lt hfn) hfn, hs']
  refine ⟨g1, hext, ?_, ?_⟩
  · intro s hs
    have hsb := (h.findScope_spec p.value h.envs.length (some fnEnv) s hs).1
    have hslt : s < h.envs.length := by
      by_contra hlt
      simp [Heap.binds, List.getElem?_eq_none (Nat.le_of_not_lt hlt)] at hsb
    have hset : g.Set h.envs.length p.value a = g.store s p.value a :=
      g.Set_of_found _ s _ _ (by rw [hfind]; exact hs)
    have hval : ∀ q, g1.valueIn q p.value = if q = s then some a else g.valueIn q p.value := by
      intro q
      rw [r6, hset]
      exact g.valueIn_store s p.value a (by rw [r1]; exact Nat.lt_succ_of_lt hslt) q
    have hvs : g1.valueIn s p.value = some a := by rw [hval, if_pos rfl]
    refine ⟨hvs, ?_, ?_⟩
    · rw [hval, if_neg (Nat.ne_of_gt hslt)]
      exact hge
    · rw [hget (some s) ?_ hs]
      · simpa using hvs
      · intro q hq
        rw [Heap.binds_eq_valueIn, Heap.binds_eq_valueIn, hval]
        by_cases hqs : q = s
        · subst hqs
          rw [if_pos rfl, ← Heap.binds_eq_valueIn, hsb]
          rfl
        · rw [if_neg hqs, hgv q hq]
  · intro hs
    have hset : g.Set h.envs.length p.value a = g.store h.envs.length p.value a :=
      g.Set_of_not_found _ _ _ (by rw [hfind]; exact hs)
    have hval : ∀ q, g1.valueIn q p.value
        = if q = h.envs.length then some a else g.valueIn q p.value := by
      intro q
      rw [r6, hset]
      exact g.valueIn_store _ p.value a (by rw [r1]; exact Nat.lt_succ_self _) q
    refine ⟨by rw [hval, if_pos rfl], ?_⟩
    rw [hget none ?_ hs]
    · rfl
    · intro q hq
      rw [Heap.binds_eq_valueIn, Heap.binds_eq_valueIn, hval, if_neg (Nat.ne_of_lt hq),
        hgv q hq]

/-- C16 fails as stated: the program of the claim yields 5, not 1. In the memory with the
one scope 0 that binds `x` to 1, binding the parameter `x` of a function captured in
scope 0 to the argument 5 leaves the new scope 1 empty and changes the binding in scope
0 to 5. -/
theorem parameter_overwrites_captured_binding :
    evalValue latin1Only 60 "let x = 1; let f = fn(x) { return x }; f(5); x"
      = .ok (.Integer 5) ∧
    extendFunctionEnv [⟨⟨.IDENT, "x"⟩, "x"⟩] 0 [.Integer 5]
        ⟨[⟨[("x", .Integer 1)], none⟩], [], [], [], []⟩
      = .ok (1, ⟨[⟨[("x", .Integer 5)], none⟩, ⟨[], some 0⟩], [], [], [], []⟩) := by
  refine ⟨by decide!, by decide!⟩

/-- C16 as amended: parameters are bound with `Set` on the new call scope, which looks for
the name on the chain first. For a function called with at least as many arguments as
parameters, in a memory whose parent links point to older scopes, and a name `x` that
exactly one parameter has, with argument `a`: when the captured chain binds `x` to `v0`,
its innermost scope `s` that binds `x` holds `a` in the memory `h1` in which the body
starts, the new call scope holds no binding of `x`, and a lookup of `x` from the captured
scope and from the call scope gives `a`. The program of the claim is evaluated at the
end. -/
theorem parameter_binds_through_Set (params : List ast.Identifier) (args : List Object)
    (fnEnv : EnvRef) (h : Heap) (i : Nat) (p : ast.Identifier) (a v0 : Object)
    (hw : h.wellScoped = true) (hfn : fnEnv < h.envs.length)
    (hlen : params.length ≤ args.length) (hp : params[i]? = some p) (ha : args[i]? = some a)
    (honce : ∀ (j : Nat) (q : ast.Identifier), j ≠ i → params[j]? = some q →
      q.value ≠ p.value)
    (hbound : h.Get fnEnv p.value = some v0) :
    (∃ h1 s, extendFunctionEnv params fnEnv args h = .ok (h.envs.length, h1) ∧
      h.findScope h.envs.length (some fnEnv) p.value = some s ∧
      h.valueIn s p.value = some v0 ∧ h1.valueIn s p.value = some a ∧
      h1.valueIn h.envs.length p.value = none ∧ h1.Get fnEnv p.value = some a ∧
      h1.Get h.envs.length p.value = some a) ∧
    evalValue latin1Only 60 "let x = 1; let f = fn(x) { return x }; f(5); x"
      = .ok (.Integer 5) := by
  refine ⟨?_, by decide!⟩
  obtain ⟨s, hs⟩ := h.findScope_of_Get fnEnv p.value (by rw [hbound]; simp)
  obtain ⟨h1, hext, hfound, _⟩ :=
    extendFunctionEnv_binds params args fnEnv h i p a hw hfn hlen hp ha honce
  obtain ⟨h2, h3, h4⟩ := hfound s hs
  refine ⟨h1, s, hext, hs, ?_, h2, h3, h4, ?_⟩
  · rw [Heap.Get, Heap.getLoop_eq_findScope, hs] at hbound
    simpa using hbound
  · obtain ⟨h1', hext', _, _, _, hget⟩ := extendFunctionEnv_spec params fnEnv args h hlen
    rw [hext] at hext'
    cases hext'
    exact hget i p a hp ha (fun j q hj hq => honce j q (Nat.ne_of_gt hj) hq)

/-- C16 as amended, at a concrete call: scope 0 binds `x` to 1, and the function with the
parameter `x` captured in scope 0 is called with the argument 5. -/
theorem parameter_binds_through_Set_witness :
    extendFunctionEnv [⟨⟨.IDENT, "x"⟩, "x"⟩] 0 [.Integer 5]
        ⟨[⟨[("x", .Integer 1)], none⟩], [], [], [], []⟩
      = .ok (1, ⟨[⟨[("x", .Integer 5)], none⟩, ⟨[], some 0⟩], [], [], [], []⟩) ∧
    Heap.Get ⟨[⟨[("x", .Integer 5)], none⟩, ⟨[], some 0⟩], [], [], [], []⟩ 0 "x"
      = some (.Integer 5) ∧
    Heap.valueIn ⟨[⟨[("x", .Integer 5)], none⟩, ⟨[], some 0⟩], [], [], [], []⟩ 1 "x" = none := by
  obtain ⟨h1, s, hext, _, _, _, hnew, hget, _⟩ :=
    (parameter_binds_through_Set [⟨⟨.IDENT, "x"⟩, "x"⟩] [.Integer 5] 0
      ⟨[⟨[("x", .Integer 1)], none⟩], [], [], [], []⟩ 0 ⟨⟨.IDENT, "x"⟩, "x"⟩ (.Integer 5)
      (.Integer 1) (by decide!) (by decide!) (by decide!) (by decide!) (by decide!)
      (fun j q hj hq => by
        cases j with
        | zero => exact absurd rfl hj
        | succ j => simp at hq)
      (by decide!)).1
  have hc : extendFunctionEnv [⟨⟨.IDENT, "x"⟩, "x"⟩] 0 [.Integer 5]
      ⟨[⟨[("x", .Integer 1)], none⟩], [], [], [], []⟩
      = .ok (1, ⟨[⟨[("x", .Integer 5)], none⟩, ⟨[], some 0⟩], [], [], [], []⟩) := by decide!
  rw [hc] at hext
  cases hext
  exact ⟨hc, hget, hnew⟩

/-! ## Equality of composite values, hash literals and parameter lists -/

/-- C24 on the code: `==` and `!=` compare the two operands with Go's `==` on interface
values, which panics when both hold the same uncomparable type. Comparing two arrays, two
hash tables or two functions panics, for `==` and for `!=`; an array and a hash table,
being of different types, compare unequal without a panic. -/
theorem composite_equality_panics :
    evalValue latin1Only 60 "[1] == [1]"
      = .panic "runtime error: comparing uncomparable type" ∧
    evalValue latin1Only 60 "[1] != [1]"
      = .panic "runtime error: comparing uncomparable type" ∧
    evalValue latin1Only 60 "\x7b\x7d == \x7b\x7d"
      = .panic "runtime error: comparing uncomparable type" ∧
    evalValue latin1Only 60 "fn(x) \x7bx\x7d == fn(x) \x7bx\x7d"
      = .panic "runtime error: comparing uncomparable type" ∧
    evalValue latin1Only 60 "[1] == \x7b\x7d" = .ok FALSE := by
  refine ⟨by decide!, by decide!, by decide!, by decide!, by decide!⟩

/-- C28 on the code: `evalHashTable` takes the text of a key from a string literal or from
an identifier bound to a String, and has no case for any other key expression, whose key
is then the empty string. With `x` and `y` bound to Integers, the literal with the key
`x + y` yields a hash table with the one key "" and no Error, and so does the key
`"a" + "b"`, which evaluates to a String. The literal of the tests yields the table
expected there, and an identifier bound to an Integer yields the Error. -/
theorem hash_key_expression_replaced :
    evalSource latin1Only 60 "let x = 1; let y = 2; \x7bx + y: 3\x7d"
      = .ok (.HashTable 0,
          ⟨[⟨[("x", .Integer 1), ("y", .Integer 2)], none⟩], [], [[("", .Integer 3)]], [], []⟩) ∧
    evalSource latin1Only 60 "\x7b\"a\" + \"b\": 3\x7d"
      = .ok (.HashTable 0, ⟨[⟨[], none⟩], [], [[("", .Integer 3)]], [], []⟩) ∧
    evalSource latin1Only 60
        "let hello = \"variable\"; \x7bhello: 1 + 1 * 100, \"world\": 2\x7d"
      = .ok (.HashTable 0,
          ⟨[⟨[("hello", .String "variable")], none⟩], [],
            [[("variable", .Integer 101), ("world", .Integer 2)]], [], []⟩) ∧
    evalValue latin1Only 60 "let x = 1; \x7bx: 2\x7d"
      = .ok (.Error "keys in hash tables must be strings: got IDENT") := by
  refine ⟨by decide!, by decide!, by decide!, by decide!⟩

/-- C29 on the code: when the token at a key position is neither an identifier nor a
string, `parseHashTable` returns nil without recording an error. For the input `{1` the
program parses to a statement without expression followed by the statement `1`, and the
error list is empty. For `{1: 2}` the hash literal is again nil; the two errors in the list
come from the statements parsed after it, at the tokens `:` and `}`. -/
theorem hash_key_token_unreported :
    parseSource latin1Only 40 "\x7b1"
      = .ok ([.ExpressionStatement { type := .LBRACE, literal := "\x7b" } .nil,
              .ExpressionStatement (intToken 1) (intLeaf 1)], []) ∧
    parseSource latin1Only 40 "\x7b1: 2\x7d"
      = .ok ([.ExpressionStatement { type := .LBRACE, literal := "\x7b" } .nil,
              .ExpressionStatement (intToken 1) (intLeaf 1),
              .ExpressionStatement { type := .COLON, literal := ":" } .nil,
              .ExpressionStatement (intToken 2) (intLeaf 2),
              .ExpressionStatement { type := .RBRACE, literal := "\x7d" } .nil],
             [parseFnNotImplemented .COLON, parseFnNotImplemented .RBRACE]) := by
  refine ⟨by decide!, by decide!⟩

/-- C30 on the code: `parseFunctionParameters` makes a parameter of the current token
whatever its type. `fn(1, 2) { }` parses to a Function node with the two parameters `1`
and `2`, made from integer tokens, and no error is recorded. The functions of the tests
have the parameters `y, x, z` and none. -/
theorem parameter_token_unchecked :
    parseSource latin1Only 40 "fn(1, 2) \x7b \x7d"
      = .ok ([.ExpressionStatement { type := .FUNCTION, literal := "fn" }
          (.Function { type := .FUNCTION, literal := "fn" }
            [{ token := intToken 1, value := "1" }, { token := intToken 2, value := "2" }]
            (.mk { type := .LBRACE, literal := "\x7b" } []))], []) ∧
    parseSource latin1Only 40 "fn(y, x, z) \x7b y - x \x7d"
      = .ok ([.ExpressionStatement { type := .FUNCTION, literal := "fn" }
          (.Function { type := .FUNCTION, literal := "fn" }
            [{ token := identToken "y", value := "y" }, { token := identToken "x", value := "x" },
             { token := identToken "z", value := "z" }]
            (singleBlock (identToken "y")
              (infixNode .MINUS (identLeaf "y") (identLeaf "x"))))], []) ∧
    parseSource latin1Only 40 "fn() \x7b 1 - 2 \x7d"
      = .ok ([.ExpressionStatement { type := .FUNCTION, literal := "fn" }
          (.Function { type := .FUNCTION, literal := "fn" } []
            (singleBlock (intToken 1) (infixNode .MINUS (intLeaf 1) (intLeaf 2))))], []) := by
  refine ⟨by decide!, by decide!, by decide!⟩

/-! ## Operators on plain values -/

/-- The result of wrapping lies in the range of a 64-bit `int` and differs from the
argument by a multiple of `2^64`. -/
theorem wrap64_spec (x : Int) :
    -9223372036854775808 ≤ wrap64 x ∧ wrap64 x < 9223372036854775808 ∧
    (x - wrap64 x) % 18446744073709551616 = 0 := by
  unfold wrap64
  omega

/-- Wrapping leaves a value in the range of a 64-bit `int` as it is. -/
theorem wrap64_of_range (x : Int) (h1 : -9223372036854775808 ≤ x)
    (h2 : x < 9223372036854775808) : wrap64 x = x := by
  unfold wrap64
  omega

/-- C23: `evalInfix` on two Integers, for all values `a` and `b`. `+`, `-` and `*` yield
sum, difference and product wrapped into the signed 64-bit range (`wrap64`, whose result
lies in the range and differs from its argument by a multiple of `2^64`, and which leaves
a value in the range as it is); for `b != 0`, `/` yields the quotient truncated toward
zero (`Int.tdiv`: its magnitude is the quotient of the magnitudes, rounded down), wrapped
as well; `<`, `>`, `==` and `!=` yield the Boolean of the comparison; `/` with divisor 0
panics, so no value is produced. The inputs of `TestEvaluatedIntegers` and the quotient of
the claim are evaluated at the end. -/
theorem integer_infix_is_machine_arithmetic (a b : Int) (env : EnvRef) (h : Heap) :
    evalInfix "+" (.Integer a) (.Integer b) env h = .ok (.Integer (wrap64 (a + b)), h) ∧
    evalInfix "-" (.Integer a) (.Integer b) env h = .ok (.Integer (wrap64 (a - b)), h) ∧
    evalInfix "*" (.Integer a) (.Integer b) env h = .ok (.Integer (wrap64 (a * b)), h) ∧
    (b ≠ 0 → evalInfix "/" (.Integer a) (.Integer b) env h
      = .ok (.Integer (wrap64 (Int.tdiv a b)), h)) ∧
    evalInfix "/" (.Integer a) (.Integer 0) env h
      = .panic "runtime error: integer divide by zero" ∧
    evalInfix "<" (.Integer a) (.Integer b) env h = .ok (.Boolean (decide (a < b)), h) ∧
    evalInfix ">" (.Integer a) (.Integer b) env h = .ok (.Boolean (decide (a > b)), h) ∧
    evalInfix "==" (.Integer a) (.Integer b) env h = .ok (.Boolean (decide (a = b)), h) ∧
    evalInfix "!=" (.Integer a) (.Integer b) env h = .ok (.Boolean (decide (a ≠ b)), h) ∧
    (∀ x : Int, -9223372036854775808 ≤ wrap64 x ∧ wrap64 x < 9223372036854775808 ∧
      (x - wrap64 x) % 18446744073709551616 = 0) ∧
    (∀ x : Int, -9223372036854775808 ≤ x → x < 9223372036854775808 → wrap64 x = x) ∧
    (Int.tdiv a b).natAbs = a.natAbs / b.natAbs ∧
    b * Int.tdiv a b + Int.tmod a b = a ∧
    evalValue latin1Only 60 "-7 / 2" = .ok (.Integer (-3)) ∧
    evalValue latin1Only 60 "7 / -2" = .ok (.Integer (-3)) ∧
    evalValue latin1Only 60 "11 * 5" = .ok (.Integer 55) ∧
    evalValue latin1Only 60 "0 - 10" = .ok (.Integer (-10)) ∧
    evalValue latin1Only 60 "(1 + 2) * 4" = .ok (.Integer 12) ∧
    evalValue latin1Only 60 "9223372036854775807 + 1"
      = .ok (.Integer (-9223372036854775808)) ∧
    evalValue latin1Only 60 "1 / 0" = .panic "runtime error: integer divide by zero" := by
  refine ⟨?_, ?_, ?_, ?_, ?_, ?_, ?_, ?_, ?_, wrap64_spec, wrap64_of_range,
    Int.natAbs_tdiv a b, Int.tdiv_add_tmod a b, by decide!, by decide!, by decide!, by decide!,
    by decide!, by decide!, by decide!⟩
  · simp [evalInfix, evalInfixAux, evalIntegerInfixOperators, Object.wrappers]
  · simp [evalInfix, evalInfixAux, evalIntegerInfixOperators, Object.wrappers]
  · simp [evalInfix, evalInfixAux, evalIntegerInfixOperators, Object.wrappers]
  · intro hb
    simp [evalInfix, evalInfixAux, evalIntegerInfixOperators, Object.wrappers, hb]
  · simp [evalInfix, evalInfixAux, evalIntegerInfixOperators, Object.wrappers]
  · by_cases hc : a < b <;>
      simp [evalInfix, evalInfixAux, evalIntegerInfixOperators, Object.wrappers,
        nativeBoolToObject, TRUE, FALSE, hc]
  · by_cases hc : b < a <;>
      simp [evalInfix, evalInfixAux, evalIntegerInfixOperators, Object.wrappers,
        nativeBoolToObject, TRUE, FALSE, hc]
  · by_cases hc : a = b <;>
      simp [evalInfix, evalInfixAux, evalIntegerInfixOperators, Object.wrappers,
        nativeBoolToObject, TRUE, FALSE, hc]
  · by_cases hc : a = b <;>
      simp [evalInfix, evalInfixAux, evalIntegerInfixOperators, Object.wrappers,
        nativeBoolToObject, TRUE, FALSE, hc]

/-- C22: the prefix operators. `!` yields false on the Boolean true, true on the Boolean
false, and false on Null and on every value that is no Boolean, every Integer among them;
`-` yields on `Integer(n)` the Integer of `-n` as a 64-bit `int` (which is `-n` itself
unless `n` is the least value of the range) and on a value of any other type `T` the Error
"unknown operator: -T". The inputs of `TestEvaluatedBangs` and `-true` are evaluated at
the end. -/
theorem prefix_operators_on_values :
    evalPrefix "!" (.Boolean true) = .Boolean false ∧
    evalPrefix "!" (.Boolean false) = .Boolean true ∧
    evalPrefix "!" .Null = .Boolean false ∧
    (∀ o : Object, o.type ≠ .BooleanType → evalPrefix "!" o = .Boolean false) ∧
    (∀ n : Int, evalPrefix "!" (.Integer n) = .Boolean false) ∧
    (∀ n : Int, evalPrefix "-" (.Integer n) = .Integer (wrap64 (-n))) ∧
    (∀ n : Int, -9223372036854775808 < n → n < 9223372036854775808 →
      evalPrefix "-" (.Integer n) = .Integer (-n)) ∧
    (∀ o : Object, o.type ≠ .IntegerType →
      evalPrefix "-" o = .Error ("unknown operator: -" ++ o.type.str)) ∧
    evalValue latin1Only 60 "!true" = .ok (.Boolean false) ∧
    evalValue latin1Only 60 "!false" = .ok (.Boolean true) ∧
    evalValue latin1Only 60 "!5" = .ok (.Boolean false) ∧
    evalValue latin1Only 60 "!!5" = .ok (.Boolean true) ∧
    evalValue latin1Only 60 "!!!5" = .ok (.Boolean false) ∧
    evalValue latin1Only 60 "-5" = .ok (.Integer (-5)) ∧
    evalValue latin1Only 60 "-true" = .ok (.Error "unknown operator: -BOOLEAN") := by
  refine ⟨rfl, rfl, rfl, ?_, fun n => rfl, fun n => rfl, ?_, ?_, by decide!, by decide!,
    by decide!, by decide!, by decide!, by decide!, by decide!⟩
  · intro o ho
    cases o <;> first
      | rfl
      | exact absurd rfl ho
  · intro n h1 h2
    have : wrap64 (-n) = -n := wrap64_of_range (-n) (by omega) (by omega)
    simp [evalPrefix, evalMinusOperator, this]
  · intro o ho
    cases o <;> first
      | rfl
      | exact absurd rfl ho

/-- C21: `evalInfix` with an operator among `+ - * / < >` on two plain values (neither is
an Identifier or an index-access wrapper). When the types differ the result is the Error
"type mismatch: L op R" with the two type names; when the types are equal and the type has
no such operator (any type but Integer, and for String the operators `- * /`) the result
is the Error "unknown operator: T op T". Two Strings support `+`, `<` and `>`. The memory
is left as it was. The inputs of `TestEvaluatedErrors` are evaluated at the end. -/
theorem infix_errors_on_plain_values (op : Text) (l r : Object) (env : EnvRef) (h : Heap)
    (hop : op ∈ ["+", "-", "*", "/", "<", ">"]) (hl : l.wrappers = 0) (hr : r.wrappers = 0) :
    (l.type ≠ r.type →
      evalInfix op l r env h
        = .ok (.Error ("type mismatch: " ++ l.type.str ++ " " ++ op ++ " " ++ r.type.str), h)) ∧
    (l.type = r.type → l.type ≠ .IntegerType →
      (l.type = .StringType → op ∈ ["-", "*", "/"]) →
      evalInfix op l r env h
        = .ok (.Error ("unknown operator: " ++ l.type.str ++ " " ++ op ++ " " ++ r.type.str),
            h)) ∧
    (∀ a b : Text, evalInfix "+" (.String a) (.String b) env h = .ok (.String (a ++ b), h) ∧
      evalInfix "<" (.String a) (.String b) env h = .ok (.Boolean (lessText a b), h) ∧
      evalInfix ">" (.String a) (.String b) env h = .ok (.Boolean (lessText b a), h)) ∧
    evalValue latin1Only 60 "5 + true" = .ok (.Error "type mismatch: INTEGER + BOOLEAN") ∧
    evalValue latin1Only 60 "true + false"
      = .ok (.Error "unknown operator: BOOLEAN + BOOLEAN") ∧
    evalValue latin1Only 60 "\"a\" - \"b\""
      = .ok (.Error "unknown operator: STRING - STRING") ∧
    evalValue latin1Only 60 "[1] < 2" = .ok (.Error "type mismatch: ARRAY < INTEGER") := by
  have h1 : op ≠ "==" := by
    intro hc
    subst hc
    simp at hop
  have h2 : op ≠ "!=" := by
    intro hc
    subst hc
    simp at hop
  have h3 : op ≠ "=" := by
    intro hc
    subst hc
    simp at hop
  refine ⟨?_, ?_, ?_, by decide!, by decide!, by decide!, by decide!⟩
  · intro hne
    cases l <;> cases r <;>
      first
      | exact absurd rfl hne
      | exact absurd hl (Nat.succ_ne_zero _)
      | exact absurd hr (Nat.succ_ne_zero _)
      | simp [evalInfix, evalInfixAux, Object.wrappers, h1, h2, h3, Object.type, newError]
  · intro heq hint hstr
    cases l <;> cases r <;>
      first
      | exact absurd rfl hint
      | exact absurd hl (Nat.succ_ne_zero _)
      | exact absurd hr (Nat.succ_ne_zero _)
      | (simp [Object.type] at heq; done)
      | skip
    case String.String a b =>
      have hs := hstr rfl
      simp only [List.mem_cons, List.mem_singleton, List.not_mem_nil, or_false] at hs
      rcases hs with rfl | rfl | rfl <;>
        simp +decide [evalInfix, evalInfixAux, Object.wrappers, evalStringInfixOperators,
          Object.type, newError, object.ObjectType.str]
    all_goals
      simp [evalInfix, evalInfixAux, Object.wrappers, h1, h2, h3, Object.type, newError]
  · intro a b
    refine ⟨?_, ?_, ?_⟩
    · simp +decide [evalInfix, evalInfixAux, Object.wrappers, evalStringInfixOperators]
    · cases hc : lessText a b <;>
        simp +decide [evalInfix, evalInfixAux, Object.wrappers, evalStringInfixOperators,
          nativeBoolToObject, TRUE, FALSE, hc]
    · cases hc : lessText b a <;>
        simp +decide [evalInfix, evalInfixAux, Object.wrappers, evalStringInfixOperators,
          nativeBoolToObject, TRUE, FALSE, hc]

/-- C21 at a concrete input: the operands of `5 + true`. -/
theorem infix_errors_on_plain_values_witness :
    evalInfix "+" (.Integer 5) (.Boolean true) 0 Heap.empty
      = .ok (.Error "type mismatch: INTEGER + BOOLEAN", Heap.empty) :=
  (infix_errors_on_plain_values "+" (.Integer 5) (.Boolean true) 0 Heap.empty (by decide) rfl
    rfl).1 (by decide)

/-! ## Built-in functions -/

/-- The UTF-8 encoding of an ASCII rune is one byte. -/
theorem utf8Size_of_ascii (c : Char) (hc : c.toNat < 128) : c.utf8Size = 1 := by
  have hv : c.val ≤ 127 := by
    rw [UInt32.le_def]
    show c.val.toNat ≤ 127
    have : c.toNat = c.val.toNat := rfl
    omega
  simp [Char.utf8Size, hv]

/-- The number of bytes of a text is the sum of the sizes of its runes. -/
theorem utf8ByteSize_eq_byteLen (s : Text) : s.utf8ByteSize = byteLen s.data := by
  obtain ⟨l⟩ := s
  show String.utf8ByteSize.go l = byteLen l
  induction l with
  | nil => rfl
  | cons c cs ih =>
    show String.utf8ByteSize.go cs + c.utf8Size = c.utf8Size + byteLen cs
    rw [ih, Nat.add_comm]

/-- A text has at least as many bytes as runes, and as many when it is ASCII. -/
theorem byteLen_vs_length (l : List Char) :
    l.length ≤ byteLen l ∧ ((∀ c ∈ l, c.toNat < 128) → byteLen l = l.length) := by
  induction l with
  | nil => exact ⟨Nat.le_refl _, fun _ => rfl⟩
  | cons c cs ih =>
    have hpos := Char.utf8Size_pos c
    refine ⟨?_, ?_⟩
    · simp only [byteLen, List.length_cons]
      omega
    · intro hall
      have h1 := utf8Size_of_ascii c (hall c (List.mem_cons_self _ _))
      have h2 := ih.2 (fun x hx => hall x (List.mem_cons_of_mem _ hx))
      simp only [byteLen, List.length_cons, h1, h2]
      omega

/-- Built-in `len` on a variable is `len` on its value. -/
theorem builtinLenOf_bare (h : Heap) :
    ∀ o : Object, builtinLenOf h o = builtinLenOf h o.bare := by
  intro o
  induction o with
  | Identifier n v ih => rw [builtinLenOf, Object.bare, ih]
  | _ => rfl

/-- A call of a name that no scope binds and that names a built-in function runs the
native function on the arguments. -/
theorem evalFunction_builtin (ev : Evaluator) (fuel : Nat) (name : Text) (old : Object)
    (b : object.BuiltinFunction) (args : List Object) (env : EnvRef) (h : Heap)
    (hfree : h.Get env name = none) (hb : builtins name = some b) :
    evalFunction ev fuel (.Identifier name old) args env h = applyBuiltin fuel b args h := by
  simp only [evalFunction, hfree, hb]

/-- C25: built-in `len` checks its arguments itself. With a number of arguments `k != 1`
it returns the Error "wrong number of arguments: got=k, want=1"; with the one argument an
Array it returns the Integer of the length of its slice, which is the number of its items;
with one argument whose value is of a type `T` other than String and Array it returns the
Error "argument type is not supported: got T"; an Identifier wrapper as argument counts as
its value; and for every one argument the call returns a value (no panic). A call
`len(...)` in a scope chain that does not bind `len` reaches this function and leaves the
memory as it was. The calls of `TestEvaluatedBuiltinFunctions` are evaluated at the end. -/
theorem builtin_len_validates (ev : Evaluator) (fuel : Nat) (old : Object) (args : List Object)
    (env : EnvRef) (h : Heap) (hfree : h.Get env "len" = none) :
    (evalFunction ev fuel (.Identifier "len" old) args env h
      = (builtinLen h args >>= fun r => .ok (r, h))) ∧
    (args.length ≠ 1 → builtinLen h args
      = .ok (.Error ("wrong number of arguments: got=" ++ toString args.length ++ ", want=1"))) ∧
    (∀ s : Slice, builtinLen h [.Array s] = .ok (.Integer s.len)) ∧
    (∀ (s : Slice) (b : Backing) (items : List Object), h.arrays[s.array]? = some b →
      s.len ≤ b.cells.length → h.items s = some items →
      builtinLen h [.Array s] = .ok (.Integer items.length)) ∧
    (∀ o : Object, o.bare.type ≠ .StringType → o.bare.type ≠ .ArrayType →
      builtinLen h [o]
        = .ok (.Error ("argument type is not supported: got " ++ o.bare.type.str))) ∧
    (∀ (name : Text) (v : Object), builtinLen h [.Identifier name v] = builtinLen h [v]) ∧
    (∀ o : Object, ∃ r, builtinLen h [o] = .ok r) ∧
    evalValue latin1Only 60 "len([1, 2, 3, 4])" = .ok (.Integer 4) ∧
    evalValue latin1Only 60 "len(1)"
      = .ok (.Error "argument type is not supported: got INTEGER") ∧
    evalValue latin1Only 60 "len(\"four\", \"three\")"
      = .ok (.Error "wrong number of arguments: got=2, want=1") ∧
    evalValue latin1Only 60 "len()"
      = .ok (.Error "wrong number of arguments: got=0, want=1") ∧
    evalValue latin1Only 60 "let a = [1, 2]; len(a)" = .ok (.Integer 2) := by
  have hunsupported : ∀ o : Object, o.bare.type ≠ .StringType → o.bare.type ≠ .ArrayType →
      builtinLen h [o]
        = .ok (.Error ("argument type is not supported: got " ++ o.bare.type.str)) := by
    intro o h1 h2
    have h3 := o.bare_type
    rw [builtinLen, builtinLenOf_bare]
    generalize o.bare = l at h1 h2 h3
    cases l <;> first
      | rfl
      | exact absurd rfl h1
      | exact absurd rfl h2
      | exact absurd rfl h3
  refine ⟨?_, ?_, fun s => rfl, ?_, hunsupported, fun name v => rfl, ?_, by decide!,
    by decide!, by decide!, by decide!, by decide!⟩
  · rw [evalFunction_builtin ev fuel "len" old .len args env h hfree rfl]
    rfl
  · intro hk
    cases args with
    | nil => rfl
    | cons a rest =>
      cases rest with
      | nil => exact absurd rfl hk
      | cons b rest => rfl
  · intro s b items hb hlen hitems
    simp only [Heap.items, hb, Option.map_some', Option.some.injEq] at hitems
    subst hitems
    simp only [builtinLen, builtinLenOf, List.length_take, Nat.min_eq_left hlen]
  · intro o
    by_cases hs : o.bare.type = .StringType
    · rw [builtinLen, builtinLenOf_bare]
      generalize o.bare = l at hs
      cases l <;> first
        | exact ⟨_, rfl⟩
        | simp [Object.type] at hs
    · by_cases ha : o.bare.type = .ArrayType
      · rw [builtinLen, builtinLenOf_bare]
        generalize o.bare = l at ha
        cases l <;> first
          | exact ⟨_, rfl⟩
          | simp [Object.type] at ha
      · exact ⟨_, hunsupported o hs ha⟩

/-- C25 at a concrete call: `len` applied to the array `[1, 2, 3]` in a scope that does
not bind `len`. -/
theorem builtin_len_validates_witness :
    evalFunction (Eval 1) 1 (.Identifier "len" (.Builtin .len)) [.Array ⟨0, 3⟩] 0
        ⟨[⟨[], none⟩], [⟨[.Integer 1, .Integer 2, .Integer 3], 4⟩], [], [], []⟩
      = .ok (.Integer 3,
          ⟨[⟨[], none⟩], [⟨[.Integer 1, .Integer 2, .Integer 3], 4⟩], [], [], []⟩) :=
  (builtin_len_validates (Eval 1) 1 (.Builtin .len) [.Array ⟨0, 3⟩] 0
    ⟨[⟨[], none⟩], [⟨[.Integer 1, .Integer 2, .Integer 3], 4⟩], [], [], []⟩
    (by decide!)).1.trans (by decide!)

/-- C26 fails as stated: `len` of a string of six Cyrillic letters is 12, the number of
bytes of its UTF-8 encoding, and not 6. -/
theorem len_of_cyrillic_is_bytes :
    evalValue latin1Only 60 "len(\"привет\")" = .ok (.Integer 12) ∧
    ("привет" : Text).length = 6 := by
  refine ⟨by decide!, by decide!⟩

/-- C26 as amended: for every String value `s`, `len(s)` returns the Integer of the number
of bytes of the UTF-8 encoding of `s` (Go's `len` of a string), which is never less than
the number of characters and equals it when every character of `s` is ASCII. A call
`len(...)` on a string literal, in a scope chain that does not bind `len`, yields that
Integer and leaves the memory as it was. `len("four")` is 4, `len("")` is 0, and a string
of six Cyrillic letters has length 12. -/
theorem len_counts_bytes (fuel : Nat) (tok t1 t2 : Token) (s : Text) (env : EnvRef) (h : Heap)
    (hfree : h.Get env "len" = none) :
    builtinLen h [.String s] = .ok (.Integer s.utf8ByteSize) ∧
    Eval (fuel + 2) (.Call tok (.Identifier ⟨t1, "len"⟩) [.String t2 s]) env h
      = .ok (.Integer s.utf8ByteSize, h) ∧
    s.utf8ByteSize = byteLen s.data ∧ s.length ≤ s.utf8ByteSize ∧
    ((∀ c ∈ s.data, c.toNat < 128) → s.utf8ByteSize = s.length) ∧
    evalValue latin1Only 60 "len(\"four\")" = .ok (.Integer 4) ∧
    evalValue latin1Only 60 "len(\"\")" = .ok (.Integer 0) ∧
    evalValue latin1Only 60 "len(\"привет\")" = .ok (.Integer 12) := by
  have hb := utf8ByteSize_eq_byteLen s
  have hl := byteLen_vs_length s.data
  refine ⟨rfl, ?_, hb, by rw [hb]; exact hl.1, fun hall => by rw [hb]; exact hl.2 hall,
    by decide!, by decide!, by decide!⟩
  have hid : evalIdentifier ⟨t1, "len"⟩ env h = .Identifier "len" (.Builtin .len) := by
    simp only [evalIdentifier, hfree]
    rfl
  simp only [Eval, hid, Res.ok_bind, evalExpressions, Res.pure_eq]
  simp [Object.type, evalFunction, hfree, builtins, applyBuiltin, builtinLen, builtinLenOf]

/-- C26 as amended, at a concrete call: `len("four")` in the one empty scope. -/
theorem len_counts_bytes_witness :
    Eval 2 (.Call ⟨.LPAREN, "("⟩ (.Identifier ⟨⟨.IDENT, "len"⟩, "len"⟩)
        [.String ⟨.STRING, "four"⟩ "four"]) 0 ⟨[⟨[], none⟩], [], [], [], []⟩
      = .ok (.Integer 4, ⟨[⟨[], none⟩], [], [], [], []⟩) :=
  (len_counts_bytes 0 ⟨.LPAREN, "("⟩ ⟨.IDENT, "len"⟩ ⟨.STRING, "four"⟩ "four" 0
    ⟨[⟨[], none⟩], [], [], [], []⟩ (by decide!)).2.1

/-- Built-in `append` on a variable is `append` on its value. -/
theorem builtinAppendOf_bare (h : Heap) (rest : List Object) :
    ∀ o : Object, builtinAppendOf h rest o = builtinAppendOf h rest o.bare := by
  intro o
  induction o with
  | Identifier n v ih => rw [builtinAppendOf, Object.bare, ih]
  | _ => rfl

/-- The first cells of a backing array after an `append` in place. -/
theorem take_after_append (cells rest : List Object) (l : Nat) (hl : l ≤ cells.length) :
    (cells.take l ++ rest ++ cells.drop (l + rest.length)).take (l + rest.length)
      = cells.take l ++ rest ∧
    (cells.take l ++ rest ++ cells.drop (l + rest.length)).take l = cells.take l := by
  have h1 : (cells.take l).length = l := by simp [List.length_take, hl]
  have h2 : (cells.take l ++ rest).length = l + rest.length := by simp [h1]
  refine ⟨?_, ?_⟩
  · rw [List.take_append_of_le_length (by omega), List.take_of_length_le (by omega)]
  · rw [List.append_assoc, List.take_append_of_le_length (by omega),
      List.take_of_length_le (by omega)]

/-- C27: built-in `append`. With fewer than two arguments it returns the Error "wrong
number of arguments: got=n, want=>1". With a first argument whose value is of a type `T`
other than Array it returns the Error "argument type is not supported: got T". With a
first argument whose value is an empty Array (a slice of length 0) and at least one
further argument, it returns that Array and leaves the memory as it was. With a first
argument whose value is a non-empty Array, the slice `s` over the backing array `b` with
the items `xs`, and `k >= 1` further arguments, it returns an Array whose items are `xs`
followed by the further arguments in order, of length `|xs| + k`, and the items of `s` are
still `xs`. Where the result lives is Go's `append`: when the capacity of `b` holds `|xs| +
k` items, they are written into `b` after the items of `s` and the result is the longer
slice over `b`; otherwise the result is the slice over a fresh backing array. None of the
four cases depends on a hypothesis of another. The calls are evaluated at the end, the last
two of them an `append` that finds spare capacity and one that does not. -/
theorem builtin_append_extends (h : Heap) :
    (∀ args : List Object, args.length < 2 → builtinAppend h args
      = .ok (.Error ("wrong number of arguments: got=" ++ toString args.length ++ ", want=>1"),
          h)) ∧
    (∀ (o a : Object) (more : List Object), o.bare.type ≠ .ArrayType →
      builtinAppend h (o :: a :: more)
        = .ok (.Error ("argument type is not supported: got " ++ o.bare.type.str), h)) ∧
    (∀ (first a : Object) (more : List Object) (s : Slice), first.bare = .Array s →
      s.len = 0 → builtinAppend h (first :: a :: more) = .ok (.Array s, h)) ∧
    (∀ (first a : Object) (more : List Object) (s : Slice) (b : Backing),
      first.bare = .Array s → 0 < s.len → h.arrays[s.array]? = some b →
      s.len ≤ b.cells.length →
      (∃ (s2 : Slice) (h2 : Heap),
        builtinAppend h (first :: a :: more) = .ok (.Array s2, h2) ∧
        s2.len = s.len + (more.length + 1) ∧
        h.items s = some (b.cells.take s.len) ∧
        h2.items s2 = some (b.cells.take s.len ++ a :: more) ∧
        h2.items s = some (b.cells.take s.len)) ∧
      (s.len + (more.length + 1) ≤ b.cap →
        builtinAppend h (first :: a :: more)
          = .ok (.Array ⟨s.array, s.len + (more.length + 1)⟩,
              { h with arrays :=
                (h.arrays.set s.array
                  ⟨b.cells.take s.len ++ a :: more ++ b.cells.drop (s.len + (more.length + 1)),
                    b.cap⟩) })) ∧
      (b.cap < s.len + (more.length + 1) →
        builtinAppend h (first :: a :: more)
          = .ok (.Array ⟨h.arrays.length, s.len + (more.length + 1)⟩,
              { h with arrays :=
                (h.arrays ++ [⟨b.cells.take s.len ++ a :: more,
                  h.growCap b.cap (s.len + (more.length + 1))⟩]) }))) ∧
    evalValue latin1Only 60 "len(append([1, 2], 3, 4))" = .ok (.Integer 4) ∧
    evalValue latin1Only 60 "let b = append([1, 2], 3, 4); b[0] + b[1] + b[2] + b[3]"
      = .ok (.Integer 10) ∧
    evalSource latin1Only 60 "append([], 3)"
      = .ok (.Array ⟨0, 0⟩, ⟨[⟨[], none⟩], [⟨[], 0⟩], [], [], []⟩) ∧
    evalValue latin1Only 60 "append([1])"
      = .ok (.Error "wrong number of arguments: got=1, want=>1") ∧
    evalValue latin1Only 60 "append(1, 2)"
      = .ok (.Error "argument type is not supported: got INTEGER") ∧
    evalValue latin1Only 60 "let a = [1, 2, 3]; let b = append(a, 4); b[0] = 9; a[0]"
      = .ok (.Integer 9) ∧
    evalValue latin1Only 60 "let a = [1, 2, 3, 4]; let b = append(a, 5); b[0] = 9; a[0]"
      = .ok (.Integer 1) := by
  refine ⟨?_, ?_, ?_, ?_, by decide!, by decide!, by decide!, by decide!, by decide!,
    by decide!, by decide!⟩
  · intro args hk
    cases args with
    | nil => rfl
    | cons x rest =>
      cases rest with
      | nil => rfl
      | cons y rest =>
        simp only [List.length_cons] at hk
        omega
  · intro o a more ho
    have h3 := o.bare_type
    rw [builtinAppend, builtinAppendOf_bare]
    generalize o.bare = l at ho h3
    cases l <;> first
      | rfl
      | exact absurd rfl ho
      | exact absurd rfl h3
  · intro first a more s hfirst hlen
    rw [builtinAppend, builtinAppendOf_bare, hfirst]
    simp [builtinAppendOf, hlen]
  · intro first a more s b hfirst hpos hb hcells
    have hlt : s.array < h.arrays.length := index_lt_of_getElem? _ _ _ hb
    have hk : (a :: more).length = more.length + 1 := rfl
    have htake := take_after_append b.cells (a :: more) s.len hcells
    rw [hk] at htake
    have hplace : s.len + (more.length + 1) ≤ b.cap →
        builtinAppend h (first :: a :: more)
          = .ok (.Array ⟨s.array, s.len + (more.length + 1)⟩,
              { h with arrays :=
                (h.arrays.set s.array
                  ⟨b.cells.take s.len ++ a :: more ++ b.cells.drop (s.len + (more.length + 1)),
                    b.cap⟩) }) := by
      intro hcap
      rw [builtinAppend, builtinAppendOf_bare, hfirst]
      simp only [builtinAppendOf, hb, hk, if_pos hcap, gt_iff_lt, hpos, if_true]
    have hfresh : b.cap < s.len + (more.length + 1) →
        builtinAppend h (first :: a :: more)
          = .ok (.Array ⟨h.arrays.length, s.len + (more.length + 1)⟩,
              { h with arrays :=
                (h.arrays ++ [⟨b.cells.take s.len ++ a :: more,
                  h.growCap b.cap (s.len + (more.length + 1))⟩]) }) := by
      intro hcap
      rw [builtinAppend, builtinAppendOf_bare, hfirst]
      simp only [builtinAppendOf, hb, hk, if_neg (Nat.not_le.mpr hcap), gt_iff_lt, hpos,
        if_true, Heap.allocArray, List.length_append, List.length_take, List.length_cons,
        Nat.min_eq_left hcells]
    have hitems : h.items s = some (b.cells.take s.len) := by
      simp only [Heap.items, hb, Option.map_some']
    refine ⟨?_, hplace, hfresh⟩
    by_cases hcap : s.len + (more.length + 1) ≤ b.cap
    · refine ⟨_, _, hplace hcap, rfl, hitems, ?_, ?_⟩
      · simp only [Heap.items, List.getElem?_set, hlt, if_true, Option.map_some', htake.1]
      · simp only [Heap.items, List.getElem?_set, hlt, if_true, Option.map_some', htake.2]
    · refine ⟨_, _, hfresh (Nat.lt_of_not_le hcap), rfl, hitems, ?_, ?_⟩
      · simp only [Heap.items, List.getElem?_concat_length, Option.map_some']
        rw [List.take_of_length_le]
        simp [List.length_take, hcells]
      · simp only [Heap.items, List.getElem?_append_left hlt, hb, Option.map_some']

/-- C27 at a concrete call, in a memory that holds the array `[1, 2]` in a backing array of
capacity 2: `append` of 3 and 4 to it finds no spare capacity and returns the slice of
length 4 over a fresh backing array, of capacity 4. -/
theorem builtin_append_extends_witness :
    builtinAppend ⟨[], [⟨[.Integer 1, .Integer 2], 2⟩], [], [], []⟩
        [.Array ⟨0, 2⟩, .Integer 3, .Integer 4]
      = .ok (.Array ⟨1, 4⟩,
          ⟨[], [⟨[.Integer 1, .Integer 2], 2⟩,
            ⟨[.Integer 1, .Integer 2, .Integer 3, .Integer 4], 4⟩], [], [], []⟩) ∧
    builtinAppend ⟨[], [⟨[.Integer 1, .Integer 2, .Integer 3], 4⟩], [], [], []⟩
        [.Array ⟨0, 3⟩, .Integer 4]
      = .ok (.Array ⟨0, 4⟩,
          ⟨[], [⟨[.Integer 1, .Integer 2, .Integer 3, .Integer 4], 4⟩], [], [], []⟩) ∧
    builtinAppend Heap.empty [.Array ⟨0, 0⟩, .Integer 4] = .ok (.Array ⟨0, 0⟩, Heap.empty) ∧
    builtinAppend Heap.empty [.Integer 1, .Integer 4]
      = .ok (.Error "argument type is not supported: got INTEGER", Heap.empty) ∧
    builtinAppend Heap.empty [.Integer 1]
      = .ok (.Error "wrong number of arguments: got=1, want=>1", Heap.empty) :=
  ⟨((builtin_append_extends ⟨[], [⟨[.Integer 1, .Integer 2], 2⟩], [], [], []⟩).2.2.2.1
      (.Array ⟨0, 2⟩) (.Integer 3) [.Integer 4] ⟨0, 2⟩ ⟨[.Integer 1, .Integer 2], 2⟩
      rfl (by decide) (by decide) (by decide)).2.2 (by decide),
   ((builtin_append_extends ⟨[], [⟨[.Integer 1, .Integer 2, .Integer 3], 4⟩], [], [], []⟩).2.2.2.1
      (.Array ⟨0, 3⟩) (.Integer 4) [] ⟨0, 3⟩ ⟨[.Integer 1, .Integer 2, .Integer 3], 4⟩
      rfl (by decide) (by decide) (by decide)).2.1 (by decide),
   (builtin_append_extends Heap.empty).2.2.1 (.Array ⟨0, 0⟩) (.Integer 4) [] ⟨0, 0⟩ rfl rfl,
   (builtin_append_extends Heap.empty).2.1 (.Integer 1) (.Integer 4) [] (by decide),
   (builtin_append_extends Heap.empty).1 [.Integer 1] (by decide)⟩

/-! ## Inputs on which lexer and parser abort -/

/-- C31 on the code: after `else if`, `parseIf` asserts that the nested `parseIf` returned
an `If` node, and a nested `if` that is malformed returns nil. On the input
`if (x) { 1 } else if 3` the assertion panics and `ParseProgram` returns neither a program
nor an error list. An unterminated block, array or hash literal is tolerated or reported
through the error list. -/
theorem malformed_else_if_aborts :
    parseSource latin1Only 60 "if (x) \x7b 1 \x7d else if 3"
      = .panic "interface conversion: ast.Node is nil, not ast.If" ∧
    parseSource latin1Only 60 "if (x) \x7b 1 \x7d else if (y) \x7b 2"
      = .ok ([.ExpressionStatement { type := .IF, literal := "if" }
          (.If { type := .IF, literal := "if" } [identLeaf "x", identLeaf "y"]
            [singleBlock (intToken 1) (intLeaf 1), singleBlock (intToken 2) (intLeaf 2)]
            ast.BlockStatement.zero)], []) ∧
    parseSource latin1Only 60 "[1, 2"
      = .ok ([.ExpressionStatement { type := .LBRACKET, literal := "[" }
          (.Array { type := .LBRACKET, literal := "[" } [intLeaf 1, intLeaf 2])],
          [unexpectedTypeError .RBRACKET .EOF]) := by
  refine ⟨by decide!, by decide!, by decide!⟩

/-- C32 on the code: `peekChar` guards its read with `readPosition > len(input)`, so with
the current character the last one of the input (`readPosition = len(input)`) it slices
one byte past the end. `NextToken` peeks on `=` and on `!`: on an input that ends with one
of them the call that reaches it panics, and so does the parse of such a source. An
unrecognised character yields an `ILLEGAL` token and the end of the text `EOF`. -/
theorem lexer_panics_on_trailing_assign :
    (Lexer.New latin1Only "=").NextToken = none ∧
    (Lexer.New latin1Only "!").NextToken = none ∧
    (Lexer.New latin1Only "x =").yields [identToken "x"] = false ∧
    parseSource latin1Only 60 "x =" = .panic "runtime error: slice bounds out of range" ∧
    (Lexer.New latin1Only "@ = 1").yields
      [{ type := .ILLEGAL, literal := "@" }, { type := .ASSIGN, literal := "=" }, intToken 1]
      = true := by
  refine ⟨by decide!, by decide!, by decide!, by decide!, by decide!⟩

/-! ## Counts and messages -/

/-- C36 fails as stated: an input with one `if`, two `else if` and a final `else` parses
to an `If` node with 3 conditions and 3 blocks, not 4. -/
theorem two_else_if_give_three_pairs :
    parseSource latin1Only 60 "if (a) \x7b 1 \x7d else if (b) \x7b 2 \x7d else if (c) \x7b 3 \x7d else \x7b 4 \x7d"
      = .ok ([.ExpressionStatement { type := .IF, literal := "if" }
          (.If { type := .IF, literal := "if" } [identLeaf "a", identLeaf "b", identLeaf "c"]
            [singleBlock (intToken 1) (intLeaf 1), singleBlock (intToken 2) (intLeaf 2),
             singleBlock (intToken 3) (intLeaf 3)]
            (singleBlock (intToken 4) (intLeaf 4)))], []) ∧
    [identLeaf "a", identLeaf "b", identLeaf "c"].length = 3 := by
  refine ⟨by decide!, rfl⟩

/-- C37 fails as stated: the nested `if` of the claim yields the Error "unknown operator:
BOOLEAN + BOOLEAN", which is not the Error that `5 + true` yields. -/
theorem nested_if_error_is_not_type_mismatch :
    evalValue latin1Only 60 "if (2 > 1) \x7b if (2 > 1) \x7b true + false \x7d return 1 \x7d"
      ≠ .ok (.Error "type mismatch: INTEGER + BOOLEAN") ∧
    evalValue latin1Only 60 "if (2 > 1) \x7b if (2 > 1) \x7b true + false \x7d return 1 \x7d"
      ≠ evalValue latin1Only 60 "5 + true" := by
  refine ⟨by decide!, by decide!⟩

/-- C37 as amended: evaluating `if (2 > 1) { if (2 > 1) { true + false } return 1 }`
yields the Error of `true + false`, with the message "unknown operator: BOOLEAN +
BOOLEAN", as `TestEvaluatedErrors` expects; `5 + true` yields the Error "type mismatch:
INTEGER + BOOLEAN". -/
theorem nested_if_yields_inner_error :
    evalValue latin1Only 60 "if (2 > 1) \x7b if (2 > 1) \x7b true + false \x7d return 1 \x7d"
      = .ok (.Error "unknown operator: BOOLEAN + BOOLEAN") ∧
    evalValue latin1Only 60 "if (2 > 1) \x7b if (2 > 1) \x7b true + false \x7d return 1 \x7d"
      = evalValue latin1Only 60 "true + false" ∧
    evalValue latin1Only 60 "5 + true" = .ok (.Error "type mismatch: INTEGER + BOOLEAN") := by
  refine ⟨by decide!, by decide!, by decide!⟩

/-! ## Laws of environments, assignment and loops -/

/-- C38: read-after-write law of environments. For every scope `env` of the memory, key
`k` and value `v`: after `Set(k, v)` on `env`, `Get(k)` from `env` returns `v` (found);
`Get` of any other key, from any scope, returns what it returned before; and no parent
link and no number of scopes has changed. -/
theorem environment_read_after_write (h : Heap) (env : EnvRef) (k : Text) (v : Object)
    (henv : env < h.envs.length) :
    (h.Set env k v).Get env k = some v ∧
    (∀ k2 : Text, k2 ≠ k → ∀ e2 : EnvRef, (h.Set env k v).Get e2 k2 = h.Get e2 k2) ∧
    (∀ q : EnvRef, (h.Set env k v).outerOf q = h.outerOf q) ∧
    (h.Set env k v).envs.length = h.envs.length :=
  ⟨h.Get_Set_self env k v henv, fun k2 hk e2 => h.Get_Set_other env k k2 v hk e2,
    (h.Set_frame env k v).2.1, (h.Set_frame env k v).1⟩

/-- C38 at a concrete memory: scope 1 inside scope 0, which binds `x`; setting `x` from
scope 1 makes a lookup from scope 1 return the new value. -/
theorem environment_read_after_write_witness :
    (Heap.Set ⟨[⟨[("x", .Integer 1), ("y", .Integer 2)], none⟩, ⟨[], some 0⟩], [], [], [], []⟩ 1
      "x" (.Integer 7)).Get 1 "x" = some (.Integer 7) :=
  (environment_read_after_write
    ⟨[⟨[("x", .Integer 1), ("y", .Integer 2)], none⟩, ⟨[], some 0⟩], [], [], [], []⟩ 1 "x"
    (.Integer 7) (by decide)).1

/-- C39: assignment to a name that no scope of the chain binds and that is no built-in
name. `x = e` yields the Error "identifier not found: x" and returns the memory it was
given, whatever `e` is: the Error of the left side is returned before the right side is
evaluated, so no scope gets a binding and no effect of `e` takes place. At the end
`zz = 5`, a following `zz`, and `zz = 1 / 0`, whose right side would panic. -/
theorem assignment_to_unbound_name (fuel : Nat) (tok t : Token) (x : Text) (e : ast.Node)
    (env : EnvRef) (h : Heap) (hx : h.Get env x = none) (hb : builtins x = none) :
    Eval (fuel + 2) (.Infix tok "=" (.Identifier ⟨t, x⟩) e) env h
      = .ok (.Error ("identifier not found: " ++ x), h) ∧
    evalValue latin1Only 60 "zz = 5" = .ok (.Error "identifier not found: zz") ∧
    evalValue latin1Only 60 "zz = 5; zz" = .ok (.Error "identifier not found: zz") ∧
    evalSource latin1Only 60 "zz = 1 / 0"
      = .ok (.Error "identifier not found: zz", ⟨[⟨[], none⟩], [], [], [], []⟩) := by
  refine ⟨?_, by decide!, by decide!, by decide!⟩
  simp [Eval, evalIdentifier, hx, hb, newError, Object.type]

/-- C39 at a concrete input: `zz = 5` in the one empty scope. -/
theorem assignment_to_unbound_name_witness :
    Eval 2 (.Infix ⟨.ASSIGN, "="⟩ "=" (.Identifier ⟨⟨.IDENT, "zz"⟩, "zz"⟩)
        (.Integer ⟨.INT, "5"⟩ 5)) 0 ⟨[⟨[], none⟩], [], [], [], []⟩
      = .ok (.Error "identifier not found: zz", ⟨[⟨[], none⟩], [], [], [], []⟩) :=
  (assignment_to_unbound_name 0 ⟨.ASSIGN, "="⟩ ⟨.IDENT, "zz"⟩ "zz" (.Integer ⟨.INT, "5"⟩ 5) 0
    ⟨[⟨[], none⟩], [], [], [], []⟩ (by decide!) (by decide!)).1

/-- The loop of `evalWhile` returns Null or an Error, when it returns. -/
theorem evalWhileLoop_result (ev : Evaluator) (condition : ast.Node)
    (body : ast.BlockStatement) :
    ∀ (k : Nat) (b : Bool) (env : EnvRef) (h h2 : Heap) (r : Object),
      evalWhileLoop ev condition body k b env h = .ok (r, h2) →
      r = NULL ∨ r.type = .ErrorType := by
  intro k
  induction k with
  | zero =>
    intro b env h h2 r hret
    cases b with
    | false =>
      simp only [evalWhileLoop, Res.ok.injEq, Prod.mk.injEq] at hret
      exact Or.inl hret.1.symm
    | true => simp [evalWhileLoop] at hret
  | succ k ih =>
    intro b env h h2 r hret
    cases b with
    | false =>
      simp only [evalWhileLoop, Res.ok.injEq, Prod.mk.injEq] at hret
      exact Or.inl hret.1.symm
    | true =>
      rw [evalWhileLoop] at hret
      cases hbody : evalBlock ev body.statements env h with
      | panic m => simp [hbody] at hret
      | outOfFuel => simp [hbody] at hret
      | ok r1 =>
        simp only [hbody, Res.ok_bind] at hret
        by_cases herr : r1.1.type = .ErrorType
        · simp only [herr, if_true, Res.pure_eq, Res.ok.injEq] at hret
          rw [hret] at herr
          exact Or.inr herr
        · simp only [herr, if_false] at hret
          cases hc : ev condition env r1.2 with
          | panic m => simp [hc] at hret
          | outOfFuel => simp [hc] at hret
          | ok c =>
            simp only [hc, Res.ok_bind] at hret
            cases hc1 : c.1 with
            | Boolean v =>
              simp only [hc1] at hret
              exact ih v env c.2 h2 r hret
            | _ => simp [hc1] at hret

/-- C40: a while loop never yields a Return. Whenever `evalWhile` returns, the value is
Null or an Error, so it is no Return. A body that yields `Return(v)` does not end the
loop: the condition is evaluated again and the loop goes on with its value. `Eval` runs a
While node with `evalWhile`. At the end a loop whose body returns in every round: it runs
until the condition is false, and the program goes on after it. -/
theorem while_never_yields_return (ev : Evaluator) (fuel : Nat) (condition : ast.Node)
    (body : ast.BlockStatement) (env : EnvRef) (h h2 : Heap) (r : Object)
    (hret : evalWhile ev fuel condition body env h = .ok (r, h2)) :
    (r = NULL ∨ r.type = .ErrorType) ∧ r.type ≠ .ReturnType ∧
    (∀ (k : Nat) (env1 : EnvRef) (g g1 g2 : Heap) (v : Object) (b : Bool),
      evalBlock ev body.statements env1 g = .ok (.Return v, g1) →
      ev condition env1 g1 = .ok (.Boolean b, g2) →
      evalWhileLoop ev condition body (k + 1) true env1 g
        = evalWhileLoop ev condition body k b env1 g2) ∧
    (∀ (f : Nat) (tok : Token) (env1 : EnvRef) (g : Heap),
      Eval (f + 1) (.While tok condition body) env1 g
        = evalWhile (Eval f) f condition body env1 g) ∧
    evalValue latin1Only 60 "let i = 0; while (i < 3) \x7b i = i + 1; return 5 \x7d; i"
      = .ok (.Integer 3) ∧
    evalValue latin1Only 60 "let i = 0; while (i < 3) \x7b i = i + 1; return 5 \x7d"
      = .ok NULL := by
  have hmain : r = NULL ∨ r.type = .ErrorType := by
    rw [evalWhile] at hret
    cases hc : ev condition env h with
    | panic m => simp [hc] at hret
    | outOfFuel => simp [hc] at hret
    | ok c =>
      simp only [hc, Res.ok_bind] at hret
      by_cases herr : c.1.type = .ErrorType
      · simp only [herr, if_true, Res.pure_eq, Res.ok.injEq] at hret
        rw [hret] at herr
        exact Or.inr herr
      · simp only [herr, if_false] at hret
        cases hc1 : c.1 with
        | Boolean v =>
          simp only [hc1] at hret
          exact evalWhileLoop_result ev condition body fuel v env c.2 h2 r hret
        | _ =>
          simp only [hc1, Res.pure_eq, Res.ok.injEq, Prod.mk.injEq] at hret
          exact Or.inl hret.1.symm
  refine ⟨hmain, ?_, ?_, fun f tok env1 g => rfl, by decide!, by decide!⟩
  · rcases hmain with hn | he
    · rw [hn]
      simp [NULL, Object.type]
    · rw [he]
      simp
  · intro k env1 g g1 g2 v b hbody hcond
    rw [evalWhileLoop]
    simp [hbody, Object.type, hcond]

/-- C40 at a concrete loop: `while (i < 1) { i = i + 1; return 5 }` with `i` bound to 0
runs its body once and returns Null. -/
theorem while_never_yields_return_witness :
    evalWhile (Eval 6) 6 (infixNode .LT (identLeaf "i") (intLeaf 1))
        (.mk ⟨.LBRACE, "\x7b"⟩
          [.ExpressionStatement (identToken "i")
            (.Infix ⟨.ASSIGN, "="⟩ "=" (identLeaf "i")
              (infixNode .PLUS (identLeaf "i") (intLeaf 1))),
           .ReturnStatement ⟨.RETURN, "return"⟩ (intLeaf 5)]) 0
        ⟨[⟨[("i", .Integer 0)], none⟩], [], [], [], []⟩
      = .ok (NULL, ⟨[⟨[("i", .Integer 1)], none⟩, ⟨[], some 0⟩], [], [], [], []⟩) ∧
    NULL.type ≠ .ReturnType :=
  ⟨by decide!,
   (while_never_yields_return (Eval 6) 6 (infixNode .LT (identLeaf "i") (intLeaf 1))
      (.mk ⟨.LBRACE, "\x7b"⟩
        [.ExpressionStatement (identToken "i")
          (.Infix ⟨.ASSIGN, "="⟩ "=" (identLeaf "i")
            (infixNode .PLUS (identLeaf "i") (intLeaf 1))),
         .ReturnStatement ⟨.RETURN, "return"⟩ (intLeaf 5)]) 0
      ⟨[⟨[("i", .Integer 0)], none⟩], [], [], [], []⟩
      ⟨[⟨[("i", .Integer 1)], none⟩, ⟨[], some 0⟩], [], [], [], []⟩ NULL (by decide!)).2.1⟩

/-- C34 fails as stated: a loop whose condition is not a Boolean at its first evaluation
does not crash; it returns Null without running its body. -/
theorem while_on_integer_returns_null :
    evalValue latin1Only 60 "while (1) \x7b \x7d" = .ok NULL ∧
    evalValue latin1Only 60 "while (\"s\") \x7b 1 \x7d" = .ok NULL := by
  refine ⟨by decide!, by decide!⟩

/-- C34 as amended: when the condition of a While node evaluates, the first time, to a
value that is neither a Boolean nor an Error, `evalWhile` returns Null without running the
body (the type assertion there is guarded). When the condition is evaluated again after a
round (the body has yielded no Error) and gives a value that is not a Boolean, the
unguarded type assertion panics and no value is returned. At the end a loop whose
condition is `true` in the first round and `1` in the second. -/
theorem while_condition_not_boolean (ev : Evaluator) (fuel : Nat) (condition : ast.Node)
    (body : ast.BlockStatement) (env : EnvRef) (h h1 : Heap) (c : Object)
    (hc : ev condition env h = .ok (c, h1)) (hnb : c.type ≠ .BooleanType)
    (hne : c.type ≠ .ErrorType) :
    evalWhile ev fuel condition body env h = .ok (NULL, h1) ∧
    (∀ (k : Nat) (g g1 g2 : Heap) (r1 c2 : Object),
      evalBlock ev body.statements env g = .ok (r1, g1) → r1.type ≠ .ErrorType →
      ev condition env g1 = .ok (c2, g2) → c2.type ≠ .BooleanType →
      evalWhileLoop ev condition body (k + 1) true env g
        = .panic "interface conversion: object.Object is not *object.Boolean") ∧
    evalValue latin1Only 60
        "let i = 0; while (if (i < 1) \x7b true \x7d else \x7b 1 \x7d) \x7b i = i + 1 \x7d"
      = .panic "interface conversion: object.Object is not *object.Boolean" := by
  refine ⟨?_, ?_, by decide!⟩
  · rw [evalWhile]
    simp only [hc, Res.ok_bind, if_neg hne]
    cases c <;> first
      | rfl
      | exact absurd rfl hnb
  · intro k g g1 g2 r1 c2 hbody hr1 hc2 hnb2
    rw [evalWhileLoop]
    simp only [hbody, Res.ok_bind, if_neg hr1, hc2]
    cases c2 <;> first
      | rfl
      | exact absurd rfl hnb2

/-- C34 as amended, at a concrete loop: `while (1) { }` in the one empty scope. -/
theorem while_condition_not_boolean_witness :
    evalWhile (Eval 2) 2 (intLeaf 1) (.mk ⟨.LBRACE, "\x7b"⟩ []) 0 ⟨[⟨[], none⟩], [], [], [], []⟩
      = .ok (NULL, ⟨[⟨[], none⟩], [], [], [], []⟩) :=
  (while_condition_not_boolean (Eval 2) 2 (intLeaf 1) (.mk ⟨.LBRACE, "\x7b"⟩ []) 0
    ⟨[⟨[], none⟩], [], [], [], []⟩ ⟨[⟨[], none⟩], [], [], [], []⟩ (.Integer 1) (by decide!)
    (by decide) (by decide)).1

/-! ## Runs of letters -/

/-- A rune that `readIdentifier` accepts is none of the runes that `NextToken` tests before
it looks for a letter: those are Latin-1 runes that are neither letters nor `_`. -/
theorem UnicodeTables.word_rune_ne (T : UnicodeTables) (c d : Char)
    (hc : (T.IsLetter c || c == '_') = true) (hd : (T.IsLetter d || d == '_') = false) :
    ¬ c = d := by
  intro h
  rw [h, hd] at hc
  exact Bool.false_ne_true hc

/-- Rune 0 is neither a letter nor `_`. -/
theorem UnicodeTables.word_rune_zero (T : UnicodeTables) :
    (T.IsLetter (Char.ofNat 0) || Char.ofNat 0 == '_') = false := by
  simp [UnicodeTables.IsLetter]

/-- On a run of letters and `_` followed by a rune that is neither, `NextToken` yields the
token whose literal is the run and whose type the keyword table gives, and stands on the
rune after the run. -/
theorem Lexer.NextToken_word (T : UnicodeTables) (pre run rest : List Char) (c : Char)
    (hc : (T.IsLetter c || c == '_') = true) (hsp : T.IsSpace c = false)
    (hrun : ∀ x ∈ run, (T.IsLetter x || x == '_') = true)
    (hrest : (T.IsLetter (rest.headD (Char.ofNat 0)) || rest.headD (Char.ofNat 0) == '_')
      = false) :
    (Lexer.standing T (pre ++ (c :: run) ++ rest) (byteLen pre) c (run ++ rest)).NextToken
      = some ({ type := LookupIndent (String.mk (c :: run)), literal := String.mk (c :: run) },
          Lexer.standing T (pre ++ (c :: run) ++ rest) (byteLen pre + byteLen (c :: run))
            (rest.headD (Char.ofNat 0)) rest.tail) := by
  have hne : ∀ d : Char, (T.IsLetter d || d == '_') = false → ¬ c = d :=
    fun d hd => T.word_rune_ne c d hc hd
  have hlat : ∀ d : Char, d.toNat ≤ 0xFF → T.IsLetter d = (latin1Only.IsLetter d) := by
    intro d hd
    simp only [UnicodeTables.IsLetter, if_pos hd]
  have hskip : (Lexer.standing T (pre ++ (c :: run) ++ rest) (byteLen pre) c
      (run ++ rest)).skipWhitespace = _ := Lexer.readWhile_stop _ _ _ hsp
  have hread := Lexer.readWhile_run T (pre ++ (c :: run) ++ rest)
    (fun c => T.IsLetter c || c == '_') rest hrest run (byteLen pre) c
    ((run ++ rest).length + 1) hc hrun (by simp)
  have hchar : (Lexer.standing T (pre ++ (c :: run) ++ rest) (byteLen pre) c
      (run ++ rest)).character = c := rfl
  have hp : ∀ d : Char, d.toNat ≤ 0xFF → (latin1Only.IsLetter d || d == '_') = false →
      ¬ c = d := by
    intro d hd h
    apply hne
    rw [hlat d hd]
    exact h
  simp only [Lexer.NextToken, hskip, hchar]
  rw [if_neg (hp '=' (by decide) (by decide)), if_neg (hp '+' (by decide) (by decide)),
    if_neg (hp '-' (by decide) (by decide)), if_neg (hp '/' (by decide) (by decide)),
    if_neg (hp '*' (by decide) (by decide)), if_neg (hp '(' (by decide) (by decide)),
    if_neg (hp ')' (by decide) (by decide)), if_neg (hp '\x7b' (by decide) (by decide)),
    if_neg (hp '\x7d' (by decide) (by decide)), if_neg (hp '[' (by decide) (by decide)),
    if_neg (hp ']' (by decide) (by decide)), if_neg (hp ',' (by decide) (by decide)),
    if_neg (hp ':' (by decide) (by decide)), if_neg (hp ';' (by decide) (by decide)),
    if_neg (hp '!' (by decide) (by decide)), if_neg (hp '>' (by decide) (by decide)),
    if_neg (hp '<' (by decide) (by decide)), if_neg (hp '"' (by decide) (by decide)),
    if_neg (hp (Char.ofNat 0) (by decide) (by decide))]
  have hun : (Lexer.standing T (pre ++ (c :: run) ++ rest) (byteLen pre) c
      (run ++ rest)).unicode = T := rfl
  rw [hun, hc]
  simp only [if_true, Lexer.readIdentifier]
  have hpend : (Lexer.standing T (pre ++ (c :: run) ++ rest) (byteLen pre) c
      (run ++ rest)).pending = run ++ rest := rfl
  have hpos : (Lexer.standing T (pre ++ (c :: run) ++ rest) (byteLen pre) c
      (run ++ rest)).position = byteLen pre := rfl
  rw [hun, hpend, hpos, hread]
  have hin : (Lexer.standing T (pre ++ (c :: run) ++ rest) (byteLen pre + byteLen (c :: run))
      (rest.headD (Char.ofNat 0)) rest.tail).input = pre ++ (c :: run) ++ rest := rfl
  have hp2 : (Lexer.standing T (pre ++ (c :: run) ++ rest) (byteLen pre + byteLen (c :: run))
      (rest.headD (Char.ofNat 0)) rest.tail).position = byteLen pre + byteLen (c :: run) := rfl
  rw [hin, hp2, sliceBytes_mid]
  rfl

/-- The keyword table on a literal that is no keyword. -/
theorem LookupIndent_of_not_keyword (r : Text)
    (h : r ∉ ["fn", "let", "if", "else", "return", "true", "false", "while"]) :
    LookupIndent r = .IDENT := by
  simp only [List.mem_cons, List.mem_singleton, List.not_mem_nil, or_false, not_or] at h
  obtain ⟨h1, h2, h3, h4, h5, h6, h7, h8⟩ := h
  simp only [LookupIndent, if_neg h1, if_neg h2, if_neg h3, if_neg h4, if_neg h5, if_neg h6,
    if_neg h7, if_neg h8]

/-- C33 fails as stated: a digit ends the run that `readIdentifier` reads. `x1` is the
identifier `x` followed by the integer `1`, and `foo_2` is the identifier `foo_` followed
by the integer `2`. -/
theorem digit_ends_identifier_run :
    (Lexer.New latin1Only "x1").NextToken.map Prod.fst = some (identToken "x") ∧
    (Lexer.New latin1Only "x1").yields [identToken "x", intToken 1] = true ∧
    (Lexer.New latin1Only "x1").yields [identToken "x1"] = false ∧
    (Lexer.New latin1Only "foo_2").NextToken.map Prod.fst = some (identToken "foo_") ∧
    (Lexer.New latin1Only "foo_2").yields [identToken "foo_", intToken 2] = true ∧
    (Lexer.New latin1Only "foo_2").yields [identToken "foo_2"] = false := by
  refine ⟨by decide!, by decide!, by decide!, by decide!, by decide!, by decide!⟩

/-- C33 as amended: identifier and keyword runs are runs of letters and `_`. For every
input that begins with a run `r` of letters and `_` (first rune `c`, then `run`) that is
maximal, that is followed by the end of the text or by a rune that is neither a letter nor
`_` (a digit ends the run), `NextToken` returns one token whose literal is the whole run
`r`, and stands on the rune after the run. The type of the token is what the keyword table
gives for `r`: the keyword for `fn let if else while return true false`, otherwise
`IDENT`. The tables of runes above Latin-1 are a parameter, so that the first rune is no
white space is a hypothesis (no Latin-1 letter is, nor is `_`). At the end `let` is the
keyword `LET`, and `letter` and `_tmp` are identifiers. -/
theorem identifier_run_is_one_token (T : UnicodeTables) (c : Char) (run rest : List Char)
    (hc : (T.IsLetter c || c == '_') = true) (hsp : T.IsSpace c = false)
    (hrun : ∀ x ∈ run, (T.IsLetter x || x == '_') = true)
    (hrest : (T.IsLetter (rest.headD (Char.ofNat 0)) || rest.headD (Char.ofNat 0) == '_')
      = false) :
    (Lexer.New T (String.mk (c :: run ++ rest))).NextToken
      = some ({ type := LookupIndent (String.mk (c :: run)), literal := String.mk (c :: run) },
          Lexer.standing T (c :: run ++ rest) (byteLen (c :: run))
            (rest.headD (Char.ofNat 0)) rest.tail) ∧
    (String.mk (c :: run) ∉ ["fn", "let", "if", "else", "return", "true", "false", "while"] →
      LookupIndent (String.mk (c :: run)) = .IDENT) ∧
    [LookupIndent "fn", LookupIndent "let", LookupIndent "if", LookupIndent "else",
      LookupIndent "while", LookupIndent "return", LookupIndent "true", LookupIndent "false"]
      = [.FUNCTION, .LET, .IF, .ELSE, .WHILE, .RETURN, .TRUE, .FALSE] ∧
    (Lexer.New latin1Only "let").yields [{ type := .LET, literal := "let" }] = true ∧
    (Lexer.New latin1Only "letter _tmp").yields [identToken "letter", identToken "_tmp"]
      = true := by
  refine ⟨?_, LookupIndent_of_not_keyword _, by decide, by decide!, by decide!⟩
  have h := Lexer.NextToken_word T [] run rest c hc hsp hrun hrest
  simp only [List.nil_append, byteLen, Nat.zero_add] at h
  rw [Lexer.New_standing]
  simpa [byteLen] using h

/-- C33 as amended, at a concrete input: on `x1` the run is `x`, ended by the digit. -/
theorem identifier_run_is_one_token_witness :
    (Lexer.New latin1Only "x1").NextToken
      = some (identToken "x", Lexer.standing latin1Only ['x', '1'] 1 '1' []) :=
  (identifier_run_is_one_token latin1Only 'x' [] ['1'] (by decide) (by decide)
    (fun _ h => absurd h (List.not_mem_nil _)) (by decide)).1

/-! ## The number of pairs of a chain -/

/-- C36 as amended: an input with one `if`, two `else if` clauses and one final `else`
parses to a single `If` node with exactly 3 condition/consequence pairs and 1 alternative
block. When the tokens from the parser on are such a chain (`ifChain 2` reads it, with the
final block `alt`), `parseIf` returns one `If` node whose conditions and consequences are
those of the three clauses, in source order, and whose alternative is `alt`. At the end the
input of `TestIfs`, which has three `else if` clauses and gives 4 pairs. -/
theorem two_else_if_chain_has_three_pairs (fuel : Nat) (p q : Parser)
    (clauses : List (ast.Node × ast.BlockStatement)) (alt : ast.BlockStatement)
    (h : ifChain 2 fuel p = some (clauses, some alt, q)) :
    parseIf (fuel + 1) p
      = .ok (.If p.token (clauses.map Prod.fst) (clauses.map Prod.snd) alt, q) ∧
    (clauses.map Prod.fst).length = 3 ∧ (clauses.map Prod.snd).length = 3 ∧
    parseSource latin1Only 40
        "if (y > x) \x7b x \x7d else if (yy > xx) \x7b yy \x7d else if (yy > xx) \x7b yyy \x7d else \x7b y \x7d"
      = .ok ([.ExpressionStatement { type := .IF, literal := "if" }
          (.If { type := .IF, literal := "if" }
            [infixNode .GT (identLeaf "y") (identLeaf "x"),
             infixNode .GT (identLeaf "yy") (identLeaf "xx"),
             infixNode .GT (identLeaf "yy") (identLeaf "xx")]
            [identBlock "x", identBlock "yy", identBlock "yyy"]
            (identBlock "y"))], []) ∧
    parseSource latin1Only 40
        "if (y > x) \x7b x \x7d else if (yy > xx) \x7b yy \x7d else if (yy > xx) \x7b yyy \x7d else if (yy > xx) \x7b yyyy \x7d else \x7b y \x7d"
      = .ok ([.ExpressionStatement { type := .IF, literal := "if" }
          (.If { type := .IF, literal := "if" }
            [infixNode .GT (identLeaf "y") (identLeaf "x"),
             infixNode .GT (identLeaf "yy") (identLeaf "xx"),
             infixNode .GT (identLeaf "yy") (identLeaf "xx"),
             infixNode .GT (identLeaf "yy") (identLeaf "xx")]
            [identBlock "x", identBlock "yy", identBlock "yyy", identBlock "yyyy"]
            (identBlock "y"))], []) := by
  obtain ⟨hparse, hlen⟩ := parseIf_ifChain 2 fuel p q clauses (some alt) h
  exact ⟨hparse, by simp [hlen], by simp [hlen], by decide!, by decide!⟩

/-- C36 as amended, at a concrete state: the parser that `parser.New` gives on the text
`if (1) { 2 } else if (3) { 4 } else if (5) { 6 } else { 7 }`, where `parseIf` returns one
`If` node with three conditions, three blocks and the alternative `{ 7 }`. -/
theorem two_else_if_chain_has_three_pairs_witness :
    Parser.New (Lexer.New latin1Only
        "if (1) \x7b 2 \x7d else if (3) \x7b 4 \x7d else if (5) \x7b 6 \x7d else \x7b 7 \x7d")
      = .ok { l := Lexer.standing latin1Only
                "if (1) \x7b 2 \x7d else if (3) \x7b 4 \x7d else if (5) \x7b 6 \x7d else \x7b 7 \x7d".data
                4 '1'
                ("if (1) \x7b 2 \x7d else if (3) \x7b 4 \x7d else if (5) \x7b 6 \x7d else \x7b 7 \x7d".data.drop 5),
              token := { type := .IF, literal := "if" },
              readToken := { type := .LPAREN, literal := "(" }, errors := [] } ∧
    parseIf 9
        { l := Lexer.standing latin1Only
            "if (1) \x7b 2 \x7d else if (3) \x7b 4 \x7d else if (5) \x7b 6 \x7d else \x7b 7 \x7d".data
            4 '1'
            ("if (1) \x7b 2 \x7d else if (3) \x7b 4 \x7d else if (5) \x7b 6 \x7d else \x7b 7 \x7d".data.drop 5),
          token := { type := .IF, literal := "if" },
          readToken := { type := .LPAREN, literal := "(" }, errors := [] }
      = .ok (.If { type := .IF, literal := "if" } [intLeaf 1, intLeaf 3, intLeaf 5]
          [singleBlock (intToken 2) (intLeaf 2), singleBlock (intToken 4) (intLeaf 4),
           singleBlock (intToken 6) (intLeaf 6)]
          (singleBlock (intToken 7) (intLeaf 7)),
          { l := Lexer.standing latin1Only
              "if (1) \x7b 2 \x7d else if (3) \x7b 4 \x7d else if (5) \x7b 6 \x7d else \x7b 7 \x7d".data
              60 (Char.ofNat 0) [],
            token := { type := .RBRACE, literal := "\x7d" }, readToken := eofToken,
            errors := [] }) :=
  ⟨by decide!,
   (two_else_if_chain_has_three_pairs 8
      { l := Lexer.standing latin1Only
          "if (1) \x7b 2 \x7d else if (3) \x7b 4 \x7d else if (5) \x7b 6 \x7d else \x7b 7 \x7d".data
          4 '1'
          ("if (1) \x7b 2 \x7d else if (3) \x7b 4 \x7d else if (5) \x7b 6 \x7d else \x7b 7 \x7d".data.drop 5),
        token := { type := .IF, literal := "if" },
        readToken := { type := .LPAREN, literal := "(" }, errors := [] }
      { l := Lexer.standing latin1Only
          "if (1) \x7b 2 \x7d else if (3) \x7b 4 \x7d else if (5) \x7b 6 \x7d else \x7b 7 \x7d".data
          60 (Char.ofNat 0) [],
        token := { type := .RBRACE, literal := "\x7d" }, readToken := eofToken, errors := [] }
      [(intLeaf 1, singleBlock (intToken 2) (intLeaf 2)),
       (intLeaf 3, singleBlock (intToken 4) (intLeaf 4)),
       (intLeaf 5, singleBlock (intToken 6) (intLeaf 6))]
      (singleBlock (intToken 7) (intLeaf 7)) (by decide!)).1⟩

/-! ## Rendering a let statement -/

/-- The byte at a rune boundary, read as a rune. -/
theorem runeOfByteAt_mid (d : Char) (post : List Char) :
    ∀ pre : List Char, runeOfByteAt (pre ++ d :: post) (byteLen pre)
      = if d.utf8Size = 1 then d else Char.ofNat 0xFFFD := by
  intro pre
  induction pre with
  | nil => simp [runeOfByteAt, byteLen]
  | cons c pre ih =>
    have hpos := Char.utf8Size_pos c
    simp only [List.cons_append, runeOfByteAt, byteLen]
    rw [if_neg (by omega), if_neg (by omega)]
    have hsub : c.utf8Size + byteLen pre - c.utf8Size = byteLen pre := by omega
    rw [hsub]
    exact ih

/-- Letters of Latin-1 are decided by the fixed table. -/
theorem UnicodeTables.IsLetter_latin1 (T : UnicodeTables) (d : Char) (hd : d.toNat ≤ 0xFF) :
    T.IsLetter d = latin1Only.IsLetter d := by
  simp only [UnicodeTables.IsLetter, if_pos hd]

/-- White space of Latin-1 is decided by the fixed table. -/
theorem UnicodeTables.IsSpace_latin1 (T : UnicodeTables) (d : Char) (hd : d.toNat ≤ 0xFF) :
    T.IsSpace d = latin1Only.IsSpace d := by
  simp only [UnicodeTables.IsSpace, if_pos hd]

/-- Digits of Latin-1 are decided by the fixed table. -/
theorem UnicodeTables.IsDigit_latin1 (T : UnicodeTables) (d : Char) (hd : d.toNat ≤ 0xFF) :
    T.IsDigit d = latin1Only.IsDigit d := by
  simp only [UnicodeTables.IsDigit, if_pos hd]

/-- `NextToken` skips one space in front of a rune that is no white space. -/
theorem Lexer.NextToken_after_space (T : UnicodeTables) (i : List Char) (b : Nat) (d : Char)
    (ps : List Char) (hd : T.IsSpace d = false) :
    (Lexer.standing T i b ' ' (d :: ps)).NextToken
      = (Lexer.standing T i (b + 1) d ps).NextToken := by
  have hsp : T.IsSpace ' ' = true := by
    rw [T.IsSpace_latin1 _ (by decide)]
    decide
  have h1 : (Lexer.standing T i b ' ' (d :: ps)).skipWhitespace
      = Lexer.standing T i (b + 1) d ps :=
    Lexer.readWhile_run T i (fun c => T.IsSpace c) (d :: ps) hd [] b ' '
      ((d :: ps).length + 1) hsp (fun _ h => absurd h (List.not_mem_nil _)) (by simp)
  have h2 : (Lexer.standing T i (b + 1) d ps).skipWhitespace = _ :=
    Lexer.readWhile_stop _ _ _ hd
  simp only [Lexer.NextToken, h1, h2]

/-- On `=` followed by a one-byte rune other than `=`, `NextToken` yields `ASSIGN`. -/
theorem Lexer.NextToken_assign (T : UnicodeTables) (pre post : List Char) (d : Char)
    (hd1 : d.utf8Size = 1) (hd : d ≠ '=') :
    (Lexer.standing T (pre ++ '=' :: d :: post) (byteLen pre) '=' (d :: post)).NextToken
      = some ({ type := .ASSIGN, literal := "=" },
          Lexer.standing T (pre ++ '=' :: d :: post) (byteLen pre + 1) d post) := by
  have hsp : T.IsSpace '=' = false := by
    rw [T.IsSpace_latin1 _ (by decide)]
    decide
  have hskip : (Lexer.standing T (pre ++ '=' :: d :: post) (byteLen pre) '='
      (d :: post)).skipWhitespace = _ := Lexer.readWhile_stop _ _ _ hsp
  have hchar : (Lexer.standing T (pre ++ '=' :: d :: post) (byteLen pre) '='
      (d :: post)).character = '=' := rfl
  have hlen : byteLen (pre ++ '=' :: d :: post) = byteLen pre + (1 + (1 + byteLen post)) := by
    rw [byteLen_append]
    simp only [byteLen, hd1]
    rfl
  have hrune : runeOfByteAt (pre ++ '=' :: d :: post) (byteLen pre + 1) = d := by
    have h := runeOfByteAt_mid d post (pre ++ ['='])
    rw [byteLen_append, List.append_assoc, if_pos hd1] at h
    exact h
  have hpeek : (Lexer.standing T (pre ++ '=' :: d :: post) (byteLen pre) '='
      (d :: post)).peekChar = some d := by
    have hrp : (Lexer.standing T (pre ++ '=' :: d :: post) (byteLen pre) '='
        (d :: post)).readPosition = byteLen pre + 1 := rfl
    have hin : (Lexer.standing T (pre ++ '=' :: d :: post) (byteLen pre) '='
        (d :: post)).input = pre ++ '=' :: d :: post := rfl
    rw [Lexer.peekChar, hrp, hin, hlen, if_neg (by omega), if_pos (by omega), hrune]
  simp only [Lexer.NextToken, hskip, hchar, if_true, Lexer.determineTokenType, hpeek,
    if_neg hd, Option.map_some']
  rfl

/-- On `;`, `NextToken` yields `SEMICOLON`. -/
theorem Lexer.NextToken_semicolon (T : UnicodeTables) (i : List Char) (b : Nat)
    (ps : List Char) :
    (Lexer.standing T i b ';' ps).NextToken
      = some ({ type := .SEMICOLON, literal := ";" },
          Lexer.standing T i (b + 1) (ps.headD (Char.ofNat 0)) ps.tail) := by
  have hsp : T.IsSpace ';' = false := by
    rw [T.IsSpace_latin1 _ (by decide)]
    decide
  have hskip : (Lexer.standing T i b ';' ps).skipWhitespace = _ :=
    Lexer.readWhile_stop _ _ _ hsp
  have hchar : (Lexer.standing T i b ';' ps).character = ';' := rfl
  simp only [Lexer.NextToken, hskip, hchar]
  rw [if_neg (by decide), if_neg (by decide), if_neg (by decide), if_neg (by decide),
    if_neg (by decide), if_neg (by decide), if_neg (by decide), if_neg (by decide),
    if_neg (by decide), if_neg (by decide), if_neg (by decide), if_neg (by decide),
    if_neg (by decide), if_true, Lexer.readChar_standing]
  rfl

/-- One token read off the front of what the lexer yields. -/
theorem Lexer.yields_step (l l2 : Lexer) (t : Token) (ts : List Token)
    (h : l.NextToken = some (t, l2)) : l.yields (t :: ts) = l2.yields ts := by
  simp [Lexer.yields, h]

/-- The lexer on the text `let x = n;`, for a run `x` of letters and `_`: the five tokens
of the statement, the second of the type the keyword table gives `x`. -/
theorem Lexer.yields_let (T : UnicodeTables) (x : Text) (n : Nat) (hne : x.data ≠ [])
    (hword : ∀ y ∈ x.data, (T.IsLetter y || y == '_') = true)
    (hsp : ∀ y ∈ x.data, T.IsSpace y = false) :
    (Lexer.New T ("let " ++ x ++ " = " ++ toString n ++ ";")).yields
      [{ type := .LET, literal := "let" }, { type := LookupIndent x, literal := x },
       { type := .ASSIGN, literal := "=" }, intToken n,
       { type := .SEMICOLON, literal := ";" }] = true := by
  have hdata : (toString n).data = Nat.toDigitsCore 10 (n + 1) n [] := rfl
  have hdne := toDigitsCore_ne_nil (n + 1) n [] (by omega)
  have hdig := toDigitsCore_digits (n + 1) n []
  obtain ⟨c, xr, hx⟩ : ∃ c xr, x.data = c :: xr := List.exists_cons_of_ne_nil hne
  obtain ⟨d, dr, hd⟩ : ∃ d dr, (toString n).data = d :: dr :=
    List.exists_cons_of_ne_nil (by rw [hdata]; exact hdne)
  have hall : ∀ y ∈ d :: dr, 48 ≤ y.toNat ∧ y.toNat ≤ 57 := by
    intro y hy
    rw [← hd, hdata] at hy
    simpa using hdig y hy
  have hxs : x = String.mk (c :: xr) := by rw [← hx]
  have hns : toString n = String.mk (d :: dr) := by rw [← hd]
  have hd0 := hall d (List.mem_cons_self _ _)
  obtain ⟨_, _, hdsp⟩ := T.classes_of_digit d hd0
  have hsrc : ("let " ++ x ++ " = " ++ toString n ++ ";").data
      = 'l' :: 'e' :: 't' :: ' ' :: c :: (xr ++ ' ' :: '=' :: ' ' :: d :: (dr ++ [';'])) := by
    simp only [String.data_append, hx, hd]
    simp
  -- the keyword
  have h1 := Lexer.NextToken_word T [] ['e', 't']
    (' ' :: c :: (xr ++ ' ' :: '=' :: ' ' :: d :: (dr ++ [';']))) 'l'
    (by rw [T.IsLetter_latin1 _ (by decide)]; decide)
    (by rw [T.IsSpace_latin1 _ (by decide)]; decide)
    (by
      intro y hy
      simp only [List.mem_cons, List.mem_singleton, List.not_mem_nil, or_false] at hy
      rcases hy with rfl | rfl <;> (rw [T.IsLetter_latin1 _ (by decide)]; decide))
    (by
      simp only [List.headD_cons]
      rw [T.IsLetter_latin1 _ (by decide)]
      decide)
  -- the name
  have h2 := Lexer.NextToken_word T ['l', 'e', 't', ' '] xr
    (' ' :: '=' :: ' ' :: d :: (dr ++ [';'])) c
    (hword c (by rw [hx]; exact List.mem_cons_self _ _))
    (hsp c (by rw [hx]; exact List.mem_cons_self _ _))
    (fun y hy => hword y (by rw [hx]; exact List.mem_cons_of_mem _ hy))
    (by
      simp only [List.headD_cons]
      rw [T.IsLetter_latin1 _ (by decide)]
      decide)
  -- the sign
  have h3 := Lexer.NextToken_assign T (['l', 'e', 't', ' '] ++ (c :: xr) ++ [' '])
    (d :: (dr ++ [';'])) ' ' rfl (by decide)
  -- the numeral
  have h4 := Lexer.NextToken_digits T (['l', 'e', 't', ' '] ++ (c :: xr) ++ [' ', '=', ' '])
    dr [';'] d hd0 (fun y hy => hall y (List.mem_cons_of_mem _ hy))
    (by
      simp only [List.headD_cons]
      rw [T.IsDigit_latin1 _ (by decide)]
      decide)
  have e3 : ['l', 'e', 't', ' '] ++ (c :: xr) ++ [' '] ++ '=' :: ' ' :: d :: (dr ++ [';'])
      = 'l' :: 'e' :: 't' :: ' ' :: c :: (xr ++ ' ' :: '=' :: ' ' :: d :: (dr ++ [';'])) := by
    simp
  have e4 : ['l', 'e', 't', ' '] ++ (c :: xr) ++ [' ', '=', ' '] ++ (d :: dr) ++ [';']
      = 'l' :: 'e' :: 't' :: ' ' :: c :: (xr ++ ' ' :: '=' :: ' ' :: d :: (dr ++ [';'])) := by
    simp
  have b3 : byteLen (['l', 'e', 't', ' '] ++ (c :: xr) ++ [' '])
      = 4 + byteLen (c :: xr) + 1 := by
    rw [byteLen_append, byteLen_append]
    rfl
  have b4 : byteLen (['l', 'e', 't', ' '] ++ (c :: xr) ++ [' ', '=', ' '])
      = 4 + byteLen (c :: xr) + 1 + 1 + 1 := by
    rw [byteLen_append, byteLen_append]
    rfl
  rw [e3, b3] at h3
  rw [e4, b4, ← hns] at h4
  rw [← hxs] at h2
  have s1 : (Lexer.standing T
        ('l' :: 'e' :: 't' :: ' ' :: c :: (xr ++ ' ' :: '=' :: ' ' :: d :: (dr ++ [';'])))
        0 'l' ('e' :: 't' :: ' ' :: c :: (xr ++ ' ' :: '=' :: ' ' :: d :: (dr ++ [';'])))).NextToken
      = some ({ type := .LET, literal := "let" }, Lexer.standing T
        ('l' :: 'e' :: 't' :: ' ' :: c :: (xr ++ ' ' :: '=' :: ' ' :: d :: (dr ++ [';'])))
        3 ' ' (c :: (xr ++ ' ' :: '=' :: ' ' :: d :: (dr ++ [';'])))) := by
    have hlet : LookupIndent (String.mk ('l' :: ['e', 't'])) = .LET := by decide
    rw [hlet] at h1
    exact h1
  have s2 : (Lexer.standing T
        ('l' :: 'e' :: 't' :: ' ' :: c :: (xr ++ ' ' :: '=' :: ' ' :: d :: (dr ++ [';'])))
        3 ' ' (c :: (xr ++ ' ' :: '=' :: ' ' :: d :: (dr ++ [';'])))).NextToken
      = some ({ type := LookupIndent x, literal := x }, Lexer.standing T
        ('l' :: 'e' :: 't' :: ' ' :: c :: (xr ++ ' ' :: '=' :: ' ' :: d :: (dr ++ [';'])))
        (4 + byteLen (c :: xr)) ' ' ('=' :: ' ' :: d :: (dr ++ [';']))) :=
    (Lexer.NextToken_after_space T _ 3 c _
      (hsp c (by rw [hx]; exact List.mem_cons_self _ _))).trans h2
  have s3 : (Lexer.standing T
        ('l' :: 'e' :: 't' :: ' ' :: c :: (xr ++ ' ' :: '=' :: ' ' :: d :: (dr ++ [';'])))
        (4 + byteLen (c :: xr)) ' ' ('=' :: ' ' :: d :: (dr ++ [';']))).NextToken
      = some ({ type := .ASSIGN, literal := "=" }, Lexer.standing T
        ('l' :: 'e' :: 't' :: ' ' :: c :: (xr ++ ' ' :: '=' :: ' ' :: d :: (dr ++ [';'])))
        (4 + byteLen (c :: xr) + 1 + 1) ' ' (d :: (dr ++ [';']))) :=
    (Lexer.NextToken_after_space T _ _ '=' _
      (by rw [T.IsSpace_latin1 _ (by decide)]; decide)).trans h3
  have s4 : (Lexer.standing T
        ('l' :: 'e' :: 't' :: ' ' :: c :: (xr ++ ' ' :: '=' :: ' ' :: d :: (dr ++ [';'])))
        (4 + byteLen (c :: xr) + 1 + 1) ' ' (d :: (dr ++ [';']))).NextToken
      = some (intToken n, Lexer.standing T
        ('l' :: 'e' :: 't' :: ' ' :: c :: (xr ++ ' ' :: '=' :: ' ' :: d :: (dr ++ [';'])))
        (4 + byteLen (c :: xr) + 1 + 1 + 1 + byteLen (d :: dr)) ';' []) :=
    (Lexer.NextToken_after_space T _ _ d _ hdsp).trans h4
  have s5 := Lexer.NextToken_semicolon T
    ('l' :: 'e' :: 't' :: ' ' :: c :: (xr ++ ' ' :: '=' :: ' ' :: d :: (dr ++ [';'])))
    (4 + byteLen (c :: xr) + 1 + 1 + 1 + byteLen (d :: dr)) []
  rw [Lexer.New_standing, hsrc]
  simp only [List.headD_cons, List.tail_cons]
  rw [Lexer.yields_step _ _ _ _ s1, Lexer.yields_step _ _ _ _ s2, Lexer.yields_step _ _ _ _ s3,
    Lexer.yields_step _ _ _ _ s4, Lexer.yields_step _ _ _ _ s5]
  rfl

/-- `ParseProgram` on the tokens of `let x = n;`: one let statement, and no new error. -/
theorem ParseProgram_let (p : Parser) (x : Text) (n : Nat)
    (hp : p.Reads [{ type := .LET, literal := "let" }, identToken x,
      { type := .ASSIGN, literal := "=" }, intToken n, { type := .SEMICOLON, literal := ";" }])
    (hn : n < 9223372036854775808) (fuel : Nat) (hfuel : 5 ≤ fuel) :
    ∃ p2, ParseProgram fuel p
        = .ok ([.LetStatement { type := .LET, literal := "let" }
            { token := identToken x, value := x } (intLeaf n)], p2) ∧
      p2.errors = p.errors := by
  obtain ⟨ht, hA⟩ := hp
  simp only [List.headD_cons, List.tail_cons] at ht hA
  obtain ⟨f, rfl⟩ : ∃ f, fuel = f + 5 := ⟨fuel - 5, by omega⟩
  have hr0 : p.readToken.type = .IDENT := by rw [hA.1]; rfl
  obtain ⟨p1, hp1, ht1, hA1, he1⟩ := p.nextToken_Ahead _ _ hA
  have hr1 : p1.readToken.type = .ASSIGN := by rw [hA1.1]; rfl
  obtain ⟨p2, hp2, ht2, hA2, he2⟩ := p1.nextToken_Ahead _ _ hA1
  obtain ⟨p3, hp3, ht3, hA3, he3⟩ := p2.nextToken_Ahead _ _ hA2
  obtain ⟨p4, hp4, hA4, he4⟩ := (chain_specs 0).2 [] n LOWEST p3
    [{ type := .SEMICOLON, literal := ";" }] (f + 2) (le_refl _) ht3
    (by simpa [opTokens] using hA3) rfl hn (fun _ h => absurd h (List.not_mem_nil _))
    (by simp)
  simp only [List.takeWhile_nil, List.dropWhile_nil, refLevel_nil, opTokens,
    List.nil_append] at hp4 hA4
  have hr4 : p4.readToken.type = .SEMICOLON := by rw [hA4.1]; rfl
  obtain ⟨p5, hp5, ht5, hA5, he5⟩ := p4.nextToken_Ahead _ _ hA4
  obtain ⟨p6, hp6, ht6, _, he6⟩ := p5.nextToken_Ahead_nil hA5
  refine ⟨p6, ?_, by rw [he6, he5, he4, he3, he2, he1]⟩
  have hstmt : parseStatement (f + 4) p
      = .ok (.LetStatement { type := .LET, literal := "let" }
          { token := identToken x, value := x } (intLeaf n), p5) := by
    rw [parseStatement, if_pos (by rw [ht]), parseLetStatement]
    simp only [Parser.expectRead, hr0, hr1, if_true, hp1, hp2, hp3, hp4, hp5, Res.ok_bind,
      Res.pure_eq, Bool.not_true, Bool.false_eq_true, if_false, ht, ht1, identToken,
      Parser.skipSemicolon]
    simp only [hr4, if_true, Res.ok_bind]
  have h1 : p.token.type ≠ .EOF := by rw [ht]; simp
  rw [ParseProgram, parseProgramLoop, if_pos h1]
  simp only [hstmt, Res.ok_bind, hp6, ast.Node.isNil, Bool.false_eq_true, if_false,
    List.nil_append]
  rw [parseProgramLoop, if_neg]
  rw [ht6]
  simp [eofToken]

/-- The text of the program that holds the one statement `let x = n`. -/
theorem render_let (x : Text) (n : Nat) :
    (ast.Node.Program [.LetStatement { type := .LET, literal := "let" }
        { token := identToken x, value := x } (intLeaf n)]).render
      = some ("let " ++ x ++ " = " ++ toString n) := by
  have hint : toString (n : Int) = toString n := rfl
  have hl : ("let" ++ " " : String) = "let " := by decide
  simp only [ast.Node.render, ast.renderConcat, intLeaf, ast.Node.isNil, fmtOperand,
    Bool.false_eq_true, if_false, hint, String.append_empty, hl]

/-- C35 as amended: rendering round trip for let statements. For every identifier `x` (a
non-empty run of letters and `_`, as the lexer reads identifiers, none of them white space)
that is not a keyword, and every integer `n` within the range of a host int (`n < 2^63`)
written as its decimal numeral `toString n`, which has no leading zero, tokenizing and
parsing the text `let x = n;` gives, with no parser error, the program of the one statement
`let x = n`, and `Program.String()` of that program is exactly the text `let x = n`. At the
end the input of `TestStringMethod`, which renders as `let five = 10`. -/
theorem let_statement_round_trip (T : UnicodeTables) (x : Text) (n fuel : Nat)
    (hne : x.data ≠ [])
    (hword : ∀ y ∈ x.data, (T.IsLetter y || y == '_') = true)
    (hsp : ∀ y ∈ x.data, T.IsSpace y = false)
    (hkw : x ∉ ["fn", "let", "if", "else", "return", "true", "false", "while"])
    (hn : n < 9223372036854775808) (hfuel : 5 ≤ fuel) :
    parseSource T fuel ("let " ++ x ++ " = " ++ toString n ++ ";")
      = .ok ([.LetStatement { type := .LET, literal := "let" }
          { token := identToken x, value := x } (intLeaf n)], []) ∧
    (ast.Node.Program [.LetStatement { type := .LET, literal := "let" }
        { token := identToken x, value := x } (intLeaf n)]).render
      = some ("let " ++ x ++ " = " ++ toString n) ∧
    parseSource latin1Only 5 "\n\t\tlet five = 10;\n\t"
      = .ok ([.LetStatement { type := .LET, literal := "let" }
          { token := identToken "five", value := "five" } (intLeaf 10)], []) ∧
    (ast.Node.Program [.LetStatement { type := .LET, literal := "let" }
        { token := identToken "five", value := "five" } (intLeaf 10)]).render
      = some "let five = 10" := by
  refine ⟨?_, render_let x n, by decide!, by decide!⟩
  have hlex := Lexer.yields_let T x n hne hword hsp
  rw [LookupIndent_of_not_keyword x hkw] at hlex
  obtain ⟨p, hnew, hreads, herr⟩ := Parser.New_Reads _ _ hlex
  obtain ⟨p2, hparse, herr2⟩ := ParseProgram_let p x n hreads hn fuel hfuel
  simp only [parseSource, hnew, Res.ok_bind, hparse, Res.pure_eq, herr2, herr]

/-- C35 as amended, at a concrete input: `let five = 10;` renders as `let five = 10`. -/
theorem let_statement_round_trip_witness :
    parseSource latin1Only 5 "let five = 10;"
      = .ok ([.LetStatement { type := .LET, literal := "let" }
          { token := identToken "five", value := "five" } (intLeaf 10)], []) ∧
    (ast.Node.Program [.LetStatement { type := .LET, literal := "let" }
        { token := identToken "five", value := "five" } (intLeaf 10)]).render
      = some "let five = 10" := by
  have h := let_statement_round_trip latin1Only "five" 10 5 (by decide) (by decide)
    (by decide) (by decide) (by decide) (by decide)
  have e1 : ("let " ++ "five" ++ " = " ++ toString 10 ++ ";" : String) = "let five = 10;" := by
    decide
  have e2 : ("let " ++ "five" ++ " = " ++ toString 10 : String) = "let five = 10" := by
    decide
  rw [e1, e2] at h
  exact ⟨h.1, h.2.1⟩

/-! ## A `return` inside `if` statements -/

/-- `evalIf` evaluates the block that its conditions pick. -/
theorem evalIfLoop_pickBlock (ev : Evaluator) (consequences : List ast.BlockStatement)
    (alternative : ast.BlockStatement) (env : EnvRef) :
    ∀ (conditions : List ast.Node) (i : Nat) (h h1 : Heap) (b : ast.BlockStatement),
      pickBlock ev consequences alternative conditions i env h = some (b, h1) →
      evalIfLoop ev consequences alternative conditions i env h
        = ev (.BlockStatement b) env h1 := by
  intro conditions
  induction conditions with
  | nil =>
    intro i h h1 b hpick
    simp only [pickBlock, Option.some.injEq, Prod.mk.injEq] at hpick
    rw [evalIfLoop, hpick.1, hpick.2]
  | cons c rest ih =>
    intro i h h1 b hpick
    simp only [pickBlock] at hpick
    cases hc : ev c env h with
    | ok r =>
      obtain ⟨v, h3⟩ := r
      rw [hc] at hpick
      simp only at hpick
      by_cases herr : v.type = .ErrorType
      · simp [herr] at hpick
      · rw [if_neg herr] at hpick
        by_cases htrue : isTruthy v = true
        · rw [if_pos htrue] at hpick
          cases hcons : consequences[i]? with
          | none => simp [hcons] at hpick
          | some b2 =>
            simp only [hcons, Option.map_some', Option.some.injEq, Prod.mk.injEq] at hpick
            simp only [evalIfLoop, hc, Res.ok_bind, herr, if_false, htrue, if_true, hcons,
              hpick.1, hpick.2]
        · rw [if_neg htrue] at hpick
          simp only [evalIfLoop, hc, Res.ok_bind, herr, if_false, htrue]
          exact ih (i + 1) h3 h1 b hpick
    | panic m => rw [hc] at hpick; cases hpick
    | outOfFuel => rw [hc] at hpick; cases hpick

/-- A statement list whose statements reach a `return`: the loops of `evalBlock` and of
`evalProgram` stop there, the first with the Return signal and the second with its
value. -/
theorem firstReturnIn_loops (reach : ast.Node → EnvRef → Heap → Option (Object × Heap))
    (ev : Evaluator)
    (hreach : ∀ (s : ast.Node) (env : EnvRef) (h h2 : Heap) (v : Object),
      reach s env h = some (v, h2) → ev s env h = .ok (.Return v, h2))
    (env : EnvRef) (v : Object) (h2 : Heap) :
    ∀ (statements : List ast.Node) (h : Heap) (res : Option Object),
      firstReturnIn reach ev statements env h = some (v, h2) →
      evalBlockLoop ev statements env res h = .ok (.Return v, h2) ∧
      evalProgramLoop ev statements env res h = .ok (v, h2) := by
  intro statements
  induction statements with
  | nil =>
    intro h res hsite
    simp [firstReturnIn] at hsite
  | cons s rest ih =>
    intro h res hsite
    simp only [firstReturnIn] at hsite
    cases hr : reach s env h with
    | some r =>
      rw [hr] at hsite
      simp only [Option.some.injEq] at hsite
      subst hsite
      have hs := hreach s env h h2 v hr
      simp [evalBlockLoop, evalProgramLoop, hs, Object.type]
    | none =>
      rw [hr] at hsite
      simp only at hsite
      cases hs : ev s env h with
      | ok r =>
        obtain ⟨o, h1⟩ := r
        rw [hs] at hsite
        simp only at hsite
        by_cases ho : o.type = .ReturnType ∨ o.type = .ErrorType
        · simp [ho] at hsite
        · rw [if_neg ho] at hsite
          have hrest := ih h1 (some o) hsite
          simp only [not_or] at ho
          refine ⟨?_, ?_⟩
          · simp only [evalBlockLoop, hs, Res.ok_bind, ho.1, ho.2, or_self, if_false]
            exact hrest.1
          · simp only [evalProgramLoop, hs, Res.ok_bind]
            cases o <;> first
              | exact absurd rfl ho.1
              | exact absurd rfl ho.2
              | exact (ih h1 _ hsite).2
      | panic m => rw [hs] at hsite; cases hsite
      | outOfFuel => rw [hs] at hsite; cases hsite

/-- A statement that reaches a `return` evaluates to the Return signal of its value, with
the memory as the `return` left it. -/
theorem returnSite_Eval :
    ∀ (fuel : Nat) (s : ast.Node) (env : EnvRef) (h h2 : Heap) (v : Object),
      returnSite fuel s env h = some (v, h2) → Eval fuel s env h = .ok (.Return v, h2) := by
  intro fuel
  induction fuel using Nat.strong_induction_on with
  | _ fuel ih =>
    intro s env h h2 v hsite
    cases fuel with
    | zero => simp [returnSite] at hsite
    | succ f =>
      cases s with
      | ReturnStatement tok e =>
        simp only [returnSite] at hsite
        cases he : Eval f e env h with
        | ok r =>
          obtain ⟨w, h3⟩ := r
          rw [he] at hsite
          simp only at hsite
          by_cases herr : w.type = .ErrorType
          · simp [herr] at hsite
          · simp only [herr, if_false, Option.some.injEq, Prod.mk.injEq] at hsite
            obtain ⟨rfl, rfl⟩ := hsite
            simp only [Eval, he, Res.ok_bind, herr, if_false, Res.pure_eq]
        | panic m => rw [he] at hsite; cases hsite
        | outOfFuel => rw [he] at hsite; cases hsite
      | ExpressionStatement tok e =>
        cases e with
        | If t conditions consequences alternative =>
          cases f with
          | zero => simp [returnSite] at hsite
          | succ f =>
            cases f with
            | zero => simp [returnSite] at hsite
            | succ g =>
              simp only [returnSite] at hsite
              cases hp : pickBlock (Eval (g + 1)) consequences alternative conditions 0 env h with
              | none => rw [hp] at hsite; cases hsite
              | some r =>
                obtain ⟨b, h1⟩ := r
                rw [hp] at hsite
                simp only at hsite
                have hloops := firstReturnIn_loops (returnSite g) (Eval g)
                  (fun s env h h2 v hs => ih g (by omega) s env h h2 v hs)
                  (NewEnclosedEnvironment h1 env).1 v h2 b.statements
                  (NewEnclosedEnvironment h1 env).2 none hsite
                have hblock : Eval (g + 1) (.BlockStatement b) env h1 = .ok (.Return v, h2) := by
                  rw [Eval, evalBlock]
                  exact hloops.1
                rw [Eval, Eval, evalIf,
                  evalIfLoop_pickBlock (Eval (g + 1)) consequences alternative env conditions 0
                    h h1 b hp]
                exact hblock
        | _ => simp [returnSite] at hsite
      | _ => simp [returnSite] at hsite


/-- Statements that run without a Return or an Error in front of a statement that reaches
a `return`: the list reaches that `return`. -/
theorem firstReturnIn_append (fuel : Nat) (env : EnvRef) (s : ast.Node) (post : List ast.Node)
    (r : Object × Heap) :
    ∀ (pre : List ast.Node) (h h1 : Heap),
      runStatements (Eval fuel) pre env h = some h1 → returnSite fuel s env h1 = some r →
      firstReturnIn (returnSite fuel) (Eval fuel) (pre ++ s :: post) env h = some r := by
  intro pre
  induction pre with
  | nil =>
    intro h h1 hrun hs
    simp only [runStatements, Option.some.injEq] at hrun
    subst hrun
    simp only [List.nil_append, firstReturnIn, hs]
  | cons c pre ih =>
    intro h h1 hrun hs
    obtain ⟨o, h3, hc, ho1, ho2, hrest⟩ := runStatements_cons (Eval fuel) c pre env h h1 hrun
    have hnone : returnSite fuel c env h = none := by
      cases hsite : returnSite fuel c env h with
      | none => rfl
      | some q =>
        have := returnSite_Eval fuel c env h q.2 q.1 hsite
        rw [hc] at this
        simp only [Res.ok.injEq, Prod.mk.injEq] at this
        rw [this.1] at ho1
        exact absurd rfl ho1
    simp only [List.cons_append, firstReturnIn, hnone, hc, ho1, ho2, or_self, if_false]
    exact ih h3 h1 hrest hs

/-- C4 fails as stated: a `return` inside the `if` that is the value of a `let` is the
first statement to yield a Return, and the program does not yield its value 5: the `let`
binds the Return signal and the program goes on to yield 7. A `return` inside an `if` of a
function body ends the call, not the program, which goes on to yield 7 as well. -/
theorem return_in_let_value_is_lost :
    evalValue latin1Only 60 "let y = if (true) \x7b return 5 \x7d; 7" = .ok (.Integer 7) ∧
    evalValue latin1Only 60 "let y = if (true) \x7b return 5 \x7d; 7" ≠ .ok (.Integer 5) ∧
    evalValue latin1Only 60 "let f = fn() \x7b if (true) \x7b return 5 \x7d \x7d; f(); 7"
      = .ok (.Integer 7) := by
  refine ⟨by decide!, by decide!, by decide!⟩

/-- C4 as amended: return propagation through `if` statements. Let the statements of a list
reach a `return` (`firstReturnIn` with `returnSite`): the first statement of the list that
yields a Return or an Error is `return e` with `e` evaluating to a value `v` that is no
Error, or it is an `if` that stands as a statement, evaluates one of its blocks, and the
statements of that block reach such a `return` in turn, at any depth. Then the program of
these statements yields `v`, and a block of these statements yields the Return signal of
`v`, both with the memory `h2` as the evaluation of `e` left it: no later statement of any
enclosing block is evaluated. The three conjuncts after that say which lists reach a
`return`: statements that yield neither Return nor Error may stand in front; `return e`
reaches its own value; an `if` statement reaches what the statements of the block it picks
reach. The two programs of the claim are evaluated at the end. -/
theorem return_reached_through_if_statements (fuel : Nat) (statements : List ast.Node)
    (env : EnvRef) (h h2 : Heap) (v : Object)
    (hsite : firstReturnIn (returnSite fuel) (Eval fuel) statements env h = some (v, h2)) :
    Eval (fuel + 1) (.Program statements) env h = .ok (v, h2) ∧
    (∀ (t : Token) (outer : EnvRef) (h0 : Heap), NewEnclosedEnvironment h0 outer = (env, h) →
      Eval (fuel + 1) (.BlockStatement (.mk t statements)) outer h0 = .ok (.Return v, h2)) ∧
    (∀ (f : Nat) (pre post : List ast.Node) (s : ast.Node) (e1 : EnvRef) (g g1 : Heap)
      (r : Object × Heap), runStatements (Eval f) pre e1 g = some g1 →
      returnSite f s e1 g1 = some r →
      firstReturnIn (returnSite f) (Eval f) (pre ++ s :: post) e1 g = some r) ∧
    (∀ (f : Nat) (tok : Token) (e : ast.Node) (e1 : EnvRef) (g g1 : Heap) (w : Object),
      Eval f e e1 g = .ok (w, g1) → w.type ≠ .ErrorType →
      returnSite (f + 1) (.ReturnStatement tok e) e1 g = some (w, g1)) ∧
    (∀ (f : Nat) (tok t : Token) (conditions : List ast.Node)
      (consequences : List ast.BlockStatement) (alternative b : ast.BlockStatement)
      (e1 : EnvRef) (g g1 : Heap),
      pickBlock (Eval (f + 1)) consequences alternative conditions 0 e1 g = some (b, g1) →
      returnSite (f + 3)
          (.ExpressionStatement tok (.If t conditions consequences alternative)) e1 g
        = firstReturnIn (returnSite f) (Eval f) b.statements
            (NewEnclosedEnvironment g1 e1).1 (NewEnclosedEnvironment g1 e1).2) ∧
    evalValue latin1Only 60 "5; return 2 * 5; 5" = .ok (.Integer 10) ∧
    evalValue latin1Only 60 "if (2 > 1) \x7b if (2 > 1) \x7b return 10 \x7d return 1 \x7d"
      = .ok (.Integer 10) ∧
    evalValue latin1Only 60
        "1; if (1 > 2) \x7b 2 \x7d else \x7b 3; if (2 > 1) \x7b 4; return 10; 5 \x7d 6 \x7d 7"
      = .ok (.Integer 10) := by
  have hloops := firstReturnIn_loops (returnSite fuel) (Eval fuel)
    (fun s env h h2 v hs => returnSite_Eval fuel s env h h2 v hs) env v h2 statements
  refine ⟨?_, ?_, ?_, ?_, ?_, by decide!, by decide!, by decide!⟩
  · rw [Eval, evalProgram]
    exact (hloops h none hsite).2
  · intro t outer h0 hnew
    rw [Eval, ast.BlockStatement.statements, evalBlock, hnew]
    exact (hloops h none hsite).1
  · intro f pre post s e1 g g1 r hrun hs
    exact firstReturnIn_append f e1 s post r pre g g1 hrun hs
  · intro f tok e e1 g g1 w he hw
    simp only [returnSite, he, hw, if_false]
  · intro f tok t conditions consequences alternative b e1 g g1 hp
    simp only [returnSite, hp]

/-- C4 as amended, at a concrete input: the program
`if (2 > 1) { if (2 > 1) { return 10 } return 1 }`, as `ParseProgram` returns it, reaches
the inner `return` and yields 10, with the two scopes of the two blocks in the memory. -/
theorem return_reached_through_if_statements_witness :
    parseSource latin1Only 60
        "if (2 > 1) \x7b if (2 > 1) \x7b return 10 \x7d return 1 \x7d"
      = .ok ([.ExpressionStatement ⟨.IF, "if"⟩
          (.If ⟨.IF, "if"⟩ [infixNode .GT (intLeaf 2) (intLeaf 1)]
            [.mk ⟨.LBRACE, "\x7b"⟩
              [.ExpressionStatement ⟨.IF, "if"⟩
                (.If ⟨.IF, "if"⟩ [infixNode .GT (intLeaf 2) (intLeaf 1)]
                  [.mk ⟨.LBRACE, "\x7b"⟩ [.ReturnStatement ⟨.RETURN, "return"⟩ (intLeaf 10)]]
                  ast.BlockStatement.zero),
               .ReturnStatement ⟨.RETURN, "return"⟩ (intLeaf 1)]]
            ast.BlockStatement.zero)], []) ∧
    Eval 11 (.Program [.ExpressionStatement ⟨.IF, "if"⟩
          (.If ⟨.IF, "if"⟩ [infixNode .GT (intLeaf 2) (intLeaf 1)]
            [.mk ⟨.LBRACE, "\x7b"⟩
              [.ExpressionStatement ⟨.IF, "if"⟩
                (.If ⟨.IF, "if"⟩ [infixNode .GT (intLeaf 2) (intLeaf 1)]
                  [.mk ⟨.LBRACE, "\x7b"⟩ [.ReturnStatement ⟨.RETURN, "return"⟩ (intLeaf 10)]]
                  ast.BlockStatement.zero),
               .ReturnStatement ⟨.RETURN, "return"⟩ (intLeaf 1)]]
            ast.BlockStatement.zero)]) 0 ⟨[⟨[], none⟩], [], [], [], []⟩
      = .ok (.Integer 10,
          ⟨[⟨[], none⟩, ⟨[], some 0⟩, ⟨[], some 1⟩], [], [], [], []⟩) :=
  ⟨by decide!,
   (return_reached_through_if_statements 10 _ 0 ⟨[⟨[], none⟩], [], [], [], []⟩
      ⟨[⟨[], none⟩, ⟨[], some 0⟩, ⟨[], some 1⟩], [], [], [], []⟩ (.Integer 10)
      (by decide!)).1⟩

/-! ## Errors that do not stop the program -/

/-- C3 on the code: in the body of `f` the statement `5 + true` evaluates to an Error
inside a nested block; the blocks return it (the call of `f` alone yields Null, not
the 1 of `return 1`), but `evalFunction` turns every body result that is no Return into
Null, so the later statement `7` of the program is evaluated and the program yields 7 and
not the Error. In the same way the Error of a statement of the block that is the index of
`[1][...]` is lost, since the index expression then yields its left side. Where no call
and no index stands between the statement and the program, the Error is the result: the
two programs of the claim, and an Error inside two nested blocks of a loop. -/
theorem error_in_function_body_does_not_stop_program :
    evalValue latin1Only 60
        "let f = fn() \x7b if (true) \x7b 5 + true \x7d return 1 \x7d; f(); 7"
      = .ok (.Integer 7) ∧
    evalValue latin1Only 60
        "let f = fn() \x7b if (true) \x7b 5 + true \x7d return 1 \x7d; f()"
      = .ok .Null ∧
    evalValue latin1Only 60 "[1][if (true) \x7b 5 + true \x7d]; 7" = .ok (.Integer 7) ∧
    evalValue latin1Only 60 "5 + true; 5"
      = .ok (.Error "type mismatch: INTEGER + BOOLEAN") ∧
    evalValue latin1Only 60
        "if (2 > 1) \x7b if (2 > 1) \x7b true + false \x7d return 1 \x7d"
      = .ok (.Error "unknown operator: BOOLEAN + BOOLEAN") ∧
    evalValue latin1Only 60
        "let n = 0; while (n < 3) \x7b if (true) \x7b -true \x7d n = n + 1 \x7d; n"
      = .ok (.Error "unknown operator: -BOOLEAN") := by
  refine ⟨by decide!, by decide!, by decide!, by decide!, by decide!, by decide!⟩

/-! ## Assignment of a value that carries a name -/

/-- C5 on the code: with `x` bound to 1 and `y` to 2, the right sides `if (true) { y }`,
`f()` with `f` returning `y`, and `a[0]` with `a = [y]` are no identifiers, but their values
carry the name `y`; `evalInfix` then takes both operands for identifiers, unwraps both and
reports the Error `unknown operator: INTEGER = INTEGER`, and `x` is not assigned. With a
right side whose value carries no name the assignment is performed: the program of the
claim, `x = y + 0`, `x = a[0]` with `a = [5]`, and an assignment from an inner scope. -/
theorem assignment_of_named_value_fails :
    evalValue latin1Only 60 "let x = 1; let y = 2; x = if (true) \x7b y \x7d; x"
      = .ok (.Error "unknown operator: INTEGER = INTEGER") ∧
    evalValue latin1Only 60
        "let x = 1; let y = 2; let f = fn() \x7b return y \x7d; x = f(); x"
      = .ok (.Error "unknown operator: INTEGER = INTEGER") ∧
    evalValue latin1Only 60 "let x = 1; let y = 2; let a = [y]; x = a[0]; x"
      = .ok (.Error "unknown operator: INTEGER = INTEGER") ∧
    evalValue latin1Only 60 "let z = -11 * (10 * -1); let zz = z + z; zz = 10; zz"
      = .ok (.Integer 10) ∧
    evalValue latin1Only 60 "let x = 1; let y = 2; x = y + 0; x" = .ok (.Integer 2) ∧
    evalValue latin1Only 60 "let x = 1; let a = [5]; x = a[0]; x" = .ok (.Integer 5) ∧
    evalValue latin1Only 60 "let x = 1; if (true) \x7b x = 2 \x7d; x" = .ok (.Integer 2) := by
  refine ⟨by decide!, by decide!, by decide!, by decide!, by decide!, by decide!, by decide!⟩

/-! ## Literals are rendered by their value -/

/-- C35 fails as stated: the text of an integer literal is not kept by the rendering. The
non-negative literal `007` is parsed without an error, and the program of `let x = 007;`
renders as `let x = 7`, not `let x = 007`. The literal `9223372036854775808` is beyond a
host int: the parser records an error and the program renders as
`let x = 9223372036854775807`. -/
theorem let_literal_rendered_by_value :
    parseSource latin1Only 5 "let x = 007;"
      = .ok ([.LetStatement { type := .LET, literal := "let" }
          { token := identToken "x", value := "x" }
          (.Integer { type := .INT, literal := "007" } 7)], []) ∧
    (ast.Node.Program [.LetStatement { type := .LET, literal := "let" }
        { token := identToken "x", value := "x" }
        (.Integer { type := .INT, literal := "007" } 7)]).render = some "let x = 7" ∧
    (ast.Node.Program [.LetStatement { type := .LET, literal := "let" }
        { token := identToken "x", value := "x" }
        (.Integer { type := .INT, literal := "007" } 7)]).render ≠ some "let x = 007" ∧
    parseSource latin1Only 5 "let x = 9223372036854775808;"
      = .ok ([.LetStatement { type := .LET, literal := "let" }
          { token := identToken "x", value := "x" }
          (.Integer { type := .INT, literal := "9223372036854775808" } 9223372036854775807)],
          [⟨"error parsing integer value: strconv.Atoi: parsing \"9223372036854775808\": value out of range"⟩]) ∧
    (ast.Node.Program [.LetStatement { type := .LET, literal := "let" }
        { token := identToken "x", value := "x" }
        (.Integer { type := .INT, literal := "9223372036854775808" }
          9223372036854775807)]).render = some "let x = 9223372036854775807" := by
  refine ⟨by decide!, by decide!, by decide!, by decide!, by decide!⟩

end Monkey
